import Mathlib

/-!
Verification model of the metric extraction and normalization engine of
`src/da/rms/git/git.py` (class `BenchRepo`).

The Python code is shallowly embedded: Python dicts become association
lists (`List (String × _)`, insertion order preserving, later assignment
replaces in place), Python scalars become the inductive type `Value`,
Python exceptions become `Except PyErr _`, and the regular-expression
engine and the external `dateutil` date parser are passed in as explicit
function parameters (they are external collaborators of the engine).
Python floats are modelled by exact fractions (`Frac`, an integer
numerator over a positive integer denominator, kept unnormalized so that
all arithmetic kernel-reduces); no claim below depends on floating-point
rounding.
-/

/-- Propositional equality on `Except` results is decidable componentwise. -/
instance {e a : Type} [DecidableEq e] [DecidableEq a] : DecidableEq (Except e a) :=
  fun x y =>
    match x, y with
    | .ok v, .ok w => decidable_of_iff (v = w) (by constructor <;> (intro h; cases h <;> rfl))
    | .error v, .error w => decidable_of_iff (v = w) (by constructor <;> (intro h; cases h <;> rfl))
    | .ok _, .error _ => isFalse (by intro h; cases h)
    | .error _, .ok _ => isFalse (by intro h; cases h)

namespace LLview

/-- Exact fractions: Python float values are modelled by
`num / (den1 + 1)` — the denominator is stored minus one, so it is
positive by construction and the cross-multiplied order below is a genuine
total order. Fractions are not reduced, so equality of Python floats is
the cross-multiplied `feq`, not `Eq`. -/
structure Frac where
  num : Int
  den1 : Nat
deriving DecidableEq

/-- The (positive) denominator of a fraction. -/
def Frac.den (q : Frac) : Int := (q.den1 : Int) + 1

/-- Build `n / d` for a positive `d`. -/
def fracOf (n : Int) (d : Nat) : Frac := ⟨n, d - 1⟩

/-- Embed an integer. -/
def fofInt (n : Int) : Frac := ⟨n, 0⟩

/-- Multiply two stored denominators: `(x+1)*(y+1) - 1`. -/
def dmul1 (x y : Nat) : Nat := x + y + x * y

/-- Addition of fractions. -/
def fadd (a b : Frac) : Frac :=
  ⟨a.num * b.den + b.num * a.den, dmul1 a.den1 b.den1⟩

/-- Subtraction of fractions. -/
def fsub (a b : Frac) : Frac :=
  ⟨a.num * b.den - b.num * a.den, dmul1 a.den1 b.den1⟩

/-- Multiplication of fractions. -/
def fmul (a b : Frac) : Frac := ⟨a.num * b.num, dmul1 a.den1 b.den1⟩

/-- Negation of a fraction. -/
def fneg (a : Frac) : Frac := ⟨-a.num, a.den1⟩

/-- Division of fractions; the caller checks for a zero divisor. The sign
is moved into the numerator to keep the denominator positive. -/
def fdiv (a b : Frac) : Frac :=
  if b.num < 0 then ⟨-(a.num * b.den), dmul1 a.den1 ((-b.num).toNat - 1)⟩
  else ⟨a.num * b.den, dmul1 a.den1 (b.num.toNat - 1)⟩

/-- Floor of a fraction (`Int.fdiv` floors for a positive denominator). -/
def ffloor (a : Frac) : Int := Int.fdiv a.num a.den

/-- Power with an integer exponent; a negative exponent inverts (callers
exclude a zero base first). -/
def fpow (a : Frac) (n : Int) : Frac :=
  match n with
  | .ofNat m => ⟨a.num ^ m, ((a.den ^ m).toNat : Nat) - 1⟩
  | .negSucc m =>
    if a.num < 0 then ⟨-(a.den ^ (m + 1)), ((-a.num) ^ (m + 1)).toNat - 1⟩
    else ⟨a.den ^ (m + 1), (a.num ^ (m + 1)).toNat - 1⟩

/-- Value equality of fractions (Python `==` on numbers). -/
def feq (a b : Frac) : Bool := a.num * b.den = b.num * a.den

/-- Value order on fractions (denominators are positive). -/
def fle (a b : Frac) : Bool := a.num * b.den ≤ b.num * a.den

/-- Strict value order on fractions. -/
def flt (a b : Frac) : Bool := a.num * b.den < b.num * a.den

/-- Binary maximum under the value order. -/
def fmax (a b : Frac) : Frac := if fle a b then b else a

/-- Python scalar values that occur in the engine's records. -/
inductive Value where
  | vStr : String → Value
  | vInt : Int → Value
  | vFloat : Frac → Value
  | vBool : Bool → Value
  | vNone : Value
deriving DecidableEq

/-- Python exceptions that the modelled code can raise. `rejectedExpr`
models the bare `Exception("UnsafeEval")` raised by `safe_math_eval`. -/
inductive PyErr where
  | keyErr | typeErr | valueErr | syntaxErr | zeroDivErr | idxErr | rejectedExpr
deriving DecidableEq

/-- A Python dict with string keys, as an insertion-ordered association list. -/
abbrev Dict (α : Type) := List (String × α)

/-- A record of the engine: a dict from canonical metric name to a value. -/
abbrev Record := Dict Value

/-- Dict lookup (`d[k]` / `d.get(k)`). -/
def dlookup {α : Type} (d : Dict α) (k : String) : Option α :=
  match d with
  | [] => none
  | (k', v) :: rest => if k' = k then some v else dlookup rest k

/-- Dict membership test (`k in d`). -/
def dcontains {α : Type} (d : Dict α) (k : String) : Bool :=
  (dlookup d k).isSome

/-- Dict assignment `d[k] = v`: replaces the value in place when the key
exists (keeping its position, as Python dicts do), else appends. -/
def dinsert {α : Type} (d : Dict α) (k : String) (v : α) : Dict α :=
  match d with
  | [] => [(k, v)]
  | (k', v') :: rest => if k' = k then (k, v) :: rest else (k', v') :: dinsert rest k v

/-- The keys of a dict, in order. -/
def dkeys {α : Type} (d : Dict α) : List String := d.map Prod.fst

/-- Python dict union `a | b`: `a`'s entries first, `b` overriding on collision. -/
def dunion {α : Type} (a b : Dict α) : Dict α :=
  b.foldl (fun acc kv => dinsert acc kv.1 kv.2) a

/-- Python truthiness of a scalar value. -/
def pyTruthy (v : Value) : Bool :=
  match v with
  | .vStr s => s ≠ ""
  | .vInt n => n ≠ 0
  | .vFloat q => q.num ≠ 0
  | .vBool b => b
  | .vNone => false

/-- The numeric value of a Python number (`bool` is an `int` subtype). -/
def numVal (v : Value) : Option Frac :=
  match v with
  | .vInt n => some (fofInt n)
  | .vFloat q => some q
  | .vBool b => some (fofInt (if b then 1 else 0))
  | _ => none

/-- Python `==` on scalar values: numbers compare by value across
`int`/`float`/`bool`, other types compare structurally. -/
def pyEq (a b : Value) : Bool :=
  match numVal a, numVal b with
  | some x, some y => feq x y
  | _, _ =>
    match a, b with
    | .vStr s, .vStr t => s = t
    | .vNone, .vNone => true
    | _, _ => false

/-- Python `str()` of a scalar. `str()` of a float is rendered by Python in
decimal; the exact digit string of a non-integral float is irrelevant to
every claim (it is only tested for emptiness), so the rational's canonical
representation is used. -/
def pyStr (v : Value) : String :=
  match v with
  | .vStr s => s
  | .vInt n => toString n
  | .vFloat q => if q.den = 1 then toString q.num ++ ".0" else toString q.num ++ "d" ++ toString q.den
  | .vBool b => if b then "True" else "False"
  | .vNone => "None"

/-- ASCII lower-casing of a string (`str.lower()`). -/
def pyLower (s : String) : String := String.mk (s.data.map Char.toLower)

/-- `str.strip()`: drop whitespace from both ends. -/
def pyStrip (s : String) : String :=
  String.mk (((s.data.dropWhile Char.isWhitespace).reverse.dropWhile Char.isWhitespace).reverse)

/-- Substring test, the behaviour of Python's `pat in s` on strings. -/
def strContains (s pat : String) : Bool :=
  decide (pat.data <:+: s.data)

/-!
### ExpressionEvaluator: `BenchRepo.safe_math_eval` (git.py lines 924-932)
and the derived-metric substitution loop (git.py lines 674-684).

`eval(string, ..)` restricted to the character set that survives the
filter is a pure arithmetic expression grammar (numbers, `+ - * / // **`,
unary sign, parentheses); it is embedded as a tokenizer plus a
recursive-descent evaluator over exact rationals.
-/

/-- The character whitelist of `safe_math_eval`. -/
def allowed_chars : List Char := "0123456789+-*(). /".data

/-- Tokens of the arithmetic expression language that `eval` sees after
the character filter. -/
inductive Tok where
  | num : Frac → Tok
  | tplus | tminus | tstar | tslash | tdstar | tdslash | tlp | trp
deriving DecidableEq

/-- Value of a digit character. -/
def digitVal (c : Char) : Nat := c.toNat - '0'.toNat

/-- Parse an integer-part digit run. -/
def digitsToNat (l : List Char) : Nat :=
  l.foldl (fun acc c => acc * 10 + digitVal c) 0

/-- Parse a fraction-part digit run into a fraction in [0, 1). -/
def fracToRat (l : List Char) : Frac :=
  fracOf (digitsToNat l : Int) (10 ^ l.length)

/-- Tokenizer for the arithmetic sublanguage, fuelled so that it is
structurally recursive (the wrapper `tokenize` supplies ample fuel; every
step consumes at least one character). A lone dot with no digits around it
is a lexical error, as in Python. -/
def tokenizeF : Nat → List Char → Except PyErr (List Tok)
  | 0, _ => .error .syntaxErr
  | _, [] => .ok []
  | fuel + 1, c :: cs =>
    if c = ' ' then tokenizeF fuel cs
    else if c = '(' then do pure (Tok.tlp :: (← tokenizeF fuel cs))
    else if c = ')' then do pure (Tok.trp :: (← tokenizeF fuel cs))
    else if c = '+' then do pure (Tok.tplus :: (← tokenizeF fuel cs))
    else if c = '-' then do pure (Tok.tminus :: (← tokenizeF fuel cs))
    else if c = '*' then
      if cs.head? = some '*' then do pure (Tok.tdstar :: (← tokenizeF fuel cs.tail))
      else do pure (Tok.tstar :: (← tokenizeF fuel cs))
    else if c = '/' then
      if cs.head? = some '/' then do pure (Tok.tdslash :: (← tokenizeF fuel cs.tail))
      else do pure (Tok.tslash :: (← tokenizeF fuel cs))
    else if c.isDigit then
      let ipart := c :: cs.takeWhile Char.isDigit
      match cs.dropWhile Char.isDigit with
      | '.' :: rest2 =>
        let fpart := rest2.takeWhile Char.isDigit
        do pure (Tok.num (fadd (fofInt (digitsToNat ipart : Int)) (fracToRat fpart)) ::
             (← tokenizeF fuel (rest2.dropWhile Char.isDigit)))
      | rest1 => do pure (Tok.num (fofInt (digitsToNat ipart : Int)) :: (← tokenizeF fuel rest1))
    else if c = '.' then
      let fpart := cs.takeWhile Char.isDigit
      if fpart.isEmpty then .error .syntaxErr
      else do pure (Tok.num (fracToRat fpart) :: (← tokenizeF fuel (cs.dropWhile Char.isDigit)))
    else .error .syntaxErr

/-- Tokenize a whole character list. -/
def tokenize (l : List Char) : Except PyErr (List Tok) := tokenizeF (l.length + 1) l

/-- Python `**` on numbers. A non-integral exponent would produce an
irrational float; it is modelled as `0` since no formula in any claim uses
it. `0 ** negative` raises `ZeroDivisionError`. -/
def ratPow (a b : Frac) : Except PyErr Frac :=
  if b.num % b.den = 0 then
    let e := b.num / b.den
    if e < 0 ∧ a.num = 0 then .error .zeroDivErr else .ok (fpow a e)
  else .ok (fofInt 0)

mutual
/-- `expr := term (('+'|'-') term)*` -/
def parseE : Nat → List Tok → Except PyErr (Frac × List Tok)
  | 0, _ => .error .syntaxErr
  | fuel + 1, ts => do
    let (v, rest) ← parseT fuel ts
    parseETail fuel v rest

/-- Left-associated tail of additive operators. -/
def parseETail : Nat → Frac → List Tok → Except PyErr (Frac × List Tok)
  | 0, _, _ => .error .syntaxErr
  | fuel + 1, v, ts =>
    match ts with
    | Tok.tplus :: rest => do
      let (w, rest') ← parseT fuel rest
      parseETail fuel (fadd v w) rest'
    | Tok.tminus :: rest => do
      let (w, rest') ← parseT fuel rest
      parseETail fuel (fsub v w) rest'
    | _ => .ok (v, ts)

/-- `term := unary (('*'|'/'|'//') unary)*` -/
def parseT : Nat → List Tok → Except PyErr (Frac × List Tok)
  | 0, _ => .error .syntaxErr
  | fuel + 1, ts => do
    let (v, rest) ← parseU fuel ts
    parseTTail fuel v rest

/-- Left-associated tail of multiplicative operators. `/` is exact
rational division (Python float division, modelled exactly); `//` is floor
division; both raise `ZeroDivisionError` on a zero divisor. -/
def parseTTail : Nat → Frac → List Tok → Except PyErr (Frac × List Tok)
  | 0, _, _ => .error .syntaxErr
  | fuel + 1, v, ts =>
    match ts with
    | Tok.tstar :: rest => do
      let (w, rest') ← parseU fuel rest
      parseTTail fuel (fmul v w) rest'
    | Tok.tslash :: rest => do
      let (w, rest') ← parseU fuel rest
      if w.num = 0 then .error .zeroDivErr else parseTTail fuel (fdiv v w) rest'
    | Tok.tdslash :: rest => do
      let (w, rest') ← parseU fuel rest
      if w.num = 0 then .error .zeroDivErr else parseTTail fuel (fofInt (ffloor (fdiv v w))) rest'
    | _ => .ok (v, ts)

/-- `unary := ('+'|'-') unary | power` -/
def parseU : Nat → List Tok → Except PyErr (Frac × List Tok)
  | 0, _ => .error .syntaxErr
  | fuel + 1, ts =>
    match ts with
    | Tok.tplus :: rest => parseU fuel rest
    | Tok.tminus :: rest => do
      let (v, rest') ← parseU fuel rest
      .ok (fneg v, rest')
    | _ => parseP fuel ts

/-- `power := atom ('**' unary)?`, right associative as in Python. -/
def parseP : Nat → List Tok → Except PyErr (Frac × List Tok)
  | 0, _ => .error .syntaxErr
  | fuel + 1, ts => do
    let (v, rest) ← parseA fuel ts
    match rest with
    | Tok.tdstar :: rest' => do
      let (w, rest'') ← parseU fuel rest'
      let r ← ratPow v w
      .ok (r, rest'')
    | _ => .ok (v, rest)

/-- `atom := number | '(' expr ')'` -/
def parseA : Nat → List Tok → Except PyErr (Frac × List Tok)
  | 0, _ => .error .syntaxErr
  | fuel + 1, ts =>
    match ts with
    | Tok.num q :: rest => .ok (q, rest)
    | Tok.tlp :: rest => do
      let (v, rest') ← parseE fuel rest
      match rest' with
      | Tok.trp :: rest'' => .ok (v, rest'')
      | _ => .error .syntaxErr
    | _ => .error .syntaxErr
end

/-- The model of Python `eval` on a character-filtered arithmetic string:
tokenize, parse a full expression, reject leftover tokens. -/
def evalArith (s : String) : Except PyErr Frac := do
  let toks ← tokenize s.data
  let (v, rest) ← parseE (8 * toks.length + 8) toks
  if rest.isEmpty then .ok v else .error .syntaxErr

/-- `BenchRepo.safe_math_eval` (git.py 924-932): raise (`rejectedExpr`,
the code's bare `Exception("UnsafeEval")`) as soon as any character lies
outside the whitelist; only then evaluate. -/
def safe_math_eval (s : String) : Except PyErr Frac :=
  if s.data.all (fun c => c ∈ allowed_chars) then evalArith s
  else .error .rejectedExpr

/-!
### Derived-metric substitution (git.py 674-684)
-/

/-- Is the character one of `+ - * /`? (the split class of
`re.split(r"[\+\-\*\/]+", ...)`). -/
def isOpChar (c : Char) : Bool := c = '+' ∨ c = '-' ∨ c = '*' ∨ c = '/'

mutual
/-- Accumulating splitter: inside a field token. -/
def split_ops_go : List Char → List Char → List (List Char)
  | [], acc => [acc.reverse]
  | c :: cs, acc =>
    if isOpChar c then acc.reverse :: split_ops_skip cs
    else split_ops_go cs (c :: acc)

/-- Accumulating splitter: inside an operator run. -/
def split_ops_skip : List Char → List (List Char)
  | [] => [[]]
  | c :: cs => if isOpChar c then split_ops_skip cs else split_ops_go cs [c]
end

/-- `re.split(r"[\+\-\*\/]+", s)`: split on maximal runs of arithmetic
operators, keeping empty pieces at the ends exactly as `re.split` does. -/
def split_ops (s : String) : List String :=
  (split_ops_go s.data []).map String.mk

/-- `re.sub("^'|'$|^\"|\"$", '', head)`: strip one leading and one
trailing quote character (single or double). -/
def strip_quotes (s : String) : String :=
  let l1 :=
    match s.data with
    | c :: cs => if c = '\'' ∨ c = '"' then cs else c :: cs
    | [] => []
  match l1.getLast? with
  | some c => if c = '\'' ∨ c = '"' then String.mk l1.dropLast else String.mk l1
  | none => String.mk l1

/-- Python `str.replace` with a non-empty pattern `p :: ps`: replace all
non-overlapping occurrences, scanning left to right (fuelled for
structural recursion; `pyReplace` supplies ample fuel). -/
def replaceCore (p : Char) (ps rep : List Char) : Nat → List Char → List Char
  | 0, l => l
  | _, [] => []
  | fuel + 1, c :: cs =>
    if (p :: ps).isPrefixOf (c :: cs) then rep ++ replaceCore p ps rep fuel (cs.drop ps.length)
    else c :: replaceCore p ps rep fuel cs

/-- Python `str.replace` with an empty pattern: insert the replacement at
every character boundary (`"abc".replace("", "R") = "RaRbRcR"`). -/
def replaceEmpty (rep : List Char) : List Char → List Char
  | [] => rep
  | c :: cs => rep ++ c :: replaceEmpty rep cs

/-- Python `calc.replace(head, value)`. -/
def pyReplace (s pat rep : String) : String :=
  match pat.data with
  | [] => String.mk (replaceEmpty rep.data s.data)
  | p :: ps => String.mk (replaceCore p ps rep.data (s.data.length + 1) s.data)

/-- The substitution loop of git.py 676-678: split the formula on
operator runs, and for each piece look up the quote-stripped piece in the
raw line (`line[...]`, a `KeyError` if absent — this lookup happens
*before* the `try` of line 679) and textually replace it in the evolving
expression string. -/
def substitute_formula (formula : String) (line : Dict String) : Except PyErr String :=
  (split_ops formula).foldlM
    (fun cexp head =>
      match dlookup line (strip_quotes head) with
      | some v => .ok (pyReplace cexp head v)
      | none => .error .keyErr)
    formula

/-- A field rule's right-hand side in exclude/include configuration: one
regex or a list of regexes. -/
inductive FieldPat where
  | one : String → FieldPat
  | many : List String → FieldPat
deriving DecidableEq

/-- An item of a list-shaped pattern rule: a plain regex or a dict of
field rules. -/
inductive PatItem where
  | istr : String → PatItem
  | idict : Dict FieldPat → PatItem
deriving DecidableEq

/-- A pattern rule set, polymorphic exactly as the Python code accepts it:
a single string, a list (of strings or field-rule dicts), or a
field-to-pattern mapping. -/
inductive Pattern where
  | pstr : String → Pattern
  | plist : List PatItem → Pattern
  | pmap : Dict FieldPat → Pattern
deriving DecidableEq

/-- Python truthiness of a pattern value (`if exclude:` checks). -/
def patTruthy (p : Pattern) : Bool :=
  match p with
  | .pstr s => s ≠ ""
  | .plist l => ¬l.isEmpty
  | .pmap m => ¬m.isEmpty

/-- One metric's configuration entry (the dict under `metrics:` in the
YAML schema); every field is optional, as in the configuration. `src`
models the `from` key. -/
structure MetricSpec where
  src : Option String := none
  vtype : Option String := none
  header : Option String := none
  mkey : Option String := none
  value : Option Value := none
  regex : Option String := none
  factor : Option Value := none
  excl : Option FieldPat := none
  incl : Option FieldPat := none
  descr : Option String := none
deriving DecidableEq

/-- `BenchRepo.__init__`'s default table (git.py 211):
`{'str': '', 'int': -1, 'bool': None, 'float': 0, 'date': '-', 'ts': -1}`.
`none` is returned for a key the Python dict does not have. -/
def default_table (t : String) : Option Value :=
  match t with
  | "str" => some (.vStr "")
  | "int" => some (.vInt (-1))
  | "bool" => some .vNone
  | "float" => some (.vInt 0)
  | "date" => some (.vStr "-")
  | "ts" => some (.vInt (-1))
  | _ => none

/-- The canonical-record remapping of one raw row (git.py 672):
`{key_new: line.get(key_old, '') for key_old, key_new in headers.items()}`.
A missing or absent raw field becomes the empty string, never an absent
key. -/
def remap_line (headers : Dict String) (line : Dict String) : Record :=
  headers.foldl (fun acc kv => dinsert acc kv.2 (.vStr ((dlookup line kv.1).getD ""))) []

/-- The CSV header that carries `ts`, when any
(`next((k for k, v in headers.items() if v == 'ts'), None)`, git.py 660). -/
def ts_csv_header (headers : Dict String) : Option String :=
  (headers.find? (fun kv => kv.2 = "ts")).map Prod.fst

/-- The derived-metric loop body for one row (git.py 674-684). For each
formula metric: substitute the row's raw values into the formula (a
`KeyError` from a missing field escapes — the lookup happens before the
`try`), then evaluate with `safe_math_eval`. The `except` clause catches
*only* `SyntaxError`; in that case the metric is set to
`self.default[metrics_section[key]['type']]` (each indexing can itself
raise `KeyError`/`TypeError`). Every other exception — in particular the
`Exception("UnsafeEval")` of a rejected character and `ZeroDivisionError`
— propagates. -/
def compute_calcs (msec : Dict (Option MetricSpec)) (line : Dict String)
    (cur : Record) (calcs : Dict String) : Except PyErr Record :=
  calcs.foldlM
    (fun acc kv => do
      let s ← substitute_formula kv.2 line
      match safe_math_eval s with
      | .ok v => pure (dinsert acc kv.1 (.vFloat v))
      | .error .syntaxErr =>
        match dlookup msec kv.1 with
        | none => .error .keyErr
        | some none => .error .typeErr
        | some (some spec) =>
          match spec.vtype with
          | none => .error .keyErr
          | some t =>
            match default_table t with
            | none => .error .keyErr
            | some d => pure (dinsert acc kv.1 d)
      | .error e => .error e)
    cur

/-!
### TypeCaster: `BenchRepo.convert_data` (git.py 934-970) and
`BenchRepo._type_cast_value` (git.py 884-922).

`int()` / `float()` string parsing and Python numeric coercions are
modelled below; the free-form `dateutil.parser.parse` is an external
library and is passed in as a parameter `dparse` (returning the epoch
value `.timestamp()`; `none` models a parse error) together with `dfmt`
(the `parse(..).strftime('%Y-%m-%d %H:%M:%S')` composition used for
`date`-typed metrics).
-/

/-- `int(s)` on a string: optional surrounding whitespace, optional sign,
one or more digits; anything else raises `ValueError`. -/
def pyIntParse (s : String) : Except PyErr Int :=
  let t := (pyStrip s).data
  let (sgn, digits) :=
    match t with
    | '-' :: rest => ((-1 : Int), rest)
    | '+' :: rest => ((1 : Int), rest)
    | _ => ((1 : Int), t)
  if digits.isEmpty ∨ ¬digits.all Char.isDigit then .error .valueErr
  else .ok (sgn * (digitsToNat digits : Int))

/-- `float(s)` on a string: optional sign, digits with an optional dot
(scientific notation and `inf`/`nan` are not used by any claim and raise
`ValueError` here). -/
def pyFloatParse (s : String) : Except PyErr Frac :=
  let t := (pyStrip s).data
  let (sgn, body) :=
    match t with
    | '-' :: rest => ((-1 : Int), rest)
    | '+' :: rest => ((1 : Int), rest)
    | _ => ((1 : Int), t)
  let ipart := body.takeWhile Char.isDigit
  match body.dropWhile Char.isDigit with
  | [] => if ipart.isEmpty then .error .valueErr
          else .ok (fofInt (sgn * (digitsToNat ipart : Int)))
  | '.' :: rest =>
    let fpart := rest.takeWhile Char.isDigit
    if ¬(rest.dropWhile Char.isDigit).isEmpty ∨ (ipart.isEmpty ∧ fpart.isEmpty) then
      .error .valueErr
    else .ok (fadd (fofInt (sgn * (digitsToNat ipart : Int)))
                   (fracOf (sgn * (digitsToNat fpart : Int)) (10 ^ fpart.length)))
  | _ => .error .valueErr

/-- Python `int(value)` on a scalar (string parse, float truncation toward
zero, bool as 0/1; `None` raises `TypeError`). -/
def pyIntOf (v : Value) : Except PyErr Int :=
  match v with
  | .vStr s => pyIntParse s
  | .vInt n => .ok n
  | .vFloat q => .ok (Int.tdiv q.num q.den)
  | .vBool b => .ok (if b then 1 else 0)
  | .vNone => .error .typeErr

/-- Python `float(value)` on a scalar. -/
def pyFloatOf (v : Value) : Except PyErr Frac :=
  match v with
  | .vStr s => pyFloatParse s
  | .vInt n => .ok (fofInt n)
  | .vFloat q => .ok q
  | .vBool b => .ok (fofInt (if b then 1 else 0))
  | .vNone => .error .typeErr

/-- Python `x * y` as used for the `factor` multiplication: numbers
multiply by value; `int * str` is Python string repetition; any other
pairing raises `TypeError`. -/
def numMul (a b : Value) : Except PyErr Value :=
  match a, b with
  | .vInt n, .vInt m => .ok (.vInt (n * m))
  | .vInt n, .vFloat q => .ok (.vFloat (fmul (fofInt n) q))
  | .vFloat q, .vInt m => .ok (.vFloat (fmul q (fofInt m)))
  | .vFloat q, .vFloat r => .ok (.vFloat (fmul q r))
  | .vInt n, .vStr s => .ok (.vStr (String.join (List.replicate n.toNat s)))
  | .vStr s, .vInt m => .ok (.vStr (String.join (List.replicate m.toNat s)))
  | _, _ => .error .typeErr

/-- `value.replace('.', '', 1).isdigit()` — the check of git.py 939 that a
string is a plain decimal number. -/
def isPlainNumber (s : String) : Bool :=
  let l := s.data
  let idx := l.findIdx (fun c => c = '.')
  let l' := if idx < l.length then l.take idx ++ l.drop (idx + 1) else l
  ¬l'.isEmpty ∧ l'.all Char.isDigit

/-- `BenchRepo.convert_data` (git.py 934-970): convert `value` to `vtype`,
multiplying by `factor` when truthy (for `str`, `factor` is a regex whose
first group is extracted — `rsearch1` is the `re.search` group-1
parameter). `ts`/`date` parse failures are caught inside and leave the
value unchanged; `int()`/`float()` failures raise `ValueError` (the
caller catches exactly that); a non-string input to `re.search` raises
`TypeError`. -/
def convert_data (rsearch1 : String → String → Option String)
    (dparse : String → Option Frac)
    (value : Value) (vtype : String) (factor : Option Value) : Except PyErr Value :=
  if vtype = "ts" then
    match value with
    | .vStr s =>
      if isPlainNumber s then
        match pyFloatParse s with
        | .ok q => .ok (.vFloat q)
        | .error e => .error e
      else
        match dparse s with
        | some t => .ok (.vFloat t)
        | none => .ok value
    | _ => .ok value
  else if strContains vtype "date" then
    match value with
    | .vStr s =>
      match dparse s with
      | some t => .ok (.vFloat t)
      | none => .ok value
    | _ => .ok value
  else if vtype = "int" then do
    let n ← pyIntOf value
    match factor with
    | some f => if pyTruthy f then numMul (.vInt n) f else .ok (.vInt n)
    | none => .ok (.vInt n)
  else if vtype = "float" then do
    let q ← pyFloatOf value
    match factor with
    | some f => if pyTruthy f then numMul (.vFloat q) f else .ok (.vFloat q)
    | none => .ok (.vFloat q)
  else if strContains vtype "bool" then
    .ok (.vBool (pyTruthy value))
  else if vtype = "str" then
    match factor with
    | some f =>
      if pyTruthy f then
        match f with
        | .vStr pat =>
          match value with
          | .vStr s =>
            match rsearch1 pat s with
            | some g => .ok (.vStr g)
            | none => .ok (.vStr s)
          | _ => .error .typeErr
        | _ => .error .typeErr
      else .ok (.vStr (pyStr value))
    | none => .ok (.vStr (pyStr value))
  else
    .ok value

/-- `BenchRepo._type_cast_value` (git.py 884-922): cast a raw value by its
spec, returning `(typed value, type name)`; `none` models the
`(None, None)` returned for an unrecognised type. Failures of `int()` /
`float()` / `dateutil` here are *not* caught by the callers in the
common-data loop and therefore escape as exceptions. -/
def type_cast_value (dparse : String → Option Frac) (dfmt : String → Option String)
    (raw : Value) (spec : MetricSpec) (metric_name : String) :
    Except PyErr (Option (Value × String)) :=
  match spec.vtype with
  | some t =>
    if strContains t "date" then
      match raw with
      | .vStr s =>
        match dfmt s with
        | some d => .ok (some (.vStr d, "date"))
        | none => .error .valueErr
      | _ => .error .typeErr
    else if t = "int" then do
      let n ← pyIntOf raw
      let v ← numMul (.vInt n) (spec.factor.getD (.vInt 1))
      .ok (some (v, "int"))
    else if t = "float" then do
      let q ← pyFloatOf raw
      let v ← numMul (.vFloat q) (spec.factor.getD (.vInt 1))
      .ok (some (v, "float"))
    else if strContains t "str" then
      .ok (some (.vStr (pyStr raw), "str"))
    else if strContains t "bool" then
      match raw with
      | .vStr _ | .vInt _ | .vBool _ =>
        .ok (some (.vBool (¬(pyLower (pyStr raw) ∈ ["false", "0", ""])), "bool"))
      | _ => .ok (some (.vBool (pyTruthy raw), "bool"))
    else if t = "ts" then
      match raw with
      | .vStr s =>
        match dparse s with
        | some q => .ok (some (.vFloat q, "ts"))
        | none => .error .valueErr
      | _ => .error .typeErr
    else
      .ok none
  | none =>
    if metric_name = "ts" then
      match raw with
      | .vStr s =>
        match dparse s with
        | some q => .ok (some (.vFloat q, "ts"))
        | none => .error .valueErr
      | _ => .error .typeErr
    else
      .ok (some (.vStr (pyStr raw), "str"))

/-!
### PatternMatcher: `BenchRepo.apply_pattern` (git.py 1815-1851),
`BenchRepo.search_patterns` (1853-1887), `BenchRepo.check_unit`
(1889-1926).

`re.search` is passed in as the parameter `rsearch : pattern → target →
matched?`. The Python function `apply_pattern` dispatches on the runtime
type of its container argument; the three container branches are embedded
as `apply_pattern_set`, `apply_pattern_list` and `apply_pattern_dict`.
-/

/-- `re.search(pattern, target)` where the target is an arbitrary Python
value: matching a non-string target raises `TypeError` (this happens in
the list branch of `apply_pattern`, where `check_unit` receives the integer
enumeration index as `unitname`). -/
def re_search_val (rsearch : String → String → Bool) (p : String) (v : Value) :
    Except PyErr Bool :=
  match v with
  | .vStr s => .ok (rsearch p s)
  | _ => .error .typeErr

/-- Monadic early-exit disjunction, the shape of the Python
`for ...: if ...: return True` loops. -/
def firstTrueM {α : Type} (f : α → Except PyErr Bool) : List α → Except PyErr Bool
  | [] => .ok false
  | x :: xs => do if (← f x) then pure true else firstTrueM f xs

/-- One field rule of `check_unit`:
`(key in unit) and re.search(value, unit[key])`, or the same over a list
of pattern strings. -/
def check_fieldrule (rsearch : String → String → Bool) (unit : Record)
    (key : String) (fp : FieldPat) : Except PyErr Bool :=
  match fp with
  | .one v =>
    match dlookup unit key with
    | some x => re_search_val rsearch v x
    | none => .ok false
  | .many vs =>
    firstTrueM
      (fun v =>
        match dlookup unit key with
        | some x => re_search_val rsearch v x
        | none => .ok false)
      vs

/-- `BenchRepo.check_unit` (git.py 1889-1926): does the unit match the
rule set? `unitname` is a string for the dict container and the integer
index for the list container. -/
def check_unit (rsearch : String → String → Bool) (unitname : Value) (unit : Record)
    (pattern : Pattern) : Except PyErr Bool :=
  match pattern with
  | .pstr p => re_search_val rsearch p unitname
  | .plist items =>
    firstTrueM
      (fun it =>
        match it with
        | .istr p => re_search_val rsearch p unitname
        | .idict rules => firstTrueM (fun kv => check_fieldrule rsearch unit kv.1 kv.2) rules)
      items
  | .pmap rules => firstTrueM (fun kv => check_fieldrule rsearch unit kv.1 kv.2) rules

/-- `BenchRepo.search_patterns` (git.py 1853-1887): match a plain name
against a rule set. The branches for dict-shaped rules — a field-rule
mapping, or dict items inside a list — are commented out in the source,
so they never match anything here. -/
def search_patterns (rsearch : String → String → Bool) (patterns : Pattern)
    (unit : String) : Bool :=
  match patterns with
  | .pstr p => rsearch p unit
  | .plist items =>
    items.any (fun it =>
      match it with
      | .istr p => rsearch p unit
      | .idict _ => false)
  | .pmap _ => false

/-- The keep decision of the set branch of `apply_pattern` (git.py
1822-1830): removed when a truthy `exclude` matches, or when a truthy
`include` does not match. -/
def keep_set (rsearch : String → String → Bool) (excl incl : Pattern) (u : String) : Bool :=
  ¬(patTruthy excl ∧ search_patterns rsearch excl u) ∧
    (¬patTruthy incl ∨ search_patterns rsearch incl u)

/-- The set branch of `apply_pattern`: filter a set of names. -/
def apply_pattern_set (rsearch : String → String → Bool) (excl incl : Pattern)
    (elements : List String) : List String :=
  elements.filter (keep_set rsearch excl incl)

/-- The keep decision of the list and dict branches of `apply_pattern`
(git.py 1831-1850); both the exclude check and the include check run (in
that order) whenever the respective rule set is truthy, so either can
raise. -/
def keep_rec (rsearch : String → String → Bool) (excl incl : Pattern)
    (uname : Value) (u : Record) : Except PyErr Bool := do
  let exc ← if patTruthy excl then check_unit rsearch uname u excl else pure false
  let inc ← if patTruthy incl then check_unit rsearch uname u incl else pure true
  pure (¬exc ∧ inc)

/-- Monadic filter evaluating decisions left to right, failing on the
first exception (nothing is removed when an exception escapes, matching
the deferred deletion of the Python code). -/
def filterExcept {α : Type} (f : α → Except PyErr Bool) : List α → Except PyErr (List α)
  | [] => .ok []
  | x :: xs => do
    let b ← f x
    let rest ← filterExcept f xs
    pure (if b then x :: rest else rest)

/-- The list branch of `apply_pattern`: records are addressed by their
enumeration index, which becomes `unitname` (an integer, so any plain
string rule raises `TypeError` here). -/
def apply_pattern_list (rsearch : String → String → Bool) (excl incl : Pattern)
    (elements : List Record) : Except PyErr (List Record) := do
  let dec ← elements.enum.mapM (fun p => keep_rec rsearch excl incl (.vInt p.1) p.2)
  pure (((elements.zip dec).filter Prod.snd).map Prod.fst)

/-- The dict branch of `apply_pattern`: records are addressed by their
key name. -/
def apply_pattern_dict (rsearch : String → String → Bool) (excl incl : Pattern)
    (elements : Dict Record) : Except PyErr (Dict Record) :=
  filterExcept (fun kv => keep_rec rsearch excl incl (.vStr kv.1) kv.2) elements

/-!
### RecordBuilder: the per-file part of `BenchRepo.get_metrics`
(git.py 646-862).

A source file enters the model already parsed into rows of raw string
fields plus the metadata mapping collected from its comment lines (the
reading and parsing of git.py 600-644 is I/O and is not the subject of
any claim).
-/

/-- A parsed source file. -/
structure SourceFile where
  sname : String
  rows : List (Dict String)
  meta : Dict Value
deriving DecidableEq

/-- Mutable per-unit state threaded through `get_metrics`:
`raw`/`graphparameters`/`metrics` of `benchmark_data`, the watermark
fields, the instance-wide counter and output dict `self._dict`. -/
structure UnitState where
  raw : List Record
  gparams : Dict (List Value)
  lastts : Frac
  lastts_temp : Frac
  counter : Nat
  odict : Dict Record
  mtypes : Dict String
deriving DecidableEq

/-- The resolved per-unit schema computed by git.py 488-582 before the
source loop. -/
structure UnitConfig where
  combined_name : String
  headers : Dict String
  calc_headers : Dict String
  msec : Dict (Option MetricSpec)
  used : List String
  plot_metrics : List String
  params : List String
  cfgId : Option Value
deriving DecidableEq

/-- Is the row's `ts` cell blank
(`not str(line.get(ts_csv_header, '')).strip()`, git.py 666-669)? -/
def blank_ts (headers : Dict String) (line : Dict String) : Bool :=
  match ts_csv_header headers with
  | some h => pyStrip ((dlookup line h).getD "") = ""
  | none => false

/-- The conversion loop (git.py 688-705): for every content and derived
metric, convert each row's value by the metric's declared type (`ts` for
the `ts` key), passing the regex for `str` metrics and the factor
otherwise. A `ValueError` is caught and leaves the cell unchanged; any
other exception escapes. A `None` metric spec would fail its attribute
access (`TypeError` here). -/
def convert_rows (rsearch1 : String → String → Option String)
    (dparse : String → Option Frac) (msec : Dict (Option MetricSpec))
    (mtypes : Dict String) (keys : List String) (rows : List Record) :
    Except PyErr (List Record) :=
  keys.foldlM
    (fun rs key => do
      let mtype ←
        match dlookup mtypes key with
        | some t => pure t
        | none => .error .keyErr
      let spec ←
        match dlookup msec key with
        | some (some spec) => pure spec
        | some none => .error .typeErr
        | none => .error .keyErr
      let conv := if mtype = "str" then spec.regex.map Value.vStr else spec.factor
      rs.mapM
        (fun r => do
          let v ←
            match dlookup r key with
            | some v => pure v
            | none => .error .keyErr
          match convert_data rsearch1 dparse v (if key = "ts" then "ts" else mtype) conv with
          | .ok v' => pure (dinsert r key v')
          | .error .valueErr => pure r
          | .error e => .error e))
    rows

/-- Truthy-or chain `spec.get('key') or spec.get('header') or metric_name`
(git.py 755). -/
def pick_truthy (o : Option String) : Option String :=
  match o with
  | some s => if s = "" then none else some s
  | none => none

/-- The common-data loop (git.py 707-772): seed `__type`/`__prefix`
(and `__id` when configured), then for every used metric collect its
exclude/include rules and resolve `static|value`, filename and metadata
sources, type-casting via `_type_cast_value`. Every resolution failure is
logged and skips just that metric; a cast exception escapes. Returns the
common fields, the updated `metrics_types`, and the collected
exclude/include rule dicts. -/
def build_common (rsearch1 : String → String → Option String)
    (dparse : String → Option Frac) (dfmt : String → Option String)
    (cfgId : Option Value) (used : List String) (msec : Dict (Option MetricSpec))
    (source : String) (metadata : Dict Value) (mtypes0 : Dict String) :
    Except PyErr (Record × Dict String × Dict FieldPat × Dict FieldPat) := do
  let common0 : Record :=
    [("__type", .vStr "benchmark"), ("__prefix", .vStr "bm")] ++
      (match cfgId with
       | some v => [("__id", v)]
       | none => [])
  used.foldlM
    (fun st m => do
      let (common, mtypes, toE, toI) := st
      match dlookup msec m with
      | none => .error .keyErr
      | some none => pure st
      | some (some spec) =>
        let toE := match spec.excl with
          | some fp => dinsert toE m fp
          | none => toE
        let toI := match spec.incl with
          | some fp => dinsert toI m fp
          | none => toI
        match spec.src with
        | none => pure (common, mtypes, toE, toI)
        | some srcs =>
          if srcs = "static" ∨ srcs = "value" then
            match spec.value with
            | none => pure (common, mtypes, toE, toI)
            | some v =>
              pure (dinsert common m v, dinsert mtypes m (spec.vtype.getD "str"), toE, toI)
          else if strContains srcs "name" then
            match spec.regex with
            | none => pure (common, mtypes, toE, toI)
            | some rx =>
              match rsearch1 rx source with
              | none => pure (common, mtypes, toE, toI)
              | some g => do
                match ← type_cast_value dparse dfmt (.vStr g) spec m with
                | some (tv, vt) => pure (dinsert common m tv, dinsert mtypes m vt, toE, toI)
                | none => pure (common, mtypes, toE, toI)
          else if srcs = "metadata" then
            if metadata.isEmpty then pure (common, mtypes, toE, toI)
            else
              let key_to_find := ((pick_truthy spec.mkey).or (pick_truthy spec.header)).getD m
              match dlookup metadata key_to_find with
              | none => pure (common, mtypes, toE, toI)
              | some raw => do
                match ← type_cast_value dparse dfmt raw spec m with
                | some (tv, vt) => pure (dinsert common m tv, dinsert mtypes m vt, toE, toI)
                | none => pure (common, mtypes, toE, toI)
          else pure (common, mtypes, toE, toI))
    (common0, mtypes0, [], [])

/-- The status-and-default pass over one row (git.py 794-831). For each
used metric *present in the row*: an empty-looking value (blank, or
case-insensitively `none`/`null`/`nan`) becomes `None` and fails the row
when the metric feeds a plot; otherwise it becomes the type's default
(via `self.default.get(type, '')`), failing the row when the type is not
`str`. A metric absent from the row is left absent. -/
def validate_line (used plot_metrics : List String) (mtypes : Dict String)
    (line : Record) : Record :=
  let st0 := (dlookup line "_status").getD (.vStr "SUCCESSFUL")
  let (line', st') :=
    used.foldl
      (fun (p : Record × Value) m =>
        let (l, st) := p
        match dlookup l m with
        | none => (l, st)
        | some v =>
          let val := pyStrip (pyStr v)
          let is_empty := val = "" ∨ pyLower val ∈ ["none", "null", "nan"]
          if ¬is_empty then (l, st)
          else if m ∈ plot_metrics then (dinsert l m .vNone, .vStr "FAILED")
          else
            let t := (dlookup mtypes m).getD "str"
            ((dinsert l m ((default_table t).getD (.vStr ""))),
              if t ≠ "str" then .vStr "FAILED" else st))
      (line, st0)
  dinsert line' "_status" st'

/-- Python `set.add` with value equality. -/
def pyset_add (s : List Value) (v : Value) : List Value :=
  if s.any (fun x => pyEq x v) then s else s ++ [v]

/-- The graph-parameter collection (git.py 836-837):
`graphparameters[param].update([data[param] for data in current_data])`.
A record missing a graph parameter raises `KeyError`. -/
def gp_update (gp : Dict (List Value)) (rows : List Record) :
    Except PyErr (Dict (List Value)) :=
  gp.foldlM
    (fun acc kv => do
      let vals ← rows.mapM
        (fun r =>
          match dlookup r kv.1 with
          | some v => pure v
          | none => .error .keyErr)
      pure (dinsert acc kv.1 (vals.foldl pyset_add kv.2)))
    gp

/-- The numeric `ts` of a record, as compared against the watermark
(`data['ts'] > self._lastts`); a missing key raises `KeyError` and a
non-numeric value raises `TypeError` in the comparison. -/
def tsnum (r : Record) : Except PyErr Frac :=
  match dlookup r "ts" with
  | none => .error .keyErr
  | some v =>
    match numVal v with
    | some q => pure q
    | none => .error .typeErr

/-- The watermark filter (git.py 850-851): active only when `self._lastts`
is truthy (nonzero). -/
def wm_filter (lastts : Frac) (rows : List Record) : Except PyErr (List Record) :=
  if lastts.num ≠ 0 then
    rows.foldlM
      (fun acc r => do
        let t ← tsnum r
        pure (if flt lastts t then acc ++ [r] else acc))
      []
  else pure rows

/-- `f"{combined_name}_{next(self._counter)}"` (git.py 858). -/
def keyOf (name : String) (c : Nat) : String := name ++ "_" ++ Nat.repr c

/-- Right-strip all copies of one character (`str.rstrip(c)`). -/
def rstripChar (s : String) (c : Char) : String :=
  String.mk ((s.data.reverse.dropWhile (fun x => x = c)).reverse)

/-- Left-pad a digit string to six characters. -/
def pad6 (s : String) : String :=
  String.mk (List.replicate (6 - s.length) '0' ++ s.data)

/-- `BenchRepo._format_id_value` (git.py 868-882): floats are rendered via
`f"{value:.6f}"` then stripped of trailing zeros and a trailing dot (the
rounding of the format is modelled as round-half-up; no claim depends on
the half-way direction); every other value is `str(value)`, with a missing
parameter (`data.get(key)` = `None`) rendering as `"None"`. -/
def format_id_value (o : Option Value) : String :=
  match o with
  | some (.vFloat q) =>
    let sgn := if q.num < 0 then "-" else ""
    let a : Frac := if q.num < 0 then fneg q else q
    let r : Int := Int.fdiv (2 * a.num * 1000000 + a.den) (2 * a.den)
    let ip := Int.fdiv r 1000000
    let fr := r - ip * 1000000
    sgn ++ rstripChar (rstripChar (toString ip ++ "." ++ pad6 (toString fr)) '0') '.'
  | some v => pyStr v
  | none => "None"

/-- The generated row identifier (git.py 859):
`'_'.join([format(data.get(key)) for key in parameters])`. -/
def idJoin (params : List String) (r : Record) : String :=
  String.intercalate "_" (params.map (fun k => format_id_value (dlookup r k)))

/-- The output emission (git.py 856-862): each surviving record is stored
in `self._dict` under `f"{combined_name}_{next(self._counter)}"` with its
generated `id` merged in; the counter advances once per record and is
never reset. -/
def emit (name : String) (params : List String) :
    Nat → Dict Record → List Record → Nat × Dict Record
  | c, d, [] => (c, d)
  | c, d, r :: rs =>
    emit name params (c + 1)
      (dinsert d (keyOf name c) (dinsert r "id" (.vStr (idJoin params r)))) rs

/-- The tail of the per-source iteration (git.py 842-862): append the
validated rows to `raw`, cut rows at or before the watermark (when one is
set), fold the maximum timestamp into `lastts_temp`, and emit the
surviving rows into the output dict. -/
def wm_tail (name : String) (params : List String) (st : UnitState)
    (current : List Record) : Except PyErr UnitState := do
  let raw' := st.raw ++ current
  let cur ← wm_filter st.lastts current
  let ts_list ← cur.mapM tsnum
  let tmax := ts_list.foldl fmax (fmax st.lastts st.lastts_temp)
  let (cnt', d') :=
    if cur.isEmpty then (st.counter, st.odict)
    else emit name params st.counter st.odict cur
  pure { st with raw := raw', lastts_temp := tmax, counter := cnt', odict := d' }

/-- Outcome of processing one source file: normal continuation, or the
`return False` abort of git.py 786-788. -/
inductive FileStep where
  | next : UnitState → FileStep
  | abort : UnitState → FileStep
deriving DecidableEq

/-- Outcome of the state-independent part of one source file's
processing, which depends on the unit state only through the accumulated
`metrics_types`. -/
inductive SourceOutcome where
  | skip : SourceOutcome
  | tsMissing : Dict String → SourceOutcome
  | rows : List Record → Dict String → SourceOutcome
deriving DecidableEq

/-- The row computation for one source file (git.py 646-831): skip on
empty data or missing required headers; per row skip blank `ts`, remap
headers, compute derived metrics; convert all content/derived cells;
resolve common data; merge it into every row (common wins); apply the
per-metric exclude/include filters; report the abort condition when the
first surviving row has no `ts` (an empty row list makes
`current_data[0]` raise `IndexError`); classify status and set
defaults. -/
def source_rows (rsearch : String → String → Bool)
    (rsearch1 : String → String → Option String)
    (dparse : String → Option Frac) (dfmt : String → Option String)
    (cfg : UnitConfig) (mtypes : Dict String) (f : SourceFile) :
    Except PyErr SourceOutcome := do
  match f.rows with
  | [] => pure .skip
  | r0 :: _ =>
    if cfg.headers.any (fun kv => ¬dcontains r0 kv.1) then pure .skip
    else do
      let rows1 ← f.rows.foldlM
        (fun acc line =>
          if blank_ts cfg.headers line then pure acc
          else do
            let cl := remap_line cfg.headers line
            let cl ← compute_calcs cfg.msec line cl cfg.calc_headers
            pure (acc ++ [cl]))
        []
      let rows2 ← convert_rows rsearch1 dparse cfg.msec mtypes
        (cfg.headers.map Prod.snd ++ cfg.calc_headers.map Prod.fst) rows1
      let (common, mtypes', toE, toI) ← build_common rsearch1 dparse dfmt cfg.cfgId
        cfg.used cfg.msec f.sname f.meta mtypes
      let rows3 := rows2.map (fun r => dunion r common)
      let rows4 ← apply_pattern_list rsearch (.pmap toE) (.pmap toI) rows3
      match rows4 with
      | [] => .error .idxErr
      | q0 :: _ =>
        if ¬dcontains q0 "ts" then pure (.tsMissing mtypes')
        else
          pure (.rows (rows4.map (validate_line cfg.used cfg.plot_metrics mtypes')) mtypes')

/-- Processing of one source file inside the loop of `get_metrics`
(git.py 646-862): the row computation above, then graph-parameter
collection, `raw` accumulation, the watermark filter and the emission
into `self._dict`. -/
def process_source (rsearch : String → String → Bool)
    (rsearch1 : String → String → Option String)
    (dparse : String → Option Frac) (dfmt : String → Option String)
    (cfg : UnitConfig) (st : UnitState) (f : SourceFile) :
    Except PyErr FileStep := do
  match ← source_rows rsearch rsearch1 dparse dfmt cfg st.mtypes f with
  | .skip => pure (.next st)
  | .tsMissing mtypes' => pure (.abort { st with mtypes := mtypes' })
  | .rows rows5 mtypes' => do
    let gp' ← gp_update st.gparams rows5
    let st' ← wm_tail cfg.combined_name cfg.params
      { st with gparams := gp', mtypes := mtypes' } rows5
    pure (.next st')

/-- The source loop of `get_metrics` plus its closing
`self._lastts = lastts_temp` (git.py 590, 864-866): sources are processed
in order; the `return False` abort stops the loop without advancing the
unit's watermark; the Boolean result is the function's return value. -/
def run_files (rsearch : String → String → Bool)
    (rsearch1 : String → String → Option String)
    (dparse : String → Option Frac) (dfmt : String → Option String)
    (cfg : UnitConfig) : UnitState → List SourceFile →
    Except PyErr (Bool × UnitState)
  | st, [] => .ok (true, { st with lastts := st.lastts_temp })
  | st, f :: fs => do
    match ← process_source rsearch rsearch1 dparse dfmt cfg st f with
    | .next st' => run_files rsearch rsearch1 dparse dfmt cfg st' fs
    | .abort st' => .ok (false, st')

/-- The whole metric-collection run over a unit's sources: `lastts_temp`
starts at `0` (git.py 588) and the loop of git.py 590 follows. -/
def get_metrics_files (rsearch : String → String → Bool)
    (rsearch1 : String → String → Option String)
    (dparse : String → Option Frac) (dfmt : String → Option String)
    (cfg : UnitConfig) (st : UnitState) (files : List SourceFile) :
    Except PyErr (Bool × UnitState) :=
  run_files rsearch rsearch1 dparse dfmt cfg { st with lastts_temp := fofInt 0 } files

/-!
### Aggregator: the axis-combination pruning of `BenchRepo.gen_footer_conf`
(git.py 1517-1541).

The Python sort key `tuple(sorted(d.items()))` compares pairs and pair
lists lexicographically; the comparators below realise that order (a
heterogeneous comparison raises `TypeError` in Python; the model totalises
by comparing the kind rank — numbers, then strings, then `None` — which
no claim exercises).
-/

/-- Three-way comparison of integers. -/
def intCmp (x y : Int) : Ordering :=
  if x < y then .lt else if x = y then .eq else .gt

/-- Value comparison of fractions (denominators are positive). -/
def fcmpK (a b : Frac) : Ordering :=
  intCmp (a.num * b.den) (b.num * a.den)

/-- Lexicographic comparison of lists. -/
def listCmp {α : Type} (cmp : α → α → Ordering) : List α → List α → Ordering
  | [], [] => .eq
  | [], _ :: _ => .lt
  | _ :: _, [] => .gt
  | a :: as, b :: bs =>
    match cmp a b with
    | .eq => listCmp cmp as bs
    | o => o

/-- Code-point comparison of strings (Python string order). -/
def strCmp (s t : String) : Ordering :=
  listCmp (fun a b => intCmp a.toNat b.toNat) s.data t.data

/-- Kind rank of a value for the totalised order. -/
def valueRankC (v : Value) : Int :=
  match numVal v with
  | some _ => 0
  | none =>
    match v with
    | .vStr _ => 1
    | _ => 2

/-- Python `<`-comparison of scalar values, totalised across kinds. -/
def valueCmp (a b : Value) : Ordering :=
  match numVal a, numVal b with
  | some x, some y => fcmpK x y
  | _, _ =>
    match a, b with
    | .vStr s, .vStr t => strCmp s t
    | _, _ => intCmp (valueRankC a) (valueRankC b)

/-- Python tuple comparison of `(key, value)` pairs. -/
def pairCmp (a b : String × Value) : Ordering :=
  match strCmp a.1 b.1 with
  | .eq => valueCmp a.2 b.2
  | o => o

/-- `sorted(d.items())`: the combination's pairs sorted by pair order. -/
def sortKey (c : List (String × Value)) : List (String × Value) :=
  c.mergeSort (fun a b => pairCmp a b ≠ .gt)

/-- The sort comparison of git.py 1541:
`key=lambda d: tuple(sorted(d.items()))`. -/
def comboLe (c₁ c₂ : List (String × Value)) : Bool :=
  listCmp pairCmp (sortKey c₁) (sortKey c₂) ≠ .gt

/-- `itertools.product(*graphparameters.values())` zipped back with the
keys (git.py 1523-1526), as a list of key-ordered combinations. -/
def cartProd : Dict (List Value) → List (List (String × Value))
  | [] => [[]]
  | (k, vs) :: rest =>
    vs.foldr (fun v acc => (cartProd rest).map (fun c => (k, v) :: c) ++ acc) []

/-- Python pair equality `(k, v) == (k', v')`. -/
def pairEqPy (a b : String × Value) : Bool := a.1 = b.1 ∧ pyEq a.2 b.2

/-- `set(combination.items()).issubset(set(record.items()))`. -/
def subsetOfRec (c : List (String × Value)) (r : Record) : Bool :=
  c.all (fun kv => r.any (fun e => pairEqPy e kv))

/-- The validity loop body of git.py 1527-1537 for one combination: every
coordinate must differ from its metric's type default
(`self.default[metrics[key]] == value`, both dict indexings can raise
`KeyError`), and the combination must be witnessed as a sub-mapping of at
least one record in `raw` (the witness test is evaluated per key, but
does not depend on the key). -/
def combo_valid (mtypes : Dict String) (raw : List Record)
    (c : List (String × Value)) : Except PyErr Bool :=
  c.foldlM
    (fun acc kv => do
      let t ←
        match dlookup mtypes kv.1 with
        | some t => pure t
        | none => .error .keyErr
      let d ←
        match default_table t with
        | some d => pure d
        | none => .error .keyErr
      pure (acc ∧ ¬pyEq d kv.2 ∧ raw.any (fun r => subsetOfRec c r)))
    true

/-- The valid-combination list of `gen_footer_conf` (git.py 1520-1541):
the Cartesian product is generated only when `graphparameters` is truthy,
each combination is kept when valid, and the result is sorted by its
sorted key/value pairs. -/
def gen_valid_combinations (mtypes : Dict String) (gp : Dict (List Value))
    (raw : List Record) : Except PyErr (List (List (String × Value))) := do
  let combos := if gp.isEmpty then [] else cartProd gp
  let valid ← filterExcept (combo_valid mtypes raw) combos
  pure (valid.mergeSort comboLe)

/-!
### The object heap for `BenchRepo.__add__` / `deep_merge` / `add`
(git.py 213-313).

Mutation and aliasing of these methods are made explicit: a heap maps
addresses to objects, and mutable containers (lists, dicts) hold element
addresses. Sets hold immutable scalars directly (in this engine sets only
ever contain strings, whose identity is unobservable). `deepcopy` and the
merge functions take fuel; ample fuel reproduces Python, which recurses
without bound (`deepcopy`'s cycle memo is not needed here: these object
graphs are trees, and memo-induced sharing inside a fresh copy is not
observable by any claim).
-/

/-- A heap object. -/
inductive PyObj where
  | scalar : Value → PyObj
  | plist : List Nat → PyObj
  | pdict : Dict Nat → PyObj
  | pset : List Value → PyObj
deriving DecidableEq

/-- The heap: an allocation cursor and a memory association. -/
structure Heap where
  nxt : Nat
  mem : List (Nat × PyObj)
deriving DecidableEq

/-- Read an address. -/
def hget (h : Heap) (a : Nat) : Option PyObj :=
  (h.mem.find? (fun kv => kv.1 = a)).map Prod.snd

/-- Overwrite an existing address (in-place mutation). -/
def hset (h : Heap) (a : Nat) (o : PyObj) : Heap :=
  { h with mem := h.mem.map (fun kv => if kv.1 = a then (a, o) else kv) }

/-- Allocate a fresh address for a new object. -/
def halloc (h : Heap) (o : PyObj) : Heap × Nat :=
  ({ nxt := h.nxt + 1, mem := h.mem ++ [(h.nxt, o)] }, h.nxt)

mutual
/-- `copy.deepcopy` of one object: scalars and sets (of scalars) are
copied to a fresh node; lists and dicts are copied recursively. -/
def deepcopy : Nat → Heap → Nat → Option (Heap × Nat)
  | 0, _, _ => none
  | fuel + 1, h, a =>
    match hget h a with
    | none => none
    | some (.scalar v) => some (halloc h (.scalar v))
    | some (.pset vs) => some (halloc h (.pset vs))
    | some (.plist es) =>
      match deepcopyL fuel h es with
      | some (h', es') => some (halloc h' (.plist es'))
      | none => none
    | some (.pdict es) =>
      match deepcopyD fuel h es with
      | some (h', es') => some (halloc h' (.pdict es'))
      | none => none

/-- Copy list elements in order. -/
def deepcopyL : Nat → Heap → List Nat → Option (Heap × List Nat)
  | 0, _, _ => none
  | _ + 1, h, [] => some (h, [])
  | fuel + 1, h, e :: es =>
    match deepcopy fuel h e with
    | some (h1, e') =>
      match deepcopyL fuel h1 es with
      | some (h2, es') => some (h2, e' :: es')
      | none => none
    | none => none

/-- Copy dict entries in order. -/
def deepcopyD : Nat → Heap → Dict Nat → Option (Heap × Dict Nat)
  | 0, _, _ => none
  | _ + 1, h, [] => some (h, [])
  | fuel + 1, h, (k, e) :: es =>
    match deepcopy fuel h e with
    | some (h1, e') =>
      match deepcopyD fuel h1 es with
      | some (h2, es') => some (h2, (k, e') :: es')
      | none => none
    | none => none
end

mutual
/-- `BenchRepo.deep_merge` (git.py 255-286): recursively merge the dict at
`s` into the dict at `t`, in place. -/
def deep_merge : Nat → Heap → Nat → Nat → Option Heap
  | 0, _, _, _ => none
  | fuel + 1, h, t, s =>
    match hget h s with
    | some (.pdict sEntries) => mergeEntries fuel h t sEntries
    | _ => none
termination_by structural fuel => fuel

/-- Iterate `for key, source_value in source_dict.items()` (over a
snapshot of the source's entries, which the loop does not mutate). -/
def mergeEntries : Nat → Heap → Nat → Dict Nat → Option Heap
  | 0, _, _, _ => none
  | _ + 1, h, _, [] => some h
  | fuel + 1, h, t, (k, sa) :: rest =>
    match mergeOne fuel h t k sa with
    | some h' => mergeEntries fuel h' t rest
    | none => none
termination_by structural fuel => fuel

/-- One key of the merge loop: recurse on dict/dict, extend the target
list with the source's element addresses (shared, not copied) on
list/list, union sets on set/set, otherwise assign a deep copy of the
source value into the target dict. -/
def mergeOne : Nat → Heap → Nat → String → Nat → Option Heap
  | 0, _, _, _, _ => none
  | fuel + 1, h, t, k, sa =>
    match hget h t with
    | some (.pdict tEntries) =>
      match dlookup tEntries k with
      | some ta =>
        match hget h ta, hget h sa with
        | some (.pdict _), some (.pdict _) => deep_merge fuel h ta sa
        | some (.plist tes), some (.plist ses) => some (hset h ta (.plist (tes ++ ses)))
        | some (.pset tvs), some (.pset svs) =>
          some (hset h ta (.pset (svs.foldl pyset_add tvs)))
        | _, _ =>
          match deepcopy fuel h sa with
          | some (h', a') =>
            match hget h' t with
            | some (.pdict tE') => some (hset h' t (.pdict (dinsert tE' k a')))
            | _ => none
          | none => none
      | none =>
        match deepcopy fuel h sa with
        | some (h', a') =>
          match hget h' t with
          | some (.pdict tE') => some (hset h' t (.pdict (dinsert tE' k a')))
          | _ => none
        | none => none
    | _ => none
termination_by structural fuel => fuel
end

mutual
/-- `BenchRepo.add` (git.py 301-313): deep-merge dict `s` into `add_to`
(defaulting to the root `self._dict` whenever `add_to` is falsy — `None`
or an empty dict), deep-copying assigned values; only dict/dict pairs
recurse. -/
def addFn : Nat → Heap → Nat → Option Nat → Nat → Option Heap
  | 0, _, _, _, _ => none
  | fuel + 1, h, root, tOpt, s =>
    let t :=
      match tOpt with
      | none => root
      | some a =>
        match hget h a with
        | some (.pdict []) => root
        | _ => a
    match hget h s with
    | some (.pdict sEntries) => addEntries fuel h root t sEntries
    | _ => none
termination_by structural fuel => fuel

/-- Iterate `for bk, bv in to_add.items()`. -/
def addEntries : Nat → Heap → Nat → Nat → Dict Nat → Option Heap
  | 0, _, _, _, _ => none
  | _ + 1, h, _, _, [] => some h
  | fuel + 1, h, root, t, (k, sa) :: rest =>
    match addOne fuel h root t k sa with
    | some h' => addEntries fuel h' root t rest
    | none => none
termination_by structural fuel => fuel

/-- One key of `add`: recurse when both values are dicts, else assign a
deep copy. -/
def addOne : Nat → Heap → Nat → Nat → String → Nat → Option Heap
  | 0, _, _, _, _, _ => none
  | fuel + 1, h, root, t, k, sa =>
    match hget h t with
    | some (.pdict tEntries) =>
      match dlookup tEntries k with
      | some ta =>
        match hget h ta, hget h sa with
        | some (.pdict _), some (.pdict _) => addFn fuel h root (some ta) sa
        | _, _ =>
          match deepcopy fuel h sa with
          | some (h', a') =>
            match hget h' t with
            | some (.pdict tE') => some (hset h' t (.pdict (dinsert tE' k a')))
            | _ => none
          | none => none
      | none =>
        match deepcopy fuel h sa with
        | some (h', a') =>
          match hget h' t with
          | some (.pdict tE') => some (hset h' t (.pdict (dinsert tE' k a')))
          | _ => none
        | none => none
    | _ => none
termination_by structural fuel => fuel
end

/-- `BenchRepo.__add__` (git.py 228-237): `new_obj = deepcopy(self)` then
`new_obj += other`, which runs `deep_merge(new._data, other._data)` and
`new.add(other._dict)`. The two attribute dicts of `self` are copied (the
shared-memo aliasing of a single `deepcopy(self)` call is unobservable
here because `_data` and `_dict` never share container nodes that the
merge mutates). Returns the heap and the new object's `_data`/`_dict`
addresses. -/
def benchAdd (fuel : Nat) (h : Heap) (aData aDict bData bDict : Nat) :
    Option (Heap × Nat × Nat) := do
  let (h1, aData') ← deepcopy fuel h aData
  let (h2, aDict') ← deepcopy fuel h1 aDict
  let h3 ← deep_merge fuel h2 aData' bData
  let h4 ← addFn fuel h3 aDict' none bDict
  some (h4, aData', aDict')

/-!
### Auxiliary definitions used by the statements and proofs below.
-/

/-- Every allocated address lies below the allocation cursor (the
well-formedness every Python heap satisfies). -/
def heapDomLt (h : Heap) : Prop := ∀ kv ∈ h.mem, kv.1 < h.nxt

/-- All dict nodes at addresses at or above `n` reference only addresses
at or above `n` (the merge target stays inside the fresh copy region). -/
def highDicts (h : Heap) (n : Nat) : Prop :=
  ∀ b es, n ≤ b → hget h b = some (.pdict es) → ∀ kv ∈ es, n ≤ kv.2

/-- A pattern rule set built only from plain strings (a single regex or a
list of regexes) — the shapes on which the three `apply_pattern`
containers are interchangeable. -/
def simplePat : Pattern → Bool
  | .pstr _ => true
  | .plist items =>
    items.all (fun it =>
      match it with
      | .istr _ => true
      | .idict _ => false)
  | .pmap _ => false

/-- Reference decimal rendering of a natural number, used to prove that
`Nat.repr` is injective (so distinct record counters give distinct output
keys). -/
def decRepr (n : Nat) : List Char :=
  if n < 10 then [Nat.digitChar n]
  else decRepr (n / 10) ++ [Nat.digitChar (n % 10)]
termination_by n
decreasing_by
  have : 0 < n := by omega
  exact Nat.div_lt_self this (by omega)

/-- An `re.search` oracle for a literal, metacharacter-free pattern:
substring containment. Used to instantiate concrete scenarios. -/
def re_substr (p s : String) : Bool := strContains s p

/-- A first-capture-group oracle that never matches (no filename or
metadata regex resolves). Used to instantiate concrete scenarios. -/
def re_group_none (_p _s : String) : Option String := none

/-- A `dateutil` parse oracle that always fails. Used to instantiate
concrete scenarios (their timestamps are plain numbers). -/
def dparse_none (_s : String) : Option Frac := none

/-- A `dateutil` format oracle that always fails. -/
def dfmt_none (_s : String) : Option String := none

/-- A fresh unit state (new `BenchRepo` instance, no watermark). -/
def stZero : UnitState :=
  { raw := [], gparams := [], lastts := fofInt 0, lastts_temp := fofInt 0,
    counter := 0, odict := [], mtypes := [] }

/-- Scenario unit for the file-abort behaviour: `ts` comes from metadata,
`speed` from content. -/
def cfgC5 : UnitConfig :=
  { combined_name := "b",
    headers := [("val", "speed")],
    calc_headers := [],
    msec := [("ts", some { src := some "metadata", vtype := some "int" }),
             ("speed", some { vtype := some "int" })],
    used := ["ts", "speed"],
    plot_metrics := [], params := [], cfgId := none }

/-- The matching initial state for `cfgC5`. -/
def stC5 : UnitState := { stZero with mtypes := [("ts", "int"), ("speed", "int")] }

/-- A file with no metadata: its rows end up without `ts`. -/
def fileBad : SourceFile := { sname := "bad.csv", rows := [[("val", "1")]], meta := [] }

/-- A healthy file carrying `ts` in its metadata. -/
def fileGood : SourceFile :=
  { sname := "good.csv", rows := [[("val", "2")]], meta := [("ts", Value.vInt 7)] }

/-- Scenario unit with a single content-sourced `ts` metric. -/
def cfgC3 : UnitConfig :=
  { combined_name := "b",
    headers := [("time", "ts")],
    calc_headers := [],
    msec := [("ts", some { vtype := some "ts" })],
    used := ["ts"], plot_metrics := [], params := [], cfgId := none }

/-- The matching initial state for `cfgC3`. -/
def stC3 : UnitState := { stZero with mtypes := [("ts", "ts")] }

/-- A file whose single row carries the epoch timestamp `0`. -/
def fileTs0 : SourceFile := { sname := "z.csv", rows := [[("time", "0")]], meta := [] }

/-- Scenario unit with a content `ts` and a metadata metric `m`. -/
def cfgC4 : UnitConfig :=
  { combined_name := "b",
    headers := [("time", "ts")],
    calc_headers := [],
    msec := [("ts", some { vtype := some "ts" }),
             ("m", some { src := some "metadata", vtype := some "int" })],
    used := ["ts", "m"], plot_metrics := [], params := [], cfgId := none }

/-- The matching initial state for `cfgC4`. -/
def stC4 : UnitState := { stZero with mtypes := [("ts", "ts"), ("m", "int")] }

/-- A file without metadata: the metric `m` cannot resolve. -/
def fileNoMeta : SourceFile := { sname := "w.csv", rows := [[("time", "5")]], meta := [] }

def rowsC4 : List Record :=
  [[("ts", Value.vFloat ⟨5, 0⟩), ("__type", Value.vStr "benchmark"),
    ("__prefix", Value.vStr "bm"), ("_status", Value.vStr "SUCCESSFUL")]]

def mtypesC4 : Dict String := [("ts", "ts"), ("m", "int")]

def fileTs7 : SourceFile := { sname := "z.csv", rows := [[("time", "7")]], meta := [] }

def st1C3 : UnitState :=
  { raw := [[("ts", .vFloat ⟨7, 0⟩), ("__type", .vStr "benchmark"),
      ("__prefix", .vStr "bm"), ("_status", .vStr "SUCCESSFUL")]],
    gparams := [], lastts := ⟨7, 0⟩, lastts_temp := ⟨7, 0⟩, counter := 1,
    odict := [("b_0", [("ts", .vFloat ⟨7, 0⟩), ("__type", .vStr "benchmark"),
      ("__prefix", .vStr "bm"), ("_status", .vStr "SUCCESSFUL"), ("id", .vStr "")])],
    mtypes := [("ts", "ts")] }

def heapC10 : Heap :=
  { nxt := 8, mem := [
    (0, .pdict [("l", 1)]),
    (1, .plist [2]),
    (2, .scalar (.vInt 1)),
    (3, .pdict []),
    (4, .pdict [("l", 5)]),
    (5, .plist [6]),
    (6, .scalar (.vInt 2)),
    (7, .pdict [])] }

def heapC10' : Heap :=
  { nxt := 12, mem := [
    (0, .pdict [("l", 1)]),
    (1, .plist [2]),
    (2, .scalar (.vInt 1)),
    (3, .pdict []),
    (4, .pdict [("l", 5)]),
    (5, .plist [6]),
    (6, .scalar (.vInt 2)),
    (7, .pdict []),
    (8, .scalar (.vInt 1)),
    (9, .plist [8, 6]),
    (10, .pdict [("l", 9)]),
    (11, .pdict [])] }

/-!
## Theorems

Each claim `Cn` of the specification review is settled by the theorem(s)
named below; shared helper lemmas precede them.
-/

/-- Folding `compute_calcs` over a single formula unfolds to one step. -/
theorem compute_calcs_cons (msec : Dict (Option MetricSpec)) (line : Dict String)
    (cur : Record) (key formula : String) (rest : Dict String) :
    compute_calcs msec line cur ((key, formula) :: rest) =
      (do
        let s ← substitute_formula formula line
        match safe_math_eval s with
        | .ok v => pure (dinsert cur key (.vFloat v))
        | .error .syntaxErr =>
          match dlookup msec key with
          | none => .error .keyErr
          | some none => .error .typeErr
          | some (some spec) =>
            match spec.vtype with
            | none => .error .keyErr
            | some t =>
              match default_table t with
              | none => .error .keyErr
              | some d => pure (dinsert cur key d)
        | .error e => .error e) >>= fun cur' => compute_calcs msec line cur' rest := by
  simp only [compute_calcs, List.foldlM_cons]

/-- C1 counterexample: the derived formula `x+y` over a row where `y`
holds the value `$` substitutes to `1+$`; `safe_math_eval` rejects the
`$` before evaluating anything, but the resulting exception is a bare
`Exception`, not the `SyntaxError` that the handler of git.py 681 catches,
so the row does *not* receive the type default (`-1` for the declared
`int`) — the exception escapes per-row processing, contradicting the
claim. -/
theorem C1_counterexample :
    compute_calcs [("m", some { vtype := some "int" })] [("x", "1"), ("y", "$")] []
        [("m", "x+y")] = .error .rejectedExpr ∧
      substitute_formula "x+y" [("x", "1"), ("y", "$")] = .ok "1+$" ∧
      safe_math_eval "1+$" = .error .rejectedExpr := by
  decide

/-- C1 amended: (1) any character outside `0-9+-*()./ ` makes
`safe_math_eval` raise before evaluation is attempted; (2) only a
`SyntaxError` from the evaluation makes the derived metric fall back to
its type's default from the documented table; (3) a missing referenced
field raises `KeyError` before the `try` and the exception escapes;
(4) the rejected-character exception likewise escapes; (5) the default
table is exactly `'' / -1 / -1 / 0 / None / '-'` for
`str / int / ts / float / bool / date`. -/
theorem C1_amended :
    (∀ s : String, ¬(s.data.all (fun c => c ∈ allowed_chars)) = true →
        safe_math_eval s = .error .rejectedExpr) ∧
    (∀ (msec : Dict (Option MetricSpec)) (line : Dict String) (cur : Record)
        (key formula s : String) (spec : MetricSpec) (t : String) (d : Value),
        substitute_formula formula line = .ok s →
        safe_math_eval s = .error .syntaxErr →
        dlookup msec key = some (some spec) →
        spec.vtype = some t →
        default_table t = some d →
        compute_calcs msec line cur [(key, formula)] = .ok (dinsert cur key d)) ∧
    (∀ (msec : Dict (Option MetricSpec)) (line : Dict String) (cur : Record)
        (key formula : String) (rest : Dict String),
        substitute_formula formula line = .error .keyErr →
        compute_calcs msec line cur ((key, formula) :: rest) = .error .keyErr) ∧
    (∀ (msec : Dict (Option MetricSpec)) (line : Dict String) (cur : Record)
        (key formula s : String) (rest : Dict String),
        substitute_formula formula line = .ok s →
        safe_math_eval s = .error .rejectedExpr →
        compute_calcs msec line cur ((key, formula) :: rest) = .error .rejectedExpr) ∧
    (default_table "str" = some (.vStr "") ∧ default_table "int" = some (.vInt (-1)) ∧
      default_table "ts" = some (.vInt (-1)) ∧ default_table "float" = some (.vInt 0) ∧
      default_table "bool" = some .vNone ∧ default_table "date" = some (.vStr "-")) := by
  refine ⟨?_, ?_, ?_, ?_, by decide⟩
  · intro s h
    simp only [safe_math_eval]
    rw [if_neg]
    simpa using h
  · intro msec line cur key formula s spec t d h1 h2 h3 h4 h5
    rw [compute_calcs_cons, h1]
    show (match safe_math_eval s with
      | .ok v => pure (dinsert cur key (.vFloat v))
      | .error .syntaxErr =>
        match dlookup msec key with
        | none => .error .keyErr
        | some none => .error .typeErr
        | some (some spec) =>
          match spec.vtype with
          | none => .error .keyErr
          | some t =>
            match default_table t with
            | none => .error .keyErr
            | some d => pure (dinsert cur key d)
      | .error e => .error e) >>= (fun cur' => compute_calcs msec line cur' []) = _
    rw [h2]
    show (match dlookup msec key with
      | none => Except.error PyErr.keyErr
      | some none => Except.error PyErr.typeErr
      | some (some spec) =>
        match spec.vtype with
        | none => Except.error PyErr.keyErr
        | some t =>
          match default_table t with
          | none => Except.error PyErr.keyErr
          | some d => pure (dinsert cur key d)) >>=
        (fun cur' => compute_calcs msec line cur' []) = _
    rw [h3]
    show (match spec.vtype with
      | none => Except.error PyErr.keyErr
      | some t =>
        match default_table t with
        | none => Except.error PyErr.keyErr
        | some d => pure (dinsert cur key d)) >>=
        (fun cur' => compute_calcs msec line cur' []) = _
    rw [h4]
    show (match default_table t with
      | none => Except.error PyErr.keyErr
      | some d => pure (dinsert cur key d)) >>=
        (fun cur' => compute_calcs msec line cur' []) = _
    rw [h5]
    rfl
  · intro msec line cur key formula rest h1
    rw [compute_calcs_cons, h1]
    rfl
  · intro msec line cur key formula s rest h1 h2
    rw [compute_calcs_cons, h1]
    show (match safe_math_eval s with
      | .ok v => pure (dinsert cur key (.vFloat v))
      | .error .syntaxErr =>
        match dlookup msec key with
        | none => .error .keyErr
        | some none => .error .typeErr
        | some (some spec) =>
          match spec.vtype with
          | none => .error .keyErr
          | some t =>
            match default_table t with
            | none => .error .keyErr
            | some d => pure (dinsert cur key d)
      | .error e => .error e) >>= (fun cur' => compute_calcs msec line cur' rest) = _
    rw [h2]
    rfl

/-- C1 amended, witnessed at concrete inputs: `1%2` is rejected;
`x+*y` over `x=1, y=2` substitutes to the genuinely malformed `1+*2` and
defaults to `-1`; a formula referencing the absent field `z` raises
`KeyError`; the `$` row raises the rejection. -/
theorem C1_amended_witness :
    safe_math_eval "1%2" = .error .rejectedExpr ∧
      compute_calcs [("m", some { vtype := some "int" })] [("x", "1"), ("y", "2")] []
        [("m", "x+*y")] = .ok (dinsert [] "m" (.vInt (-1))) ∧
      compute_calcs [("m", some { vtype := some "int" })] [("x", "1")] []
        [("m", "x+z")] = .error .keyErr ∧
      compute_calcs [("m", some { vtype := some "int" })] [("x", "1"), ("y", "$")] []
        [("m", "x+y")] = .error .rejectedExpr := by
  refine ⟨C1_amended.1 "1%2" (by decide), ?_, ?_, ?_⟩
  · exact C1_amended.2.1 [("m", some { vtype := some "int" })] [("x", "1"), ("y", "2")] []
      "m" "x+*y" "1+*2" { vtype := some "int" } "int" (.vInt (-1)) (by decide) (by decide)
      (by decide) (by decide) (by decide)
  · exact C1_amended.2.2.1 [("m", some { vtype := some "int" })] [("x", "1")] []
      "m" "x+z" [] (by decide)
  · exact C1_amended.2.2.2.1 [("m", some { vtype := some "int" })] [("x", "1"), ("y", "$")] []
      "m" "x+y" "1+$" [] (by decide) (by decide)

/-- C5 counterexample: in the two-file unit `cfgC5`, the first file
cannot resolve `ts`, and `get_metrics` returns `False` with an *empty*
output dict — the second (healthy) file is never processed — whereas the
same healthy file alone yields the record `b_0`. The claim's
skip-and-continue behaviour does not hold at this point. -/
theorem C5_counterexample :
    (get_metrics_files re_substr re_group_none dparse_none dfmt_none cfgC5 stC5
        [fileBad, fileGood]).map (fun p => (p.1, dkeys p.2.odict)) = .ok (false, []) ∧
      (get_metrics_files re_substr re_group_none dparse_none dfmt_none cfgC5 stC5
        [fileGood]).map (fun p => (p.1, dkeys p.2.odict)) = .ok (true, ["b_0"]) := by
  decide

/-- C5 amended: when a source file's first surviving row lacks `ts`, the
whole unit aborts — `get_metrics` returns `False` immediately (git.py
788), with the remaining source files unprocessed (the result does not
depend on `rest`), the output dict and counter untouched by this file,
and the watermark not advanced (`lastts` keeps its old value because the
final `self._lastts = lastts_temp` of git.py 865 is never reached). -/
theorem C5_amended :
    ∀ (rsearch : String → String → Bool) (rsearch1 : String → String → Option String)
      (dparse : String → Option Frac) (dfmt : String → Option String)
      (cfg : UnitConfig) (st : UnitState) (f : SourceFile) (rest : List SourceFile)
      (mtypes' : Dict String),
      source_rows rsearch rsearch1 dparse dfmt cfg st.mtypes f = .ok (.tsMissing mtypes') →
      run_files rsearch rsearch1 dparse dfmt cfg st (f :: rest) =
        .ok (false, { st with mtypes := mtypes' }) := by
  intro rsearch rsearch1 dparse dfmt cfg st f rest mtypes' h
  simp only [run_files, process_source, h]
  rfl

/-- C5 amended, witnessed on the concrete two-file unit. -/
theorem C5_amended_witness :
    run_files re_substr re_group_none dparse_none dfmt_none cfgC5 stC5
        [fileBad, fileGood] =
      .ok (false, { stC5 with mtypes := [("ts", "int"), ("speed", "int")] }) :=
  C5_amended re_substr re_group_none dparse_none dfmt_none cfgC5 stC5 fileBad [fileGood]
    [("ts", "int"), ("speed", "int")] (by decide)

/-- C6 counterexample: at the content-conversion call site
(`convert_data`, git.py 955-956), casting the raw string `"false"` to
`bool` yields `True` — plain truthiness, not the claimed case-insensitive
`{"false", "0", ""} → False` rule. -/
theorem C6_counterexample :
    convert_data re_group_none dparse_none (.vStr "false") "bool" none =
      .ok (.vBool true) := by
  decide

/-- C6 amended: `_type_cast_value` (the filename/metadata call site)
implements the claimed rule — a string (and, via `str()`, an integer)
maps to `False` exactly when it reads case-insensitively as `"false"`,
`"0"` or empty, while other inputs coerce by truthiness — but
`convert_data` (the content call site) casts `bool` by plain Python
truthiness, so every nonempty string there (including `"false"` and
`"0"`) becomes `True`. -/
theorem C6_amended :
    (∀ (dparse : String → Option Frac) (dfmt : String → Option String)
        (m s : String) (spec : MetricSpec), spec.vtype = some "bool" →
        type_cast_value dparse dfmt (.vStr s) spec m =
          .ok (some (.vBool (¬(pyLower s ∈ ["false", "0", ""])), "bool"))) ∧
    (∀ (dparse : String → Option Frac) (dfmt : String → Option String)
        (m : String) (n : Int) (spec : MetricSpec), spec.vtype = some "bool" →
        type_cast_value dparse dfmt (.vInt n) spec m =
          .ok (some (.vBool (¬(pyLower (pyStr (.vInt n)) ∈ ["false", "0", ""])), "bool"))) ∧
    (∀ (dparse : String → Option Frac) (dfmt : String → Option String)
        (m : String) (q : Frac) (spec : MetricSpec), spec.vtype = some "bool" →
        type_cast_value dparse dfmt (.vFloat q) spec m =
          .ok (some (.vBool (q.num ≠ 0), "bool"))) ∧
    (∀ (rsearch1 : String → String → Option String) (dparse : String → Option Frac)
        (v : Value) (factor : Option Value),
        convert_data rsearch1 dparse v "bool" factor = .ok (.vBool (pyTruthy v))) ∧
    (∀ (rsearch1 : String → String → Option String) (dparse : String → Option Frac)
        (s : String) (factor : Option Value),
        convert_data rsearch1 dparse (.vStr s) "bool" factor =
          .ok (.vBool (s ≠ ""))) := by
  refine ⟨?_, ?_, ?_, ?_, ?_⟩
  · intro dparse dfmt m s spec h
    simp only [type_cast_value, h]
    rfl
  · intro dparse dfmt m n spec h
    simp only [type_cast_value, h]
    rfl
  · intro dparse dfmt m q spec h
    simp only [type_cast_value, h]
    rfl
  · intro rsearch1 dparse v factor
    rfl
  · intro rsearch1 dparse s factor
    rfl

/-- C6 amended, witnessed: `"False"` and `0` cast to `False` and a
nonzero float to `True` in `_type_cast_value`, while `convert_data`
sends `"0"` to `True` and only `""` to `False`. -/
theorem C6_amended_witness :
    type_cast_value dparse_none dfmt_none (.vStr "False") { vtype := some "bool" } "m" =
        .ok (some (.vBool false, "bool")) ∧
      type_cast_value dparse_none dfmt_none (.vInt 0) { vtype := some "bool" } "m" =
        .ok (some (.vBool false, "bool")) ∧
      type_cast_value dparse_none dfmt_none (.vFloat ⟨1, 1⟩) { vtype := some "bool" } "m" =
        .ok (some (.vBool true, "bool")) ∧
      convert_data re_group_none dparse_none (.vStr "0") "bool" none =
        .ok (.vBool true) ∧
      convert_data re_group_none dparse_none (.vStr "") "bool" none =
        .ok (.vBool false) := by
  refine ⟨?_, ?_, ?_, ?_, ?_⟩
  · have h := C6_amended.1 dparse_none dfmt_none "m" "False" { vtype := some "bool" } rfl
    rw [h]; decide
  · have h := C6_amended.2.1 dparse_none dfmt_none "m" 0 { vtype := some "bool" } rfl
    rw [h]; decide
  · have h := C6_amended.2.2.1 dparse_none dfmt_none "m" ⟨1, 1⟩ { vtype := some "bool" } rfl
    rw [h]; decide
  · have h := C6_amended.2.2.2.2 re_group_none dparse_none "0" none
    rw [h]; decide
  · have h := C6_amended.2.2.2.2 re_group_none dparse_none "" none
    rw [h]; decide

/-- C2: the watermark scenario. With watermark `lastts = T > 0` and a
source file whose validated rows carry timestamps `T-1`, `T` and `T+1`,
the tail of the per-source iteration emits exactly one record — the row
with `ts = T+1`, stored under the next counter key with its generated
`id` — and the accumulated `lastts_temp` (assigned to the unit's
watermark at the end of `get_metrics`, git.py 865) becomes `T+1`. -/
theorem C2_watermark_scenario :
    ∀ (T : Int) (name : String) (params : List String) (st : UnitState)
      (r1 r2 r3 : Record),
      0 < T →
      st.lastts = fofInt T → st.lastts_temp = fofInt 0 →
      dlookup r1 "ts" = some (.vInt (T - 1)) →
      dlookup r2 "ts" = some (.vInt T) →
      dlookup r3 "ts" = some (.vInt (T + 1)) →
      wm_tail name params st [r1, r2, r3] =
        .ok { st with
          raw := st.raw ++ [r1, r2, r3],
          lastts_temp := fofInt (T + 1),
          counter := st.counter + 1,
          odict := dinsert st.odict (keyOf name st.counter)
            (dinsert r3 "id" (.vStr (idJoin params r3))) } := by
  intro T name params st r1 r2 r3 hT hl hlt h1 h2 h3
  have hT0 : ¬((fofInt T).num = 0) := by simp [fofInt]; omega
  have f1 : flt (fofInt T) (fofInt (T - 1)) = false := by
    simp [flt, fofInt, Frac.den]
  have f2 : flt (fofInt T) (fofInt T) = false := by
    simp [flt, fofInt, Frac.den]
  have f3 : flt (fofInt T) (fofInt (T + 1)) = true := by
    simp [flt, fofInt, Frac.den]
  have g1 : fmax (fofInt T) (fofInt 0) = fofInt T := by
    simp [fmax, fle, fofInt, Frac.den] <;> omega
  have g2 : fmax (fofInt T) (fofInt (T + 1)) = fofInt (T + 1) := by
    simp [fmax, fle, fofInt, Frac.den]
  simp only [wm_tail, wm_filter, hl, hlt, hT0, tsnum, h1, h2, h3, numVal,
    List.foldlM_cons, List.foldlM_nil, List.mapM_cons, List.mapM_nil,
    List.foldl_cons, List.foldl_nil, f1, f2, f3, g1, g2,
    pure_bind, bind_pure, bind_assoc, ne_eq, not_false_eq_true, if_true, ite_true,
    if_false, ite_false, Bool.false_eq_true, List.nil_append, List.append_nil]
  simp only [List.isEmpty, emit]
  rfl

/-- C2, witnessed at `T = 5` on one-field records: only the `ts = 6` row
is emitted (as `b_0`), and the accumulated watermark becomes `6`. -/
theorem C2_watermark_scenario_witness :
    (wm_tail "b" [] { stZero with lastts := fofInt 5 }
        [[("ts", .vInt 4)], [("ts", .vInt 5)], [("ts", .vInt 6)]]).map
      (fun s => (dkeys s.odict, s.lastts_temp, s.counter)) =
      .ok (["b_0"], fofInt 6, 1) := by
  rw [C2_watermark_scenario 5 "b" [] { stZero with lastts := fofInt 5 }
    [("ts", .vInt 4)] [("ts", .vInt 5)] [("ts", .vInt 6)]
    (by decide) rfl rfl (by decide) (by decide) (by decide)]
  decide

/-- C8 counterexample: the same field-rule mapping
(`exclude = {"f": "x"}`) removes the record named `a` in the name-keyed
dict container but keeps the name `a` in the set container (the
field-rule branches of `search_patterns` are commented out and never
match), so the three container shapes do not give the same keep/remove
decision. -/
theorem C8_counterexample :
    apply_pattern_set re_substr (.pmap [("f", .one "x")]) (.pmap []) ["a"] = ["a"] ∧
      apply_pattern_dict re_substr (.pmap [("f", .one "x")]) (.pmap [])
        [("a", [("f", Value.vStr "x")])] = .ok [] := by
  decide

/-- Monadic filtering with exception-free decisions is plain filtering. -/
theorem filterExcept_ok {α : Type} (f : α → Except PyErr Bool) (g : α → Bool)
    (l : List α) (h : ∀ x ∈ l, f x = .ok (g x)) :
    filterExcept f l = .ok (l.filter g) := by
  induction l with
  | nil => rfl
  | cons x xs ih =>
    have hx := h x (by simp)
    simp only [filterExcept, hx, List.filter_cons]
    rw [ih (fun y hy => h y (by simp [hy]))]
    cases hg : g x <;> rfl

/-- An early-exit monadic disjunction with exception-free branches is
`List.any`. -/
theorem firstTrueM_ok {α : Type} (f : α → Except PyErr Bool) (g : α → Bool)
    (l : List α) (h : ∀ x ∈ l, f x = .ok (g x)) :
    firstTrueM f l = .ok (l.any g) := by
  induction l with
  | nil => rfl
  | cons x xs ih =>
    have hx := h x (by simp)
    simp only [firstTrueM, hx, List.any_cons]
    cases hg : g x
    · exact ih (fun y hy => h y (by simp [hy]))
    · rfl

/-- On string-only rules, `check_unit` with a string unit name computes
`search_patterns`. -/
theorem check_unit_simple (rsearch : String → String → Bool) (p : Pattern)
    (u : String) (r : Record) (h : simplePat p = true) :
    check_unit rsearch (.vStr u) r p = .ok (search_patterns rsearch p u) := by
  cases p with
  | pstr s => rfl
  | plist items =>
    exact firstTrueM_ok
      (fun it =>
        match it with
        | PatItem.istr q => re_search_val rsearch q (Value.vStr u)
        | PatItem.idict rules =>
          firstTrueM (fun kv => check_fieldrule rsearch r kv.1 kv.2) rules)
      (fun it =>
        match it with
        | PatItem.istr q => rsearch q u
        | PatItem.idict _ => false)
      items
      (by
        intro it hit
        cases it with
        | istr q => rfl
        | idict rules =>
          exfalso
          simp only [simplePat, List.all_eq_true] at h
          have := h _ hit
          simp at this)
  | pmap m => simp [simplePat] at h

/-- On string-only rules, the dict-container keep decision equals the
set-container keep decision for the same name. -/
theorem keep_rec_simple (rsearch : String → String → Bool) (excl incl : Pattern)
    (u : String) (r : Record) (he : simplePat excl = true) (hi : simplePat incl = true) :
    keep_rec rsearch excl incl (.vStr u) r = .ok (keep_set rsearch excl incl u) := by
  simp only [keep_rec, keep_set]
  by_cases hte : patTruthy excl = true <;>
    by_cases hti : patTruthy incl = true <;>
      simp only [hte, hti, if_pos, if_neg, check_unit_simple rsearch _ u r he,
        check_unit_simple rsearch _ u r hi, Bool.not_eq_true] <;>
      first
        | rfl
        | (cases hse : search_patterns rsearch excl u <;>
            cases hsi : search_patterns rsearch incl u <;> simp_all <;> rfl)

/-- C8 amended: the containers agree only on string-shaped rules. For a
single-string or list-of-strings rule set, `check_unit` over a name-keyed
record equals `search_patterns` over the name, and the dict container
filters exactly by the set container's keep decision on names; but a
plain-string rule against the list container raises `TypeError` (the unit
name there is the integer index), and field-rule shapes (refuted
separately) never match in the set container. -/
theorem C8_amended :
    (∀ (rsearch : String → String → Bool) (p : Pattern) (u : String) (r : Record),
        simplePat p = true →
        check_unit rsearch (.vStr u) r p = .ok (search_patterns rsearch p u)) ∧
    (∀ (rsearch : String → String → Bool) (excl incl : Pattern) (recs : Dict Record),
        simplePat excl = true → simplePat incl = true →
        apply_pattern_dict rsearch excl incl recs =
          .ok (recs.filter (fun kv => keep_set rsearch excl incl kv.1))) ∧
    (∀ (rsearch : String → String → Bool) (i : Int) (r : Record) (p : String),
        check_unit rsearch (.vInt i) r (.pstr p) = .error .typeErr) := by
  refine ⟨check_unit_simple, ?_, fun _ _ _ _ => rfl⟩
  intro rsearch excl incl recs he hi
  exact filterExcept_ok _ _ recs (fun kv _ => keep_rec_simple rsearch excl incl kv.1 kv.2 he hi)

/-- C8 amended, witnessed: a literal string rule gives the same answer
through `check_unit` and `search_patterns`; the dict container filters by
the set decision; the list container's integer unit name raises. -/
theorem C8_amended_witness :
    check_unit re_substr (.vStr "ab") [] (.pstr "a") =
        .ok (search_patterns re_substr (.pstr "a") "ab") ∧
      apply_pattern_dict re_substr (.pstr "a") (.pstr "") [("a", [])] =
        .ok (([("a", [])] : Dict Record).filter
          (fun kv => keep_set re_substr (.pstr "a") (.pstr "") kv.1)) ∧
      check_unit re_substr (.vInt 0) [] (.pstr "x") = .error .typeErr :=
  ⟨C8_amended.1 re_substr (.pstr "a") "ab" [] (by decide),
    C8_amended.2.1 re_substr (.pstr "a") (.pstr "") [("a", [])] (by decide) (by decide),
    C8_amended.2.2 re_substr 0 [] "x"⟩

open LLview

theorem dkeys_cons {α : Type} (kv : String × α) (d : Dict α) :
    dkeys (kv :: d) = kv.1 :: dkeys d := rfl

theorem dkeys_dinsert {α : Type} (d : Dict α) (k : String) (v : α) :
    dkeys (dinsert d k v) = if k ∈ dkeys d then dkeys d else dkeys d ++ [k] := by
  induction d with
  | nil => simp [dinsert, dkeys]
  | cons kv rest ih =>
    by_cases h : kv.1 = k
    · subst h
      simp [dinsert, dkeys_cons]
    · rw [show dinsert (kv :: rest) k v = kv :: dinsert rest k v from by simp [dinsert, h]]
      rw [dkeys_cons, dkeys_cons, ih]
      by_cases hm : k ∈ dkeys rest
      · rw [if_pos hm, if_pos (List.mem_cons_of_mem _ hm)]
      · rw [if_neg hm, if_neg (by simp [hm, Ne.symm h]), List.cons_append]

theorem dkeys_dinsert_congr {α β : Type} {d : Dict α} {d' : Dict β}
    (h : dkeys d = dkeys d') (k : String) (v : α) (v' : β) :
    dkeys (dinsert d k v) = dkeys (dinsert d' k v') := by
  rw [dkeys_dinsert, dkeys_dinsert, h]

theorem dkeys_dinsert_mem {α : Type} {d : Dict α} {k : String} (h : k ∈ dkeys d) (v : α) :
    dkeys (dinsert d k v) = dkeys d := by
  rw [dkeys_dinsert, if_pos h]

theorem dlookup_isSome_iff_mem {α : Type} (d : Dict α) (k : String) :
    (dlookup d k).isSome = true ↔ k ∈ dkeys d := by
  induction d with
  | nil => simp [dlookup, dkeys]
  | cons kv rest ih =>
    rw [dkeys_cons]
    by_cases h : kv.1 = k
    · simp [dlookup, h]
    · simp [dlookup, h, ih, Ne.symm h]

theorem dcontains_congr {α β : Type} {d : Dict α} {d' : Dict β}
    (h : dkeys d = dkeys d') (k : String) : dcontains d k = dcontains d' k := by
  rcases hb : dcontains d' k with _ | _ <;> rcases ha : dcontains d k with _ | _ <;> try rfl
  · rw [dcontains] at ha hb
    have := (dlookup_isSome_iff_mem d k).1 ha
    rw [h, ← dlookup_isSome_iff_mem d' k] at this
    rw [this] at hb
    cases hb
  · rw [dcontains] at ha hb
    have := (dlookup_isSome_iff_mem d' k).1 hb
    rw [← h, ← dlookup_isSome_iff_mem d k] at this
    rw [this] at ha
    cases ha

theorem dkeys_dunion_congr {d d' : Record} (h : dkeys d = dkeys d') (common : Record) :
    dkeys (dunion d common) = dkeys (dunion d' common) := by
  induction common generalizing d d' with
  | nil => exact h
  | cons kv rest ih =>
    simp only [dunion, List.foldl_cons]
    exact ih (dkeys_dinsert_congr h kv.1 kv.2 kv.2)

theorem ok_bind {e a b : Type} (x : a) (f : a → Except e b) :
    (Except.ok x : Except e a) >>= f = f x := rfl

theorem error_bind {e a b : Type} (x : e) (f : a → Except e b) :
    (Except.error x : Except e a) >>= f = .error x := rfl

theorem dkeys_remap_line (headers : Dict String) (line line' : Dict String) :
    dkeys (remap_line headers line) = dkeys (remap_line headers line') := by
  simp only [remap_line]
  have : ∀ (hs : Dict String) (acc acc' : Record), dkeys acc = dkeys acc' →
      dkeys (hs.foldl (fun a kv => dinsert a kv.2 (.vStr ((dlookup line kv.1).getD ""))) acc) =
        dkeys (hs.foldl (fun a kv => dinsert a kv.2 (.vStr ((dlookup line' kv.1).getD ""))) acc') := by
    intro hs
    induction hs with
    | nil => intro acc acc' h; exact h
    | cons kv rest ih =>
      intro acc acc' h
      simp only [List.foldl_cons]
      exact ih _ _ (dkeys_dinsert_congr h kv.2 _ _)
  exact this headers [] [] rfl

theorem compute_calcs_step_shape (msec : Dict (Option MetricSpec)) (line : Dict String)
    (cur : Record) (key formula : String) (rest : Dict String) (r : Record)
    (h : compute_calcs msec line cur ((key, formula) :: rest) = .ok r) :
    ∃ v, compute_calcs msec line (dinsert cur key v) rest = .ok r := by
  rw [compute_calcs_cons] at h
  cases hs : substitute_formula formula line with
  | error e => rw [hs, error_bind] at h; cases h
  | ok s =>
    rw [hs, ok_bind] at h
    split at h
    · exact ⟨_, h⟩
    · split at h
      · cases h
      · cases h
      · split at h
        · cases h
        · split at h
          · cases h
          · exact ⟨_, h⟩
    · rename_i e he hne
      rw [error_bind] at h
      cases h

theorem compute_calcs_keys_congr (msec : Dict (Option MetricSpec)) :
    ∀ (calcs : Dict String) (line line' : Dict String) (cur cur' r r' : Record),
      dkeys cur = dkeys cur' →
      compute_calcs msec line cur calcs = .ok r →
      compute_calcs msec line' cur' calcs = .ok r' →
      dkeys r = dkeys r' := by
  intro calcs
  induction calcs with
  | nil =>
    intro line line' cur cur' r r' h h1 h2
    simp only [compute_calcs, List.foldlM_nil] at h1 h2
    cases h1; cases h2; exact h
  | cons kv rest ih =>
    intro line line' cur cur' r r' h h1 h2
    obtain ⟨v1, h1'⟩ := compute_calcs_step_shape msec line cur kv.1 kv.2 rest r h1
    obtain ⟨v2, h2'⟩ := compute_calcs_step_shape msec line' cur' kv.1 kv.2 rest r' h2
    exact ih line line' _ _ r r' (dkeys_dinsert_congr h kv.1 v1 v2) h1' h2'

theorem mapM_keys_pres (f : Record → Except PyErr Record)
    (hf : ∀ r r', f r = .ok r' → dkeys r' = dkeys r) :
    ∀ (rows mid : List Record), rows.mapM f = .ok mid →
      mid.map dkeys = rows.map dkeys := by
  intro rows
  induction rows with
  | nil =>
    intro mid h
    cases h
    rfl
  | cons r rs ih =>
    intro mid h
    rw [List.mapM_cons] at h
    cases hfr : f r with
    | error e => rw [hfr, error_bind] at h; cases h
    | ok b =>
      rw [hfr, ok_bind] at h
      cases hrs : rs.mapM f with
      | error e => rw [hrs, error_bind] at h; cases h
      | ok bs =>
        rw [hrs, ok_bind] at h
        cases h
        simp only [List.map_cons, hf r b hfr, ih bs hrs]

theorem convert_rows_keys (rsearch1 : String → String → Option String)
    (dparse : String → Option Frac) (msec : Dict (Option MetricSpec))
    (mtypes : Dict String) :
    ∀ (keys : List String) (rows rows' : List Record),
      convert_rows rsearch1 dparse msec mtypes keys rows = .ok rows' →
      rows'.map dkeys = rows.map dkeys := by
  intro keys
  induction keys with
  | nil =>
    intro rows rows' h
    simp only [convert_rows, List.foldlM_nil] at h
    cases h
    rfl
  | cons key rest ih =>
    intro rows rows' h
    simp only [convert_rows, List.foldlM_cons] at h
    split at h
    rotate_left
    · cases h
    split at h
    rotate_left
    · cases h
    · cases h
    rename_i mtype hmt spec0 spec hsp
    have h' : (rows.mapM (fun r =>
        match dlookup r key with
        | some v =>
          (match convert_data rsearch1 dparse v (if key = "ts" then "ts" else mtype)
              (if mtype = "str" then spec.regex.map Value.vStr else spec.factor) with
            | .ok v' => Except.ok (dinsert r key v')
            | .error .valueErr => Except.ok r
            | .error e => Except.error e)
        | none => Except.error PyErr.keyErr) >>=
        fun mid => convert_rows rsearch1 dparse msec mtypes rest mid) = Except.ok rows' := h
    clear h
    cases hmp : rows.mapM (fun r =>
        match dlookup r key with
        | some v =>
          (match convert_data rsearch1 dparse v (if key = "ts" then "ts" else mtype)
              (if mtype = "str" then spec.regex.map Value.vStr else spec.factor) with
            | .ok v' => Except.ok (dinsert r key v')
            | .error .valueErr => Except.ok r
            | .error e => Except.error e)
        | none => Except.error PyErr.keyErr) with
    | error e =>
      rw [hmp, error_bind] at h'
      cases h'
    | ok mid =>
      rw [hmp, ok_bind] at h'
      have hmid : mid.map dkeys = rows.map dkeys := by
        refine mapM_keys_pres _ ?_ rows mid hmp
        intro r r' hr
        split at hr
        · split at hr
          · rename_i v hv x v' hcv
            cases hr
            exact dkeys_dinsert_mem
              ((dlookup_isSome_iff_mem r key).1 (by rw [hv]; rfl)) v'
          · cases hr
            rfl
          · cases hr
        · cases hr
      exact (ih mid rows' h').trans hmid

theorem bind_ok_elim {e a b : Type} {m : Except e a} {k : a → Except e b} {out : b}
    (h : (m >>= k) = .ok out) : ∃ x, m = .ok x ∧ k x = .ok out := by
  cases m with
  | error err => rw [error_bind] at h; cases h
  | ok x => rw [ok_bind] at h; exact ⟨x, rfl, h⟩

theorem apply_pattern_list_mem {rsearch : String → String → Bool} {excl incl : Pattern}
    {elements out : List Record}
    (h : apply_pattern_list rsearch excl incl elements = .ok out) :
    ∀ r ∈ out, r ∈ elements := by
  unfold apply_pattern_list at h
  obtain ⟨dec, hdec, h2⟩ := bind_ok_elim h
  have h3 : (Except.ok (((elements.zip dec).filter Prod.snd).map Prod.fst) :
      Except PyErr (List Record)) = .ok out := h2
  cases h3
  intro r hr
  obtain ⟨p, hp, rfl⟩ := List.mem_map.1 hr
  exact (List.of_mem_zip (List.mem_filter.1 hp).1).1

theorem foldl_keys_pres {β : Type} (f : Record × β → String → Record × β)
    (hf : ∀ p m, dkeys (f p m).1 = dkeys p.1) :
    ∀ (used : List String) (p : Record × β), dkeys (used.foldl f p).1 = dkeys p.1 := by
  intro used
  induction used with
  | nil => intro p; rfl
  | cons m rest ih => intro p; rw [List.foldl_cons, ih (f p m), hf]

theorem validate_fold_keys (pm : List String) (mtypes : Dict String) :
    ∀ (used : List String) (p : Record × Value),
      dkeys (used.foldl
        (fun (p : Record × Value) m =>
          let (l, st) := p
          match dlookup l m with
          | none => (l, st)
          | some v =>
            let val := pyStrip (pyStr v)
            let is_empty := val = "" ∨ pyLower val ∈ ["none", "null", "nan"]
            if ¬is_empty then (l, st)
            else if m ∈ pm then (dinsert l m .vNone, .vStr "FAILED")
            else
              let t := (dlookup mtypes m).getD "str"
              ((dinsert l m ((default_table t).getD (.vStr ""))),
                if t ≠ "str" then .vStr "FAILED" else st)) p).1 = dkeys p.1 := by
  refine foldl_keys_pres _ ?_
  intro p m
  obtain ⟨l, st⟩ := p
  show dkeys (match dlookup l m with
    | none => (l, st)
    | some v =>
      let val := pyStrip (pyStr v)
      let is_empty := val = "" ∨ pyLower val ∈ ["none", "null", "nan"]
      if ¬is_empty then (l, st)
      else if m ∈ pm then (dinsert l m .vNone, .vStr "FAILED")
      else
        let t := (dlookup mtypes m).getD "str"
        ((dinsert l m ((default_table t).getD (.vStr ""))),
          if t ≠ "str" then .vStr "FAILED" else st)).1 = dkeys l
  cases hv : dlookup l m with
  | none => rfl
  | some v =>
    have hmem : m ∈ dkeys l := (dlookup_isSome_iff_mem l m).1 (by rw [hv]; rfl)
    show dkeys (if ¬(pyStrip (pyStr v) = "" ∨ pyLower (pyStrip (pyStr v)) ∈ ["none", "null", "nan"])
        then (l, st)
        else if m ∈ pm then (dinsert l m .vNone, .vStr "FAILED")
        else ((dinsert l m ((default_table ((dlookup mtypes m).getD "str")).getD (.vStr ""))),
          if (dlookup mtypes m).getD "str" ≠ "str" then .vStr "FAILED" else st)).1 = dkeys l
    split
    · rfl
    · split
      · exact dkeys_dinsert_mem hmem _
      · exact dkeys_dinsert_mem hmem _

theorem validate_line_keys (used pm : List String) (mtypes : Dict String) (line : Record) :
    dkeys (validate_line used pm mtypes line) =
      if "_status" ∈ dkeys line then dkeys line else dkeys line ++ ["_status"] := by
  refine Eq.trans (dkeys_dinsert _ "_status" _) ?_
  rw [validate_fold_keys]

theorem foldlM_origin (headers calcs : Dict String) (msec : Dict (Option MetricSpec))
    (step : List Record → Dict String → Except PyErr (List Record))
    (hstep : ∀ acc line rows', step acc line = .ok rows' →
      rows' = acc ∨ ∃ cl, compute_calcs msec line (remap_line headers line) calcs = .ok cl ∧
        rows' = acc ++ [cl]) :
    ∀ (lines : List (Dict String)) (acc rows1 : List Record),
      lines.foldlM step acc = .ok rows1 →
      ∀ r ∈ rows1, r ∈ acc ∨
        ∃ line, compute_calcs msec line (remap_line headers line) calcs = .ok r := by
  intro lines
  induction lines with
  | nil =>
    intro acc rows1 h r hr
    cases h
    exact .inl hr
  | cons line rest ih =>
    intro acc rows1 h r hr
    rw [List.foldlM_cons] at h
    cases hs : step acc line with
    | error e => rw [hs, error_bind] at h; cases h
    | ok acc' =>
      rw [hs, ok_bind] at h
      rcases ih acc' rows1 h r hr with hmem | hex
      · rcases hstep acc line acc' hs with heq | ⟨cl, hcl, heq⟩
        · exact .inl (heq ▸ hmem)
        · subst heq
          rcases List.mem_append.1 hmem with h1 | h2
          · exact .inl h1
          · obtain rfl := List.mem_singleton.1 h2
            exact .inr ⟨line, hcl⟩
      · exact .inr hex

theorem source_rows_keys (rsearch : String → String → Bool)
    (rsearch1 : String → String → Option String)
    (dparse : String → Option Frac) (dfmt : String → Option String)
    (cfg : UnitConfig) (mtypes : Dict String) (f : SourceFile)
    (rows5 : List Record) (mtypes' : Dict String)
    (h : source_rows rsearch rsearch1 dparse dfmt cfg mtypes f = .ok (.rows rows5 mtypes')) :
    ∀ r ∈ rows5, ∀ r' ∈ rows5, dkeys r = dkeys r' := by
  unfold source_rows at h
  split at h
  · have h0 : (Except.ok SourceOutcome.skip : Except PyErr SourceOutcome) =
      .ok (.rows rows5 mtypes') := h
    cases h0
  · split at h
    · have h0 : (Except.ok SourceOutcome.skip : Except PyErr SourceOutcome) =
        .ok (.rows rows5 mtypes') := h
      cases h0
    · obtain ⟨rows1, h_r1, h⟩ := bind_ok_elim h
      obtain ⟨rows2, h_r2, h⟩ := bind_ok_elim h
      obtain ⟨q, h_bc, h⟩ := bind_ok_elim h
      obtain ⟨common, mt2, toE, toI⟩ := q
      obtain ⟨rows4, h_ap, h⟩ := bind_ok_elim h
      cases rows4 with
      | nil =>
        have h0 : (Except.error PyErr.idxErr : Except PyErr SourceOutcome) =
          .ok (.rows rows5 mtypes') := h
        cases h0
      | cons q0 qrest =>
        split at h
        · cases h
        · split at h
          · have h0 : (Except.ok (SourceOutcome.tsMissing mt2) : Except PyErr SourceOutcome) =
              .ok (.rows rows5 mtypes') := h
            cases h0
          · have h0 : (Except.ok (SourceOutcome.rows
                ((q0 :: qrest).map (validate_line cfg.used cfg.plot_metrics mt2)) mt2) :
                Except PyErr SourceOutcome) = .ok (.rows rows5 mtypes') := h
            have h1 : SourceOutcome.rows
                ((q0 :: qrest).map (validate_line cfg.used cfg.plot_metrics mt2)) mt2 =
                .rows rows5 mtypes' := by injection h0
            injection h1 with h5 h6
            subst h5
            subst h6
            have horig : ∀ r ∈ rows1, r ∈ ([] : List Record) ∨
                ∃ line, compute_calcs cfg.msec line (remap_line cfg.headers line)
                  cfg.calc_headers = Except.ok r := by
              refine foldlM_origin cfg.headers cfg.calc_headers cfg.msec _ ?_ f.rows [] rows1 h_r1 
              intro acc line rows' hs
              split at hs
              · have hs0 : (Except.ok acc : Except PyErr (List Record)) = .ok rows' := hs
                cases hs0
                exact .inl rfl
              · obtain ⟨cl, hcl, hs2⟩ := bind_ok_elim hs
                have hs3 : (Except.ok (acc ++ [cl]) : Except PyErr (List Record)) = .ok rows' := hs2
                cases hs3
                exact .inr ⟨cl, hcl, rfl⟩
            have hkeq : ∀ w ∈ rows1, ∀ w' ∈ rows1, dkeys w = dkeys w' := by
              intro w hw w' hw'
              rcases horig w hw with h0 | ⟨lw, hlw⟩
              · exact absurd h0 (List.not_mem_nil w)
              rcases horig w' hw' with h0 | ⟨lw', hlw'⟩
              · exact absurd h0 (List.not_mem_nil w')
              exact compute_calcs_keys_congr cfg.msec cfg.calc_headers lw lw' _ _ w w'
                (dkeys_remap_line cfg.headers lw lw') hlw hlw'
            have h12 := convert_rows_keys rsearch1 dparse cfg.msec mtypes _ rows1 rows2 h_r2
            have h2keq : ∀ u ∈ rows2, ∀ u' ∈ rows2, dkeys u = dkeys u' := by
              intro u hu u' hu'
              have hu1 : dkeys u ∈ rows1.map dkeys :=
                h12 ▸ List.mem_map.2 ⟨u, hu, rfl⟩
              have hu1' : dkeys u' ∈ rows1.map dkeys :=
                h12 ▸ List.mem_map.2 ⟨u', hu', rfl⟩
              obtain ⟨w, hw, hwe⟩ := List.mem_map.1 hu1
              obtain ⟨w', hw', hwe'⟩ := List.mem_map.1 hu1'
              rw [← hwe, ← hwe']
              exact hkeq w hw w' hw'
            intro r hr r' hr'
            obtain ⟨p, hp, rfl⟩ := List.mem_map.1 hr
            obtain ⟨p', hp', rfl⟩ := List.mem_map.1 hr'
            have hp3 := apply_pattern_list_mem h_ap p hp
            have hp3' := apply_pattern_list_mem h_ap p' hp'
            obtain ⟨u, hu, rfl⟩ := List.mem_map.1 hp3
            obtain ⟨u', hu', rfl⟩ := List.mem_map.1 hp3'
            rw [validate_line_keys, validate_line_keys,
              dkeys_dunion_congr (h2keq u hu u' hu') common]

/-- C4 counterexample: on the unit `cfgC4` the metric `m` is a used
metric whose metadata resolution fails for `fileNoMeta` (the file has no
metadata); the run succeeds and emits one record, but that record does
*not* contain the key `m` — the metric is absent, not defaulted. -/
theorem C4_counterexample :
    (get_metrics_files re_substr re_group_none dparse_none dfmt_none cfgC4 stC4
        [fileNoMeta]).map
      (fun p => (p.1, p.2.odict.map (fun kv => (kv.1, dcontains kv.2 "m")))) =
      .ok (true, [("b_0", false)]) ∧ "m" ∈ cfgC4.used := by
  constructor
  · decide
  · decide

/-- C4 amended: the uniform-key-shape invariant holds per source file,
not per unit: (1) all records produced from one source file share one
key set, because header remapping gives every row the same keys, the
derived-metric, conversion and common-data stages transform key sets
uniformly, and the filter stage only selects rows; (2) the
status-and-default pass (git.py 794-831) only rewrites values of metrics
already present and adds `_status` — it never adds a missing metric, so
a metric whose filename/metadata/static resolution failed stays absent
from that file's records (see the counterexample). -/
theorem C4_amended :
    (∀ (rsearch : String → String → Bool) (rsearch1 : String → String → Option String)
      (dparse : String → Option Frac) (dfmt : String → Option String)
      (cfg : UnitConfig) (mtypes : Dict String) (f : SourceFile)
      (rows5 : List Record) (mtypes' : Dict String),
      source_rows rsearch rsearch1 dparse dfmt cfg mtypes f = .ok (.rows rows5 mtypes') →
      ∀ r ∈ rows5, ∀ r' ∈ rows5, dkeys r = dkeys r') ∧
    (∀ (used pm : List String) (mtypes : Dict String) (line : Record),
      dkeys (validate_line used pm mtypes line) =
        if "_status" ∈ dkeys line then dkeys line else dkeys line ++ ["_status"]) :=
  ⟨source_rows_keys, validate_line_keys⟩

/-- C4 amended, witnessed on the concrete `cfgC4` unit. -/
theorem C4_amended_witness :
    source_rows re_substr re_group_none dparse_none dfmt_none cfgC4 stC4.mtypes fileNoMeta =
      .ok (.rows rowsC4 mtypesC4) ∧
    (∀ r ∈ rowsC4, ∀ r' ∈ rowsC4, dkeys r = dkeys r') :=
  ⟨by decide,
   C4_amended.1 re_substr re_group_none dparse_none dfmt_none cfgC4 stC4.mtypes fileNoMeta
     rowsC4 mtypesC4 (by decide)⟩



theorem den_pos (a : Frac) : 0 < a.den := by
  have h : (0 : Int) ≤ (a.den1 : Int) := Int.ofNat_nonneg _
  unfold Frac.den
  omega

theorem fle_refl (a : Frac) : fle a a = true := by
  simp [fle]

theorem fle_trans {a b c : Frac} (h1 : fle a b = true) (h2 : fle b c = true) :
    fle a c = true := by
  simp only [fle, decide_eq_true_eq] at h1 h2 ⊢
  nlinarith [den_pos a, den_pos b, den_pos c]

theorem not_flt_of_fle {a b : Frac} (h : fle b a = true) : flt a b = false := by
  simp only [fle, decide_eq_true_eq] at h
  simp only [flt, decide_eq_false_iff_not, not_lt]
  exact h

theorem fle_of_not_flt {a b : Frac} (h : flt a b = false) : fle b a = true := by
  simp only [flt, decide_eq_false_iff_not, not_lt] at h
  simp only [fle, decide_eq_true_eq]
  exact h

theorem fle_total {a b : Frac} (h : ¬ fle a b = true) : fle b a = true := by
  simp only [fle, decide_eq_true_eq] at h ⊢
  omega

theorem fle_fmax_left (a b : Frac) : fle a (fmax a b) = true := by
  unfold fmax
  split
  · assumption
  · exact fle_refl a

theorem fle_fmax_right (a b : Frac) : fle b (fmax a b) = true := by
  unfold fmax
  split
  · exact fle_refl b
  · exact fle_total (by assumption)

theorem fmax_self (a : Frac) : fmax a a = a := by
  unfold fmax
  split <;> rfl

theorem fmax_eq_left {a b : Frac} (h : fle a b = false) : fmax a b = a := by
  unfold fmax
  rw [h]
  rfl

theorem foldl_fmax_init (l : List Frac) : ∀ x, fle x (l.foldl fmax x) = true := by
  induction l with
  | nil => intro x; exact fle_refl x
  | cons q rest ih =>
    intro x
    rw [List.foldl_cons]
    exact fle_trans (fle_fmax_left x q) (ih (fmax x q))

theorem foldl_fmax_mem {q : Frac} : ∀ (l : List Frac) (x : Frac), q ∈ l →
    fle q (l.foldl fmax x) = true := by
  intro l
  induction l with
  | nil => intro x h; cases h
  | cons a rest ih =>
    intro x h
    rw [List.foldl_cons]
    rcases List.mem_cons.1 h with rfl | hr
    · exact fle_trans (fle_fmax_right x q) (foldl_fmax_init rest (fmax x q))
    · exact ih (fmax x a) hr

theorem mapM_ok_mem {α β : Type} (g : α → Except PyErr β) :
    ∀ (l : List α) (out : List β), l.mapM g = .ok out →
      ∀ x ∈ l, ∃ y, g x = .ok y ∧ y ∈ out := by
  intro l
  induction l with
  | nil => intro out h x hx; cases hx
  | cons a rest ih =>
    intro out h x hx
    rw [List.mapM_cons] at h
    obtain ⟨y, hy, h2⟩ := bind_ok_elim h
    obtain ⟨ys, hys, h3⟩ := bind_ok_elim h2
    have h4 : (Except.ok (y :: ys) : Except PyErr (List β)) = .ok out := h3
    cases h4
    rcases List.mem_cons.1 hx with rfl | hr
    · exact ⟨y, hy, List.mem_cons_self y ys⟩
    · obtain ⟨z, hz, hzm⟩ := ih ys hys x hr
      exact ⟨z, hz, List.mem_cons_of_mem y hzm⟩

theorem wm_fold_mem (lastts : Frac) :
    ∀ (rows acc cur : List Record),
      rows.foldlM
        (fun acc r => do
          let t ← tsnum r
          pure (if flt lastts t then acc ++ [r] else acc)) acc = .ok cur →
      (∀ r ∈ rows, ∃ q, tsnum r = .ok q ∧ (flt lastts q = true → r ∈ cur)) ∧
        (∀ x ∈ acc, x ∈ cur) := by
  intro rows
  induction rows with
  | nil =>
    intro acc cur h
    have h0 : (Except.ok acc : Except PyErr (List Record)) = .ok cur := h
    cases h0
    exact ⟨fun r hr => absurd hr (List.not_mem_nil r), fun x hx => hx⟩
  | cons r rs ih =>
    intro acc cur h
    rw [List.foldlM_cons] at h
    obtain ⟨acc1, hstep, hrest⟩ := bind_ok_elim h
    obtain ⟨q, hq, hpure⟩ := bind_ok_elim hstep
    have hp : (Except.ok (if flt lastts q then acc ++ [r] else acc) :
        Except PyErr (List Record)) = .ok acc1 := hpure
    obtain ⟨hall, hsub⟩ := ih acc1 cur hrest
    have hacc : ∀ x ∈ acc, x ∈ cur := by
      intro x hx
      refine hsub x ?_
      cases hp
      split
      · exact List.mem_append_left _ hx
      · exact hx
    refine ⟨?_, hacc⟩
    intro r' hr'
    rcases List.mem_cons.1 hr' with rfl | hmem
    · refine ⟨q, hq, fun hf => ?_⟩
      refine hsub r' ?_
      cases hp
      rw [hf]
      exact List.mem_append_right _ (List.mem_singleton.2 rfl)
    · exact hall r' hmem

theorem wm_filter_mem {lastts : Frac} {rows cur : List Record}
    (hnz : lastts.num ≠ 0)
    (h : wm_filter lastts rows = .ok cur) :
    ∀ r ∈ rows, ∃ q, tsnum r = .ok q ∧ (flt lastts q = true → r ∈ cur) := by
  unfold wm_filter at h
  rw [if_pos hnz] at h
  exact (wm_fold_mem lastts rows [] cur h).1

theorem wm_cut_fold (L : Frac) :
    ∀ (rows : List Record) (acc : List Record),
      (∀ r ∈ rows, ∃ q, tsnum r = .ok q ∧ fle q L = true) →
      rows.foldlM
        (fun acc r => do
          let t ← tsnum r
          pure (if flt L t then acc ++ [r] else acc)) acc = .ok acc := by
  intro rows
  induction rows with
  | nil => intro acc _; rfl
  | cons r rs ih =>
    intro acc hall
    rw [List.foldlM_cons]
    obtain ⟨q, hq, hle⟩ := hall r (List.mem_cons_self r rs)
    rw [hq, ok_bind]
    have hcut : flt L q = false := not_flt_of_fle hle
    have hstep : (Except.ok (if flt L q then acc ++ [r] else acc) :
        Except PyErr (List Record)) = .ok acc := by rw [hcut]; rfl
    have : (pure (if flt L q then acc ++ [r] else acc) >>=
        fun acc1 => rs.foldlM
          (fun acc r => do
            let t ← tsnum r
            pure (if flt L t then acc ++ [r] else acc)) acc1) =
        rs.foldlM
          (fun acc r => do
            let t ← tsnum r
            pure (if flt L t then acc ++ [r] else acc))
          (if flt L q then acc ++ [r] else acc) := rfl
    rw [this, hcut]
    exact ih acc (fun r' hr' => hall r' (List.mem_cons_of_mem r hr'))

theorem wm_filter_all_cut {L : Frac} {rows : List Record} (hnz : L.num ≠ 0)
    (hall : ∀ r ∈ rows, ∃ q, tsnum r = .ok q ∧ fle q L = true) :
    wm_filter L rows = .ok [] := by
  unfold wm_filter
  rw [if_pos hnz]
  exact wm_cut_fold L rows [] hall

theorem process_source_temp (rsearch : String → String → Bool)
    (rsearch1 : String → String → Option String)
    (dparse : String → Option Frac) (dfmt : String → Option String)
    (cfg : UnitConfig) {u u' : UnitState} {f : SourceFile}
    (h : process_source rsearch rsearch1 dparse dfmt cfg u f = .ok (.next u')) :
    fle u.lastts_temp u'.lastts_temp = true ∧ u'.lastts = u.lastts := by
  unfold process_source at h
  obtain ⟨out, hsr, hcont⟩ := bind_ok_elim h
  cases out with
  | skip =>
    have h0 : (Except.ok (FileStep.next u) : Except PyErr FileStep) = .ok (.next u') := hcont
    cases h0
    exact ⟨fle_refl _, rfl⟩
  | tsMissing m =>
    have h0 : (Except.ok (FileStep.abort { u with mtypes := m }) : Except PyErr FileStep) =
      .ok (.next u') := hcont
    cases h0
  | rows rows5 m' =>
    obtain ⟨gp1, hgp, hcont2⟩ := bind_ok_elim hcont
    obtain ⟨uA, hwt, hpure⟩ := bind_ok_elim hcont2
    have h0 : (Except.ok (FileStep.next uA) : Except PyErr FileStep) = .ok (.next u') := hpure
    cases h0
    unfold wm_tail at hwt
    obtain ⟨cur, hcur, h2⟩ := bind_ok_elim hwt
    obtain ⟨ts1, hts, h3⟩ := bind_ok_elim h2
    have h4 : (Except.ok { { u with gparams := gp1, mtypes := m' } with
        raw := { u with gparams := gp1, mtypes := m' }.raw ++ rows5,
        lastts_temp := ts1.foldl fmax (fmax { u with gparams := gp1, mtypes := m' }.lastts
          { u with gparams := gp1, mtypes := m' }.lastts_temp),
        counter := (if cur.isEmpty then
            ({ u with gparams := gp1, mtypes := m' }.counter,
             { u with gparams := gp1, mtypes := m' }.odict)
          else emit cfg.combined_name cfg.params
            { u with gparams := gp1, mtypes := m' }.counter
            { u with gparams := gp1, mtypes := m' }.odict cur).1,
        odict := (if cur.isEmpty then
            ({ u with gparams := gp1, mtypes := m' }.counter,
             { u with gparams := gp1, mtypes := m' }.odict)
          else emit cfg.combined_name cfg.params
            { u with gparams := gp1, mtypes := m' }.counter
            { u with gparams := gp1, mtypes := m' }.odict cur).2 } :
        Except PyErr UnitState) = .ok u' := h3
    cases h4
    refine ⟨?_, rfl⟩
    exact fle_trans (fle_fmax_right u.lastts u.lastts_temp)
      (foldl_fmax_init ts1 (fmax u.lastts u.lastts_temp))

theorem run_files_temp_mono (rsearch : String → String → Bool)
    (rsearch1 : String → String → Option String)
    (dparse : String → Option Frac) (dfmt : String → Option String)
    (cfg : UnitConfig) :
    ∀ (files : List SourceFile) (u s : UnitState),
      run_files rsearch rsearch1 dparse dfmt cfg u files = .ok (true, s) →
      fle u.lastts_temp s.lastts = true := by
  intro files
  induction files with
  | nil =>
    intro u s h
    have h0 : (Except.ok (true, { u with lastts := u.lastts_temp }) :
        Except PyErr (Bool × UnitState)) = .ok (true, s) := h
    cases h0
    exact fle_refl _
  | cons f fs ih =>
    intro u s h
    rw [run_files] at h
    obtain ⟨step, hps, hrest⟩ := bind_ok_elim h
    cases step with
    | next u' =>
      have hrest' : run_files rsearch rsearch1 dparse dfmt cfg u' fs = .ok (true, s) := hrest
      exact fle_trans (process_source_temp rsearch rsearch1 dparse dfmt cfg hps).1 (ih u' s hrest')
    | abort u' =>
      have h0 : (Except.ok (false, u') : Except PyErr (Bool × UnitState)) = .ok (true, s) := hrest
      cases h0

theorem wm_tail_ok_elim {name : String} {params : List String} {st : UnitState}
    {current : List Record} {u' : UnitState}
    (h : wm_tail name params st current = .ok u') :
    ∃ cur ts1, wm_filter st.lastts current = .ok cur ∧ cur.mapM tsnum = .ok ts1 ∧
      u' = { st with
        raw := st.raw ++ current,
        lastts_temp := ts1.foldl fmax (fmax st.lastts st.lastts_temp),
        counter := (if cur.isEmpty then (st.counter, st.odict)
          else emit name params st.counter st.odict cur).1,
        odict := (if cur.isEmpty then (st.counter, st.odict)
          else emit name params st.counter st.odict cur).2 } := by
  unfold wm_tail at h
  obtain ⟨cur, hcur, h2⟩ := bind_ok_elim h
  obtain ⟨ts1, hts, h3⟩ := bind_ok_elim h2
  refine ⟨cur, ts1, hcur, hts, ?_⟩
  have h4 : (Except.ok { st with
      raw := st.raw ++ current,
      lastts_temp := ts1.foldl fmax (fmax st.lastts st.lastts_temp),
      counter := (if cur.isEmpty then (st.counter, st.odict)
        else emit name params st.counter st.odict cur).1,
      odict := (if cur.isEmpty then (st.counter, st.odict)
        else emit name params st.counter st.odict cur).2 } :
      Except PyErr UnitState) = .ok u' := h3
  cases h4
  rfl

theorem wm_tail_empty {name : String} {params : List String} {st : UnitState}
    {current : List Record}
    (h : wm_filter st.lastts current = .ok []) :
    wm_tail name params st current =
      .ok { st with
        raw := st.raw ++ current,
        lastts_temp := fmax st.lastts st.lastts_temp } := by
  unfold wm_tail
  rw [h]
  rfl

theorem gp_fold_congr (rows : List Record) :
    ∀ (l1 l2 : Dict (List Value)), l1.map Prod.fst = l2.map Prod.fst →
    ∀ (a1 a2 : Dict (List Value)), dkeys a1 = dkeys a2 →
    ∀ g1,
      l1.foldlM
        (fun acc kv => do
          let vals ← rows.mapM
            (fun r =>
              (match dlookup r kv.1 with
               | some v => pure v
               | none => Except.error PyErr.keyErr : Except PyErr Value))
          pure (dinsert acc kv.1 (vals.foldl pyset_add kv.2))) a1 = .ok g1 →
    ∃ g2,
      l2.foldlM
        (fun acc kv => do
          let vals ← rows.mapM
            (fun r =>
              (match dlookup r kv.1 with
               | some v => pure v
               | none => Except.error PyErr.keyErr : Except PyErr Value))
          pure (dinsert acc kv.1 (vals.foldl pyset_add kv.2))) a2 = .ok g2 ∧
      dkeys g1 = dkeys g2 := by
  intro l1
  induction l1 with
  | nil =>
    intro l2 hl a1 a2 ha g1 h
    have hl2 : l2 = [] := List.map_eq_nil.1 hl.symm
    subst hl2
    have h0 : (Except.ok a1 : Except PyErr (Dict (List Value))) = .ok g1 := h
    cases h0
    exact ⟨a2, rfl, ha⟩
  | cons kv1 r1 ih =>
    intro l2 hl a1 a2 ha g1 h
    cases l2 with
    | nil => cases hl
    | cons kv2 r2 =>
      rw [List.map_cons, List.map_cons] at hl
      injection hl with hk hltl
      rw [List.foldlM_cons] at h
      obtain ⟨a1', hs1, hr1⟩ := bind_ok_elim h
      obtain ⟨vals, hv, hp⟩ := bind_ok_elim hs1
      have hp2 : (Except.ok (dinsert a1 kv1.1 (vals.foldl pyset_add kv1.2)) :
          Except PyErr (Dict (List Value))) = .ok a1' := hp
      cases hp2
      obtain ⟨g2, hg2, hk2⟩ := ih r2 hltl _ (dinsert a2 kv2.1 (vals.foldl pyset_add kv2.2))
        (by rw [hk]; exact dkeys_dinsert_congr ha kv2.1 _ _) g1 hr1
      refine ⟨g2, ?_, hk2⟩
      rw [List.foldlM_cons]
      have hstep : (rows.mapM
          (fun r =>
            (match dlookup r kv2.1 with
             | some v => pure v
             | none => Except.error PyErr.keyErr : Except PyErr Value))) = .ok vals := by
        rw [← hk]
        exact hv
      rw [hstep, ok_bind]
      exact hg2

theorem gp_update_exists {gpA gpB : Dict (List Value)} {rows : List Record}
    {gpA' : Dict (List Value)}
    (hk : dkeys gpA = dkeys gpB) (h : gp_update gpA rows = .ok gpA') :
    ∃ gpB', gp_update gpB rows = .ok gpB' ∧ dkeys gpA' = dkeys gpB' := by
  unfold gp_update at h ⊢
  exact gp_fold_congr rows gpA gpB hk gpA gpB hk gpA' h

theorem source_rows_mtypes (rsearch : String → String → Bool)
    (rsearch1 : String → String → Option String)
    (dparse : String → Option Frac) (dfmt : String → Option String)
    (cfg : UnitConfig) (mtypes : Dict String) (f : SourceFile)
    (rows5 : List Record) (mtypes' : Dict String)
    (h : source_rows rsearch rsearch1 dparse dfmt cfg mtypes f = .ok (.rows rows5 mtypes')) :
    ∃ c e i, build_common rsearch1 dparse dfmt cfg.cfgId cfg.used cfg.msec
      f.sname f.meta mtypes = .ok (c, mtypes', e, i) := by
  unfold source_rows at h
  split at h
  · have h0 : (Except.ok SourceOutcome.skip : Except PyErr SourceOutcome) =
      .ok (.rows rows5 mtypes') := h
    cases h0
  · split at h
    · have h0 : (Except.ok SourceOutcome.skip : Except PyErr SourceOutcome) =
        .ok (.rows rows5 mtypes') := h
      cases h0
    · obtain ⟨rows1, h_r1, h⟩ := bind_ok_elim h
      obtain ⟨rows2, h_r2, h⟩ := bind_ok_elim h
      obtain ⟨q, h_bc, h⟩ := bind_ok_elim h
      obtain ⟨common, mt2, toE, toI⟩ := q
      obtain ⟨rows4, h_ap, h⟩ := bind_ok_elim h
      cases rows4 with
      | nil => cases h
      | cons q0 qrest =>
        split at h
        · cases h
        · split at h
          · have h0 : (Except.ok (SourceOutcome.tsMissing mt2) : Except PyErr SourceOutcome) =
              .ok (.rows rows5 mtypes') := h
            cases h0
          · have h0 : (Except.ok (SourceOutcome.rows
                ((q0 :: qrest).map (validate_line cfg.used cfg.plot_metrics mt2)) mt2) :
                Except PyErr SourceOutcome) = .ok (.rows rows5 mtypes') := h
            have h1 : SourceOutcome.rows
                ((q0 :: qrest).map (validate_line cfg.used cfg.plot_metrics mt2)) mt2 =
                .rows rows5 mtypes' := by injection h0
            injection h1 with h5 h6
            subst h6
            exact ⟨common, toE, toI, h_bc⟩

theorem not_fle_of_flt {a b : Frac} (h : flt a b = true) : fle b a = false := by
  simp only [flt, decide_eq_true_eq] at h
  simp only [fle, decide_eq_false_iff_not, not_le]
  exact h

theorem num_pos_of_flt_zero {a : Frac} (h : flt (fofInt 0) a = true) : a.num ≠ 0 := by
  simp only [flt, fofInt, Frac.den, decide_eq_true_eq] at h
  omega

theorem run_files_cons_next (rsearch : String → String → Bool)
    (rsearch1 : String → String → Option String)
    (dparse : String → Option Frac) (dfmt : String → Option String)
    (cfg : UnitConfig) {t t' : UnitState} {f : SourceFile} (fs : List SourceFile)
    (h : process_source rsearch rsearch1 dparse dfmt cfg t f = .ok (.next t')) :
    run_files rsearch rsearch1 dparse dfmt cfg t (f :: fs) =
      run_files rsearch rsearch1 dparse dfmt cfg t' fs := by
  rw [run_files, h, ok_bind]

theorem process_source_rows_build (rsearch : String → String → Bool)
    (rsearch1 : String → String → Option String)
    (dparse : String → Option Frac) (dfmt : String → Option String)
    (cfg : UnitConfig) {t : UnitState} {f : SourceFile} {rows5 : List Record}
    {m' : Dict String} {gp2 : Dict (List Value)} {t2 : UnitState}
    (hsr : source_rows rsearch rsearch1 dparse dfmt cfg t.mtypes f = .ok (.rows rows5 m'))
    (hgp : gp_update t.gparams rows5 = .ok gp2)
    (hwt : wm_tail cfg.combined_name cfg.params
      { t with gparams := gp2, mtypes := m' } rows5 = .ok t2) :
    process_source rsearch rsearch1 dparse dfmt cfg t f = .ok (.next t2) := by
  unfold process_source
  rw [hsr, ok_bind]
  show (gp_update t.gparams rows5 >>= fun gp' =>
    wm_tail cfg.combined_name cfg.params { t with gparams := gp', mtypes := m' } rows5 >>=
      fun st' => (pure (FileStep.next st') : Except PyErr FileStep)) =
    Except.ok (FileStep.next t2)
  rw [hgp, ok_bind, hwt, ok_bind]
  rfl

theorem run2_empty (rsearch : String → String → Bool)
    (rsearch1 : String → String → Option String)
    (dparse : String → Option Frac) (dfmt : String → Option String)
    (cfg : UnitConfig) (s : UnitState)
    (hLpos : flt (fofInt 0) s.lastts = true) :
    ∀ (files : List SourceFile) (u t : UnitState),
      run_files rsearch rsearch1 dparse dfmt cfg u files = .ok (true, s) →
      (∀ f ∈ files, ∀ (m : Dict String) (c : Record) (m' : Dict String) (e i : Dict FieldPat),
        build_common rsearch1 dparse dfmt cfg.cfgId cfg.used cfg.msec f.sname f.meta m =
          .ok (c, m', e, i) → m' = m) →
      t.mtypes = u.mtypes →
      t.lastts = s.lastts →
      ((t.lastts_temp = fofInt 0 ∧ u.lastts_temp = fofInt 0) ∨ t.lastts_temp = s.lastts) →
      dkeys t.gparams = dkeys u.gparams →
      ∃ t', run_files rsearch rsearch1 dparse dfmt cfg t files = .ok (true, t') ∧
        t'.odict = t.odict ∧ t'.counter = t.counter ∧ t'.lastts = s.lastts := by
  intro files
  induction files with
  | nil =>
    intro u t h hstab hm hlt htemp hgp
    have h0 : (Except.ok (true, { u with lastts := u.lastts_temp }) :
        Except PyErr (Bool × UnitState)) = .ok (true, s) := h
    have h1 : ({ u with lastts := u.lastts_temp } : UnitState) = s := by
      injection h0 with h2
      injection h2 with h3 h4
    refine ⟨{ t with lastts := t.lastts_temp }, rfl, rfl, rfl, ?_⟩
    show t.lastts_temp = s.lastts
    rcases htemp with ⟨ht0, hu0⟩ | hts
    · rw [ht0, ← h1, ← hu0]
    · exact hts
  | cons f fs ih =>
    intro u t h hstab hm hlt htemp hgp
    rw [run_files] at h
    obtain ⟨step, hps, hrest⟩ := bind_ok_elim h
    cases step with
    | abort u' =>
      have h0 : (Except.ok (false, u') : Except PyErr (Bool × UnitState)) = .ok (true, s) := hrest
      have h1 : ((false, u') : Bool × UnitState) = (true, s) := by injection h0
      have h2 : false = true := by injection h1 with h3 h4
      cases h2
    | next u' =>
      have hrest' : run_files rsearch rsearch1 dparse dfmt cfg u' fs = .ok (true, s) := hrest
      unfold process_source at hps
      obtain ⟨out, hsr, hcont⟩ := bind_ok_elim hps
      cases out with
      | skip =>
        have h0 : (Except.ok (FileStep.next u) : Except PyErr FileStep) = .ok (.next u') := hcont
        have h1 : u = u' := by
          have h2 : FileStep.next u = .next u' := by injection h0
          injection h2
        subst h1
        have hps2 : process_source rsearch rsearch1 dparse dfmt cfg t f = .ok (.next t) := by
          unfold process_source
          rw [hm, hsr, ok_bind]
          rfl
        rw [run_files_cons_next rsearch rsearch1 dparse dfmt cfg fs hps2]
        exact ih u t hrest' (fun g hg => hstab g (List.mem_cons_of_mem f hg)) hm hlt htemp hgp
      | tsMissing m2 =>
        have h0 : (Except.ok (FileStep.abort { u with mtypes := m2 }) : Except PyErr FileStep) =
          .ok (.next u') := hcont
        cases h0
      | rows rows5 m' =>
        obtain ⟨gp1, hgp1, hcont2⟩ := bind_ok_elim hcont
        obtain ⟨uA, hwt, hpure⟩ := bind_ok_elim hcont2
        have h0 : (Except.ok (FileStep.next uA) : Except PyErr FileStep) = .ok (.next u') := hpure
        have h1 : uA = u' := by
          have h2 : FileStep.next uA = .next u' := by injection h0
          injection h2
        subst h1
        obtain ⟨c, e, i, hbc⟩ := source_rows_mtypes rsearch rsearch1 dparse dfmt cfg
          u.mtypes f rows5 m' hsr
        have hm' : m' = u.mtypes := hstab f (List.mem_cons_self f fs) u.mtypes c m' e i hbc
        subst hm'
        obtain ⟨cur1, ts1, hcur1, hts1, hu'⟩ := wm_tail_ok_elim hwt
        subst hu'
        have htmax : fle (ts1.foldl fmax (fmax u.lastts u.lastts_temp)) s.lastts = true :=
          run_files_temp_mono rsearch rsearch1 dparse dfmt cfg fs _ s hrest'
        have hcur1' : wm_filter u.lastts rows5 = .ok cur1 := hcur1
        have hts1' : cur1.mapM tsnum = .ok ts1 := hts1
        have hbound : ∀ r ∈ rows5, ∃ q, tsnum r = .ok q ∧ fle q s.lastts = true := by
          by_cases hz : u.lastts.num = 0
          · unfold wm_filter at hcur1'
            rw [if_neg (fun hne => hne hz)] at hcur1'
            have hc : (Except.ok rows5 : Except PyErr (List Record)) = .ok cur1 := hcur1'
            cases hc
            intro r hr
            obtain ⟨q, hq, hqm⟩ := mapM_ok_mem tsnum rows5 ts1 hts1' r hr
            exact ⟨q, hq, fle_trans (foldl_fmax_mem ts1 (fmax u.lastts u.lastts_temp) hqm) htmax⟩
          · have hmem := wm_filter_mem hz hcur1'
            intro r hr
            obtain ⟨q, hq, hkeep⟩ := hmem r hr
            cases hflt : flt u.lastts q with
            | true =>
              have hrc := hkeep hflt
              obtain ⟨q2, hq2, hq2m⟩ := mapM_ok_mem tsnum cur1 ts1 hts1' r hrc
              have hqq : q2 = q := by
                rw [hq] at hq2
                injection hq2 with h3
                exact h3.symm
              subst hqq
              exact ⟨q2, hq, fle_trans
                (foldl_fmax_mem ts1 (fmax u.lastts u.lastts_temp) hq2m) htmax⟩
            | false =>
              have hfle : fle q u.lastts = true := fle_of_not_flt hflt
              exact ⟨q, hq, fle_trans hfle (fle_trans (fle_fmax_left u.lastts u.lastts_temp)
                (fle_trans (foldl_fmax_init ts1 (fmax u.lastts u.lastts_temp)) htmax))⟩
        have hsr2 : source_rows rsearch rsearch1 dparse dfmt cfg t.mtypes f =
            .ok (.rows rows5 u.mtypes) := by
          rw [hm]
          exact hsr
        obtain ⟨gp2, hgp2, hgpk⟩ := gp_update_exists hgp.symm hgp1
        have hnz : s.lastts.num ≠ 0 := num_pos_of_flt_zero hLpos
        have hfilt : wm_filter ({ t with gparams := gp2, mtypes := u.mtypes } :
            UnitState).lastts rows5 = .ok [] := by
          show wm_filter t.lastts rows5 = .ok []
          rw [hlt]
          exact wm_filter_all_cut hnz hbound
        have hwt2 := @wm_tail_empty cfg.combined_name cfg.params _ _ hfilt
        have hps2 := process_source_rows_build rsearch rsearch1 dparse dfmt cfg hsr2 hgp2 hwt2
        rw [run_files_cons_next rsearch rsearch1 dparse dfmt cfg fs hps2]
        have hmain := ih _ _ hrest' (fun g hg => hstab g (List.mem_cons_of_mem f hg))
          (show ({ { t with gparams := gp2, mtypes := u.mtypes } with
              raw := ({ t with gparams := gp2, mtypes := u.mtypes } : UnitState).raw ++ rows5,
              lastts_temp := fmax
                ({ t with gparams := gp2, mtypes := u.mtypes } : UnitState).lastts
                ({ t with gparams := gp2, mtypes := u.mtypes } : UnitState).lastts_temp } :
            UnitState).mtypes = _ from rfl)
          (show t.lastts = s.lastts from hlt)
          ?_ (show dkeys gp2 = dkeys gp1 from hgpk.symm)
        · obtain ⟨t', ht', ho, hc2, hl2⟩ := hmain
          exact ⟨t', ht', ho, hc2, hl2⟩
        · show (fmax t.lastts t.lastts_temp = fofInt 0 ∧
              (ts1.foldl fmax (fmax u.lastts u.lastts_temp) = fofInt 0)) ∨
            fmax t.lastts t.lastts_temp = s.lastts
          right
          rw [hlt]
          rcases htemp with ⟨ht0, _⟩ | hts
          · rw [ht0]
            exact fmax_eq_left (not_fle_of_flt hLpos)
          · rw [hts]
            exact fmax_self s.lastts

theorem gp_fold_keys (rows : List Record) :
    ∀ (l : Dict (List Value)) (acc : Dict (List Value)),
      (∀ kv ∈ l, kv.1 ∈ dkeys acc) →
      ∀ g, l.foldlM
        (fun acc kv => do
          let vals ← rows.mapM
            (fun r =>
              (match dlookup r kv.1 with
               | some v => pure v
               | none => Except.error PyErr.keyErr : Except PyErr Value))
          pure (dinsert acc kv.1 (vals.foldl pyset_add kv.2))) acc = .ok g →
      dkeys g = dkeys acc := by
  intro l
  induction l with
  | nil =>
    intro acc _ g h
    have h0 : (Except.ok acc : Except PyErr (Dict (List Value))) = .ok g := h
    cases h0
    rfl
  | cons kv r ih =>
    intro acc hmem g h
    rw [List.foldlM_cons] at h
    obtain ⟨a1, hs1, hr1⟩ := bind_ok_elim h
    obtain ⟨vals, hv, hp⟩ := bind_ok_elim hs1
    have hp2 : (Except.ok (dinsert acc kv.1 (vals.foldl pyset_add kv.2)) :
        Except PyErr (Dict (List Value))) = .ok a1 := hp
    cases hp2
    have hkacc : kv.1 ∈ dkeys acc := hmem kv (List.mem_cons_self kv r)
    have hkeys := dkeys_dinsert_mem hkacc (vals.foldl pyset_add kv.2)
    have hrest := ih (dinsert acc kv.1 (vals.foldl pyset_add kv.2))
      (fun kv' hkv' => by rw [hkeys]; exact hmem kv' (List.mem_cons_of_mem kv hkv')) g hr1
    rw [hrest, hkeys]

theorem gp_update_keys {gp : Dict (List Value)} {rows : List Record} {gp' : Dict (List Value)}
    (h : gp_update gp rows = .ok gp') : dkeys gp' = dkeys gp := by
  unfold gp_update at h
  exact gp_fold_keys rows gp gp (fun kv hkv => List.mem_map.2 ⟨kv, hkv, rfl⟩) gp' h

theorem process_source_next_state (rsearch : String → String → Bool)
    (rsearch1 : String → String → Option String)
    (dparse : String → Option Frac) (dfmt : String → Option String)
    (cfg : UnitConfig) {u u' : UnitState} {f : SourceFile}
    (h : process_source rsearch rsearch1 dparse dfmt cfg u f = .ok (.next u'))
    (hstab : ∀ (m : Dict String) (c : Record) (m' : Dict String) (e i : Dict FieldPat),
      build_common rsearch1 dparse dfmt cfg.cfgId cfg.used cfg.msec f.sname f.meta m =
        .ok (c, m', e, i) → m' = m) :
    u'.mtypes = u.mtypes ∧ dkeys u'.gparams = dkeys u.gparams ∧ u'.lastts = u.lastts := by
  unfold process_source at h
  obtain ⟨out, hsr, hcont⟩ := bind_ok_elim h
  cases out with
  | skip =>
    have h0 : (Except.ok (FileStep.next u) : Except PyErr FileStep) = .ok (.next u') := hcont
    have h1 : u = u' := by
      have h2 : FileStep.next u = .next u' := by injection h0
      injection h2
    subst h1
    exact ⟨rfl, rfl, rfl⟩
  | tsMissing m2 =>
    have h0 : (Except.ok (FileStep.abort { u with mtypes := m2 }) : Except PyErr FileStep) =
      .ok (.next u') := hcont
    cases h0
  | rows rows5 m' =>
    obtain ⟨gp1, hgp1, hcont2⟩ := bind_ok_elim hcont
    obtain ⟨uA, hwt, hpure⟩ := bind_ok_elim hcont2
    have h0 : (Except.ok (FileStep.next uA) : Except PyErr FileStep) = .ok (.next u') := hpure
    have h1 : uA = u' := by
      have h2 : FileStep.next uA = .next u' := by injection h0
      injection h2
    subst h1
    obtain ⟨c, e, i, hbc⟩ := source_rows_mtypes rsearch rsearch1 dparse dfmt cfg
      u.mtypes f rows5 m' hsr
    have hm' : m' = u.mtypes := hstab u.mtypes c m' e i hbc
    subst hm'
    obtain ⟨cur1, ts1, hcur1, hts1, hu'⟩ := wm_tail_ok_elim hwt
    subst hu'
    exact ⟨rfl, gp_update_keys hgp1, rfl⟩

theorem run_files_state_const (rsearch : String → String → Bool)
    (rsearch1 : String → String → Option String)
    (dparse : String → Option Frac) (dfmt : String → Option String)
    (cfg : UnitConfig) :
    ∀ (files : List SourceFile) (u s : UnitState),
      run_files rsearch rsearch1 dparse dfmt cfg u files = .ok (true, s) →
      (∀ f ∈ files, ∀ (m : Dict String) (c : Record) (m' : Dict String) (e i : Dict FieldPat),
        build_common rsearch1 dparse dfmt cfg.cfgId cfg.used cfg.msec f.sname f.meta m =
          .ok (c, m', e, i) → m' = m) →
      s.mtypes = u.mtypes ∧ dkeys s.gparams = dkeys u.gparams := by
  intro files
  induction files with
  | nil =>
    intro u s h _
    have h0 : (Except.ok (true, { u with lastts := u.lastts_temp }) :
        Except PyErr (Bool × UnitState)) = .ok (true, s) := h
    have h1 : ({ u with lastts := u.lastts_temp } : UnitState) = s := by
      injection h0 with h2
      injection h2 with h3 h4
    rw [← h1]
    exact ⟨rfl, rfl⟩
  | cons f fs ih =>
    intro u s h hstab
    rw [run_files] at h
    obtain ⟨step, hps, hrest⟩ := bind_ok_elim h
    cases step with
    | abort u' =>
      have h0 : (Except.ok (false, u') : Except PyErr (Bool × UnitState)) = .ok (true, s) := hrest
      have h1 : ((false, u') : Bool × UnitState) = (true, s) := by injection h0
      have h2 : false = true := by injection h1 with h3 h4
      cases h2
    | next u' =>
      have hrest' : run_files rsearch rsearch1 dparse dfmt cfg u' fs = .ok (true, s) := hrest
      obtain ⟨hm1, hg1, _⟩ := process_source_next_state rsearch rsearch1 dparse dfmt cfg hps
        (hstab f (List.mem_cons_self f fs))
      obtain ⟨hm2, hg2⟩ := ih u' s hrest' (fun g hg => hstab g (List.mem_cons_of_mem f hg))
      exact ⟨hm2.trans hm1, hg2.trans hg1⟩

theorem helperC3 (m : Dict String) :
    build_common re_group_none dparse_none dfmt_none cfgC3.cfgId cfgC3.used cfgC3.msec
      fileTs7.sname fileTs7.meta m =
      .ok ([("__type", .vStr "benchmark"), ("__prefix", .vStr "bm")], m, [], []) := rfl

/-- C3 counterexample: a unit whose only row carries the timestamp `0`.
The first run emits the record (`b_0`) but the watermark ends at `0`
(`max(0, 0, 0)`), which is falsy, so the filter of git.py 850-851 stays
disabled on the second run over the unchanged file and the same row is
emitted again (`b_1`): the second run's output is not empty. -/
theorem C3_counterexample :
    (get_metrics_files re_substr re_group_none dparse_none dfmt_none cfgC3 stC3
        [fileTs0]).map (fun p => (p.1, dkeys p.2.odict, p.2.lastts)) =
      .ok (true, ["b_0"], fofInt 0) ∧
    ((get_metrics_files re_substr re_group_none dparse_none dfmt_none cfgC3 stC3
        [fileTs0]) >>= (fun p =>
      get_metrics_files re_substr re_group_none dparse_none dfmt_none cfgC3 p.2
        [fileTs0])).map (fun p => (p.1, dkeys p.2.odict)) = .ok (true, ["b_0", "b_1"]) :=
  ⟨by decide, by decide⟩

/-- C3 amended: idempotence through the watermark holds when the final
watermark is truthy (nonzero) and re-scanning the unchanged sources does
not alter the metric-type table (git.py 560-571 pre-populates it from the
configuration, and the per-file overwrites of git.py 730-771 depend only
on the file and its spec, so this holds from the second run onward): if a
first run returns `True` with final watermark `st1.lastts ≠ 0`, a second
run over the same source list succeeds, emits no record (`self._dict` and
the counter are unchanged) and leaves the watermark at the same value. -/
theorem C3_amended :
    ∀ (rsearch : String → String → Bool) (rsearch1 : String → String → Option String)
      (dparse : String → Option Frac) (dfmt : String → Option String)
      (cfg : UnitConfig) (st st1 : UnitState) (files : List SourceFile),
      get_metrics_files rsearch rsearch1 dparse dfmt cfg st files = .ok (true, st1) →
      (∀ f ∈ files, ∀ (m : Dict String) (c : Record) (m' : Dict String) (e i : Dict FieldPat),
        build_common rsearch1 dparse dfmt cfg.cfgId cfg.used cfg.msec f.sname f.meta m =
          .ok (c, m', e, i) → m' = m) →
      st1.lastts.num ≠ 0 →
      ∃ st2, get_metrics_files rsearch rsearch1 dparse dfmt cfg st1 files = .ok (true, st2) ∧
        st2.odict = st1.odict ∧ st2.counter = st1.counter ∧ st2.lastts = st1.lastts := by
  intro rs rs1 dp df cfg st st1 files h hstab hnz
  have h' : run_files rs rs1 dp df cfg { st with lastts_temp := fofInt 0 } files =
    .ok (true, st1) := h
  have hfle : fle (fofInt 0) st1.lastts = true :=
    run_files_temp_mono rs rs1 dp df cfg files _ st1 h'
  have hLpos : flt (fofInt 0) st1.lastts = true := by
    simp only [fle, flt, fofInt, Frac.den, decide_eq_true_eq] at hfle ⊢
    omega
  obtain ⟨hmty, hgpk⟩ := run_files_state_const rs rs1 dp df cfg files _ st1 h' hstab
  obtain ⟨t', hrun, ho, hc, hl⟩ := run2_empty rs rs1 dp df cfg st1 hLpos files
    { st with lastts_temp := fofInt 0 } { st1 with lastts_temp := fofInt 0 }
    h' hstab hmty rfl (Or.inl ⟨rfl, rfl⟩) hgpk
  exact ⟨t', hrun, ho, hc, hl⟩

/-- C3 amended, witnessed on the single-file unit with timestamp `7`. -/
theorem C3_amended_witness :
    get_metrics_files re_substr re_group_none dparse_none dfmt_none cfgC3 stC3 [fileTs7] =
      .ok (true, st1C3) ∧
    st1C3.lastts.num ≠ 0 ∧
    ∃ st2, get_metrics_files re_substr re_group_none dparse_none dfmt_none cfgC3 st1C3
        [fileTs7] = .ok (true, st2) ∧
      st2.odict = st1C3.odict ∧ st2.counter = st1C3.counter ∧ st2.lastts = st1C3.lastts :=
  ⟨by decide, by decide,
   C3_amended re_substr re_group_none dparse_none dfmt_none cfgC3 stC3 st1C3 [fileTs7]
     (by decide)
     (fun f hf m c m' e i hb => by
       have hf7 : f = fileTs7 := by simpa using hf
       subst hf7
       rw [helperC3 m] at hb
       cases hb
       rfl)
     (by decide)⟩

theorem intCmp_swap (x y : Int) : intCmp y x = (intCmp x y).swap := by
  unfold intCmp
  rcases lt_trichotomy x y with h | rfl | h
  · rw [if_pos h, if_neg (show ¬ y < x by omega), if_neg (show ¬ y = x by omega)]
    rfl
  · rw [if_neg (show ¬ x < x by omega), if_pos (show x = x from rfl)]
    rfl
  · rw [if_pos h, if_neg (show ¬ x < y by omega), if_neg (show ¬ x = y by omega)]
    rfl

theorem intCmp_not_gt {x y : Int} : intCmp x y ≠ .gt ↔ x ≤ y := by
  unfold intCmp
  rcases lt_trichotomy x y with h | rfl | h
  · rw [if_pos h]
    simp
    omega
  · rw [if_neg (show ¬ x < x by omega), if_pos (show x = x from rfl)]
    simp
  · rw [if_neg (show ¬ x < y by omega), if_neg (show ¬ x = y by omega)]
    simp
    omega

theorem intCmp_letrans {x y z : Int} (h1 : intCmp x y ≠ .gt) (h2 : intCmp y z ≠ .gt) :
    intCmp x z ≠ .gt := by
  rw [intCmp_not_gt] at h1 h2 ⊢
  omega

theorem fcmpK_swap (a b : Frac) : fcmpK b a = (fcmpK a b).swap := by
  unfold fcmpK
  exact intCmp_swap _ _

theorem fcmpK_letrans {a b c : Frac} (h1 : fcmpK a b ≠ .gt) (h2 : fcmpK b c ≠ .gt) :
    fcmpK a c ≠ .gt := by
  unfold fcmpK at h1 h2 ⊢
  rw [intCmp_not_gt] at h1 h2 ⊢
  nlinarith [den_pos a, den_pos b, den_pos c]

theorem lin_antisymm {α : Type} (cmp : α → α → Ordering)
    (hswap : ∀ a b, cmp b a = (cmp a b).swap) {a b : α}
    (h1 : cmp a b ≠ .gt) (h2 : cmp b a ≠ .gt) : cmp a b = .eq := by
  cases h : cmp a b with
  | lt => exact absurd (by rw [hswap, h]; rfl) h2
  | eq => rfl
  | gt => exact absurd h h1

theorem lin_eq_components {α : Type} (cmp : α → α → Ordering)
    (hswap : ∀ a b, cmp b a = (cmp a b).swap)
    (htr : ∀ a b c, cmp a b ≠ .gt → cmp b c ≠ .gt → cmp a c ≠ .gt)
    {a b c : α} (hab : cmp a b ≠ .gt) (hbc : cmp b c ≠ .gt) (hac : cmp a c = .eq) :
    cmp a b = .eq ∧ cmp b c = .eq := by
  have hca : cmp c a = .eq := by rw [hswap, hac]; rfl
  have hba : cmp b a ≠ .gt := htr b c a hbc (by rw [hca]; simp)
  have hcb : cmp c b ≠ .gt := htr c a b (by rw [hca]; simp) hab
  exact ⟨lin_antisymm cmp hswap hab hba, lin_antisymm cmp hswap hbc hcb⟩

theorem listCmp_swap {α : Type} (cmp : α → α → Ordering)
    (hswap : ∀ a b, cmp b a = (cmp a b).swap) :
    ∀ (l1 l2 : List α), listCmp cmp l2 l1 = (listCmp cmp l1 l2).swap := by
  intro l1
  induction l1 with
  | nil =>
    intro l2
    cases l2 <;> rfl
  | cons a as ih =>
    intro l2
    cases l2 with
    | nil => rfl
    | cons b bs =>
      show (match cmp b a with
        | .eq => listCmp cmp bs as
        | o => o) = (match cmp a b with
        | .eq => listCmp cmp as bs
        | o => o).swap
      rw [hswap a b]
      cases cmp a b with
      | lt => rfl
      | eq => exact ih bs
      | gt => rfl

theorem listCmp_letrans {α : Type} (cmp : α → α → Ordering)
    (hswap : ∀ a b, cmp b a = (cmp a b).swap)
    (htr : ∀ a b c, cmp a b ≠ .gt → cmp b c ≠ .gt → cmp a c ≠ .gt) :
    ∀ (l1 l2 l3 : List α), listCmp cmp l1 l2 ≠ .gt → listCmp cmp l2 l3 ≠ .gt →
      listCmp cmp l1 l3 ≠ .gt := by
  intro l1
  induction l1 with
  | nil =>
    intro l2 l3 _ _
    cases l3 <;> simp [listCmp]
  | cons a as ih =>
    intro l2 l3 h12 h23
    cases l2 with
    | nil => exact absurd rfl h12
    | cons b bs =>
      cases l3 with
      | nil => exact absurd rfl h23
      | cons c cs =>
        have h12' : (match cmp a b with
          | .eq => listCmp cmp as bs
          | o => o) ≠ .gt := h12
        have h23' : (match cmp b c with
          | .eq => listCmp cmp bs cs
          | o => o) ≠ .gt := h23
        have hab : cmp a b ≠ .gt := by
          intro hg
          rw [hg] at h12'
          exact h12' rfl
        have hbc : cmp b c ≠ .gt := by
          intro hg
          rw [hg] at h23'
          exact h23' rfl
        show (match cmp a c with
          | .eq => listCmp cmp as cs
          | o => o) ≠ .gt
        cases hac : cmp a c with
        | lt => simp
        | gt => exact absurd hac (htr a b c hab hbc)
        | eq =>
          obtain ⟨he1, he2⟩ := lin_eq_components cmp hswap htr hab hbc hac
          rw [he1] at h12'
          rw [he2] at h23'
          exact ih bs cs h12' h23'

theorem strCmp_swap (s t : String) : strCmp t s = (strCmp s t).swap :=
  listCmp_swap (fun (a b : Char) => intCmp a.toNat b.toNat)
    (fun a b => intCmp_swap a.toNat b.toNat) s.data t.data

theorem strCmp_letrans {s t u : String} (h1 : strCmp s t ≠ .gt) (h2 : strCmp t u ≠ .gt) :
    strCmp s u ≠ .gt :=
  listCmp_letrans (fun (a b : Char) => intCmp a.toNat b.toNat)
    (fun a b => intCmp_swap a.toNat b.toNat)
    (fun _ _ _ hab hbc => intCmp_letrans hab hbc) s.data t.data u.data h1 h2

theorem valueCmp_swap (a b : Value) : valueCmp b a = (valueCmp a b).swap := by
  cases a <;> cases b <;>
    simp only [valueCmp, numVal, valueRankC] <;>
    first
      | exact fcmpK_swap _ _
      | exact strCmp_swap _ _
      | exact intCmp_swap _ _
      | rfl

theorem valueCmp_letrans {a b c : Value} (h1 : valueCmp a b ≠ .gt)
    (h2 : valueCmp b c ≠ .gt) : valueCmp a c ≠ .gt := by
  cases a <;> cases b <;> cases c <;>
    simp only [valueCmp, numVal, valueRankC] at h1 h2 ⊢ <;>
    first
      | exact fcmpK_letrans h1 h2
      | exact strCmp_letrans h1 h2
      | exact intCmp_letrans h1 h2
      | exact h1
      | exact h2
      | exact absurd (by decide) h1
      | exact absurd (by decide) h2
      | decide

theorem pairCmp_swap (a b : String × Value) : pairCmp b a = (pairCmp a b).swap := by
  unfold pairCmp
  rw [strCmp_swap]
  cases strCmp a.1 b.1 with
  | lt => rfl
  | eq => exact valueCmp_swap a.2 b.2
  | gt => rfl

theorem pairCmp_letrans {a b c : String × Value} (h1 : pairCmp a b ≠ .gt)
    (h2 : pairCmp b c ≠ .gt) : pairCmp a c ≠ .gt := by
  unfold pairCmp at h1 h2 ⊢
  have hab : strCmp a.1 b.1 ≠ .gt := by
    intro hg
    rw [hg] at h1
    exact h1 rfl
  have hbc : strCmp b.1 c.1 ≠ .gt := by
    intro hg
    rw [hg] at h2
    exact h2 rfl
  cases hac : strCmp a.1 c.1 with
  | lt => simp
  | gt => exact absurd hac (strCmp_letrans hab hbc)
  | eq =>
    obtain ⟨he1, he2⟩ := lin_eq_components strCmp (fun x y => strCmp_swap x y)
      (fun _ _ _ hx hy => strCmp_letrans hx hy) hab hbc hac
    rw [he1] at h1
    rw [he2] at h2
    have h1' : valueCmp a.2 b.2 ≠ .gt := h1
    have h2' : valueCmp b.2 c.2 ≠ .gt := h2
    have : valueCmp a.2 c.2 ≠ .gt := valueCmp_letrans h1' h2'
    exact this

theorem comboLe_iff (c₁ c₂ : List (String × Value)) :
    comboLe c₁ c₂ = true ↔ listCmp pairCmp (sortKey c₁) (sortKey c₂) ≠ .gt := by
  unfold comboLe
  simp

theorem comboLe_trans {c₁ c₂ c₃ : List (String × Value)}
    (h1 : comboLe c₁ c₂ = true) (h2 : comboLe c₂ c₃ = true) : comboLe c₁ c₃ = true := by
  rw [comboLe_iff] at h1 h2 ⊢
  exact listCmp_letrans pairCmp (fun x y => pairCmp_swap x y)
    (fun _ _ _ hx hy => pairCmp_letrans hx hy) _ _ _ h1 h2

theorem comboLe_total (c₁ c₂ : List (String × Value)) :
    (comboLe c₁ c₂ || comboLe c₂ c₁) = true := by
  rcases h : comboLe c₁ c₂ with _ | _
  · rw [Bool.false_or]
    rw [comboLe_iff]
    unfold comboLe at h
    simp only [ne_eq, decide_eq_true_eq, Decidable.not_not, decide_eq_false_iff_not,
      not_not] at h
    rw [listCmp_swap pairCmp (fun x y => pairCmp_swap x y), h]
    decide
  · rfl

theorem filterExcept_mem {α : Type} (f : α → Except PyErr Bool) :
    ∀ (l out : List α), filterExcept f l = .ok out →
      ∀ x ∈ out, x ∈ l ∧ f x = .ok true := by
  intro l
  induction l with
  | nil =>
    intro out h x hx
    have h0 : (Except.ok [] : Except PyErr (List α)) = .ok out := h
    cases h0
    cases hx
  | cons a rest ih =>
    intro out h x hx
    have h' : (f a >>= fun b => filterExcept f rest >>= fun r =>
        pure (if b then a :: r else r)) = .ok out := h
    obtain ⟨b, hb, h2⟩ := bind_ok_elim h'
    obtain ⟨r, hr, h3⟩ := bind_ok_elim h2
    have h4 : (Except.ok (if b then a :: r else r) : Except PyErr (List α)) = .ok out := h3
    cases h4
    cases b with
    | true =>
      rcases List.mem_cons.1 hx with rfl | hmem
      · exact ⟨List.mem_cons_self _ _, hb⟩
      · obtain ⟨hm, hf⟩ := ih r hr x hmem
        exact ⟨List.mem_cons_of_mem a hm, hf⟩
    | false =>
      obtain ⟨hm, hf⟩ := ih r hr x hx
      exact ⟨List.mem_cons_of_mem a hm, hf⟩

theorem cartProd_mem :
    ∀ (gp : Dict (List Value)) (c : List (String × Value)), c ∈ cartProd gp →
      c.length = gp.length := by
  intro gp
  induction gp with
  | nil =>
    intro c hc
    have : c = [] := List.mem_singleton.1 hc
    rw [this]
    rfl
  | cons kv rest ih =>
    intro c hc
    obtain ⟨k, vs⟩ := kv
    have haux : ∀ (ws : List Value),
        c ∈ ws.foldr (fun v acc => (cartProd rest).map (fun c => (k, v) :: c) ++ acc) [] →
        c.length = rest.length + 1 := by
      intro ws
      induction ws with
      | nil => intro hx; cases hx
      | cons w ws' ihw =>
        intro hx
        rcases List.mem_append.1 hx with hx1 | hx2
        · obtain ⟨c', hc', rfl⟩ := List.mem_map.1 hx1
          simp [ih c' hc']
        · exact ihw hx2
    exact haux vs hc

theorem combo_fold_sound (mtypes : Dict String) (raw : List Record)
    (c : List (String × Value)) :
    ∀ (l : List (String × Value)) (acc : Bool),
      (l.foldlM
        (fun acc kv => do
          let t ←
            match dlookup mtypes kv.1 with
            | some t => pure t
            | none => .error .keyErr
          let d ←
            match default_table t with
            | some d => pure d
            | none => .error .keyErr
          pure (acc ∧ ¬pyEq d kv.2 ∧ raw.any (fun r => subsetOfRec c r)))
        acc : Except PyErr Bool) = .ok true →
      acc = true ∧ ∀ kv ∈ l, ∃ t d, dlookup mtypes kv.1 = some t ∧
        default_table t = some d ∧ pyEq d kv.2 = false ∧
        raw.any (fun r => subsetOfRec c r) = true := by
  intro l
  induction l with
  | nil =>
    intro acc h
    have h0 : (Except.ok acc : Except PyErr Bool) = .ok true := h
    have h1 : acc = true := by injection h0
    exact ⟨h1, fun kv hkv => absurd hkv (List.not_mem_nil kv)⟩
  | cons kv rest ih =>
    intro acc h
    rw [List.foldlM_cons] at h
    obtain ⟨acc1, hstep, hrest⟩ := bind_ok_elim h
    obtain ⟨hacc1, hall⟩ := ih acc1 hrest
    subst hacc1
    split at hstep
    rotate_left
    · have hstep2 : (Except.error PyErr.keyErr : Except PyErr Bool) = .ok true := hstep
      cases hstep2
    · rename_i t hmt
      have hstepB : (match default_table t with
        | some d => (Except.ok (decide (acc = true ∧ ¬pyEq d kv.2 = true ∧
            (raw.any fun r => subsetOfRec c r) = true)) : Except PyErr Bool)
        | none => Except.error PyErr.keyErr) = Except.ok true := hstep
      clear hstep
      split at hstepB
      rotate_left
      · cases hstepB
      · rename_i d hdt
        have hstep3 : (Except.ok (decide (acc = true ∧ ¬pyEq d kv.2 = true ∧
            raw.any (fun r => subsetOfRec c r) = true)) : Except PyErr Bool) = .ok true := hstepB
        have hstep4 : decide (acc = true ∧ ¬pyEq d kv.2 = true ∧
            raw.any (fun r => subsetOfRec c r) = true) = true := by injection hstep3
        simp only [decide_eq_true_eq] at hstep4
        obtain ⟨ha, hne, hany⟩ := hstep4
        refine ⟨ha, fun kv' hkv' => ?_⟩
        rcases List.mem_cons.1 hkv' with rfl | hmem
        · exact ⟨t, d, hmt, hdt, by
            cases hpe : pyEq d kv'.2
            · rfl
            · exact absurd hpe hne, hany⟩
        · exact hall kv' hmem

theorem combo_valid_sound {mtypes : Dict String} {raw : List Record}
    {c : List (String × Value)}
    (h : combo_valid mtypes raw c = .ok true) :
    ∀ kv ∈ c, ∃ t d, dlookup mtypes kv.1 = some t ∧ default_table t = some d ∧
      pyEq d kv.2 = false ∧ raw.any (fun r => subsetOfRec c r) = true := by
  unfold combo_valid at h
  exact (combo_fold_sound mtypes raw c c true h).2

/-- C7: every combination in the emitted axis-combination list has only
coordinates that differ (by Python `==`) from their metric's type default,
is witnessed as a sub-mapping of at least one record of the unit's raw
accumulation, and spans exactly the unit's graph parameters; and the list
is sorted (pairwise) by the order on sorted key/value pairs of git.py
1541. -/
theorem C7 : ∀ (mtypes : Dict String) (gp : Dict (List Value)) (raw : List Record)
    (out : List (List (String × Value))),
    gen_valid_combinations mtypes gp raw = .ok out →
    (∀ c ∈ out, (∀ kv ∈ c, ∃ t d, dlookup mtypes kv.1 = some t ∧
        default_table t = some d ∧ pyEq d kv.2 = false ∧
        raw.any (fun r => subsetOfRec c r) = true) ∧ c.length = gp.length) ∧
    List.Pairwise (fun c₁ c₂ => comboLe c₁ c₂ = true) out := by
  intro mtypes gp raw out h
  unfold gen_valid_combinations at h
  obtain ⟨valid, hval, h2⟩ := bind_ok_elim h
  have h3 : (Except.ok (valid.mergeSort comboLe) :
      Except PyErr (List (List (String × Value)))) = .ok out := h2
  cases h3
  constructor
  · intro c hc
    have hcv : c ∈ valid := List.mem_mergeSort.1 hc
    obtain ⟨hcin, hcval⟩ := filterExcept_mem (combo_valid mtypes raw) _ valid hval c hcv
    refine ⟨combo_valid_sound hcval, ?_⟩
    cases hgp : gp.isEmpty with
    | true =>
      rw [hgp] at hcin
      have : c ∈ ([] : List (List (String × Value))) := hcin
      cases this
    | false =>
      rw [hgp] at hcin
      have : c ∈ cartProd gp := hcin
      exact cartProd_mem gp c this
  · exact @List.sorted_mergeSort (List (String × Value)) comboLe
      (fun a b c hab hbc => comboLe_trans hab hbc) comboLe_total valid

/-- C7, witnessed on a one-parameter unit with a single surviving
combination. -/
theorem C7_witness :
    gen_valid_combinations [("p", "str")] [("p", [Value.vStr "x"])]
      [[("p", Value.vStr "x")]] = .ok [[("p", Value.vStr "x")]] ∧
    ((∀ c ∈ [[("p", Value.vStr "x")]], (∀ kv ∈ c, ∃ t d,
        dlookup [("p", "str")] kv.1 = some t ∧ default_table t = some d ∧
        pyEq d kv.2 = false ∧
        [[("p", Value.vStr "x")]].any (fun r => subsetOfRec c r) = true) ∧
      c.length = ([("p", [Value.vStr "x"])] : Dict (List Value)).length) ∧
    List.Pairwise (fun c₁ c₂ => comboLe c₁ c₂ = true) [[("p", Value.vStr "x")]]) := by
  have hval : filterExcept (combo_valid [("p", "str")] [[("p", Value.vStr "x")]])
      (if ([("p", [Value.vStr "x"])] : Dict (List Value)).isEmpty then []
       else cartProd [("p", [Value.vStr "x"])]) = .ok [[("p", Value.vStr "x")]] := by
    decide
  have he : gen_valid_combinations [("p", "str")] [("p", [Value.vStr "x"])]
      [[("p", Value.vStr "x")]] = .ok [[("p", Value.vStr "x")]] := by
    unfold gen_valid_combinations
    show (filterExcept (combo_valid [("p", "str")] [[("p", Value.vStr "x")]])
        (if ([("p", [Value.vStr "x"])] : Dict (List Value)).isEmpty then []
         else cartProd [("p", [Value.vStr "x"])]) >>= fun valid =>
        (pure (valid.mergeSort comboLe) :
          Except PyErr (List (List (String × Value))))) = .ok [[("p", Value.vStr "x")]]
    rw [hval, ok_bind, List.mergeSort_singleton]
    rfl
  exact ⟨he, C7 [("p", "str")] [("p", [Value.vStr "x"])] [[("p", Value.vStr "x")]]
    [[("p", Value.vStr "x")]] he⟩

theorem toDigitsCore_decRepr :
    ∀ (fuel n : Nat) (ds : List Char), n < fuel →
      Nat.toDigitsCore 10 fuel n ds = decRepr n ++ ds := by
  intro fuel
  induction fuel with
  | zero => intro n ds h; omega
  | succ fuel ih =>
    intro n ds h
    show (let d := (n % 10).digitChar
      let n' := n / 10
      if n' = 0 then d :: ds else Nat.toDigitsCore 10 fuel n' (d :: ds)) = decRepr n ++ ds
    by_cases h0 : n / 10 = 0
    · have hn : n < 10 := by omega
      rw [if_pos h0, decRepr, if_pos hn, Nat.mod_eq_of_lt hn]
      rfl
    · have hn : ¬ n < 10 := by omega
      rw [if_neg h0, decRepr, if_neg hn]
      rw [ih (n / 10) ((n % 10).digitChar :: ds) (by omega)]
      simp

theorem digitVal_digitChar {d : Nat} (h : d < 10) : digitVal d.digitChar = d := by
  interval_cases d <;> decide

theorem digitsToNat_append_one (l : List Char) (c : Char) :
    digitsToNat (l ++ [c]) = digitsToNat l * 10 + digitVal c := by
  unfold digitsToNat
  rw [List.foldl_append]
  rfl

theorem digitsToNat_decRepr : ∀ n : Nat, digitsToNat (decRepr n) = n := by
  intro n
  induction n using Nat.strong_induction_on with
  | _ n ih =>
    by_cases h : n < 10
    · rw [decRepr, if_pos h]
      show digitsToNat ([] ++ [n.digitChar]) = n
      rw [digitsToNat_append_one]
      simp [digitsToNat, digitVal_digitChar h]
    · rw [decRepr, if_neg h]
      rw [digitsToNat_append_one, ih (n / 10) (by omega),
        digitVal_digitChar (Nat.mod_lt n (by omega))]
      omega

theorem decRepr_inj {m n : Nat} (h : decRepr m = decRepr n) : m = n := by
  have h1 := digitsToNat_decRepr m
  have h2 := digitsToNat_decRepr n
  rw [h] at h1
  omega

theorem repr_eq_decRepr (n : Nat) : Nat.repr n = String.mk (decRepr n) := by
  show (Nat.toDigits 10 n).asString = String.mk (decRepr n)
  unfold Nat.toDigits
  rw [toDigitsCore_decRepr (n + 1) n [] (by omega)]
  simp [List.asString]

theorem keyOf_inj {name : String} {i j : Nat} (h : keyOf name i = keyOf name j) : i = j := by
  unfold keyOf at h
  rw [repr_eq_decRepr, repr_eq_decRepr] at h
  have hd : (name ++ "_" ++ String.mk (decRepr i)).data =
      (name ++ "_" ++ String.mk (decRepr j)).data := by rw [h]
  simp only [String.data_append] at hd
  have hij : decRepr i = decRepr j := by
    simpa using hd
  exact decRepr_inj hij

theorem dlookup_dinsert_ne {α : Type} {k k' : String} (hne : k' ≠ k) :
    ∀ (d : Dict α) (v : α), dlookup (dinsert d k v) k' = dlookup d k' := by
  intro d
  induction d with
  | nil =>
    intro v
    show (if k = k' then some v else none) = none
    rw [if_neg (fun h => hne h.symm)]
  | cons kv rest ih =>
    intro v
    obtain ⟨k0, v0⟩ := kv
    show dlookup (if k0 = k then (k, v) :: rest else (k0, v0) :: dinsert rest k v) k' =
      (if k0 = k' then some v0 else dlookup rest k')
    by_cases h0 : k0 = k
    · rw [if_pos h0, if_neg (by rw [← h0] at hne; exact fun h => hne h.symm)]
      show (if k = k' then some v else dlookup rest k') = dlookup rest k'
      rw [if_neg (fun h => hne h.symm)]
    · rw [if_neg h0]
      show (if k0 = k' then some v0 else dlookup (dinsert rest k v) k') = _
      by_cases h1 : k0 = k'
      · rw [if_pos h1, if_pos h1]
      · rw [if_neg h1, if_neg h1]
        exact ih v

theorem mem_dkeys_dinsert {α : Type} {d : Dict α} {k k' : String} {v : α}
    (h : k' ∈ dkeys (dinsert d k v)) : k' ∈ dkeys d ∨ k' = k := by
  rw [dkeys_dinsert] at h
  split at h
  · exact Or.inl h
  · rcases List.mem_append.1 h with h1 | h2
    · exact Or.inl h1
    · exact Or.inr (List.mem_singleton.1 h2)

theorem emit_spec (name : String) (params : List String) :
    ∀ (rows : List Record) (c : Nat) (d : Dict Record),
      (∀ k ∈ dkeys d, ∃ i, i < c ∧ k = keyOf name i) →
      (emit name params c d rows).1 = c + rows.length ∧
      (∀ k ∈ dkeys d, dlookup (emit name params c d rows).2 k = dlookup d k) ∧
      (∀ k ∈ dkeys (emit name params c d rows).2, ∃ i,
        i < c + rows.length ∧ k = keyOf name i) := by
  intro rows
  induction rows with
  | nil =>
    intro c d hinv
    refine ⟨rfl, fun k _ => rfl, fun k hk => ?_⟩
    obtain ⟨i, hi, hk'⟩ := hinv k hk
    exact ⟨i, by omega, hk'⟩
  | cons r rs ih =>
    intro c d hinv
    have hfresh : keyOf name c ∉ dkeys d := by
      intro hmem
      obtain ⟨i, hi, hk⟩ := hinv _ hmem
      have : i = c := keyOf_inj hk.symm
      omega
    have hinv' : ∀ k ∈ dkeys (dinsert d (keyOf name c)
        (dinsert r "id" (.vStr (idJoin params r)))), ∃ i, i < c + 1 ∧ k = keyOf name i := by
      intro k hk
      rcases mem_dkeys_dinsert hk with h1 | h2
      · obtain ⟨i, hi, hk'⟩ := hinv k h1
        exact ⟨i, by omega, hk'⟩
      · exact ⟨c, by omega, h2⟩
    obtain ⟨ihc, ihpres, ihinv⟩ := ih (c + 1)
      (dinsert d (keyOf name c) (dinsert r "id" (.vStr (idJoin params r)))) hinv'
    refine ⟨?_, ?_, ?_⟩
    · show (emit name params (c + 1) (dinsert d (keyOf name c)
        (dinsert r "id" (.vStr (idJoin params r)))) rs).1 = c + (r :: rs).length
      rw [ihc]
      simp
      omega
    · intro k hk
      obtain ⟨i, hi, hki⟩ := hinv k hk
      have hne : k ≠ keyOf name c := by
        intro he
        rw [hki] at he
        have : i = c := keyOf_inj he
        omega
      have hmem' : k ∈ dkeys (dinsert d (keyOf name c)
          (dinsert r "id" (.vStr (idJoin params r)))) := by
        rw [dkeys_dinsert]
        split
        · exact hk
        · exact List.mem_append_left _ hk
      have hp := ihpres k hmem'
      show dlookup (emit name params (c + 1) (dinsert d (keyOf name c)
        (dinsert r "id" (.vStr (idJoin params r)))) rs).2 k = dlookup d k
      rw [hp, dlookup_dinsert_ne hne]
    · intro k hk
      obtain ⟨i, hi, hki⟩ := ihinv k hk
      exact ⟨i, by simp; omega, hki⟩

/-- C9: records are stored under `f"{combined_name}_{next(self._counter)}"`
(git.py 858) with a counter that only moves forward and is never reset,
and `Nat.repr` is injective, so all emission keys are distinct: starting
from any state whose output keys are counter-keys below the current
counter (in particular a fresh instance), a run never overwrites an
existing entry of `self._dict` — every previously stored binding is
looked up unchanged afterwards — and the invariant is preserved with the
advanced counter. -/
theorem C9 :
    ∀ (rsearch : String → String → Bool) (rsearch1 : String → String → Option String)
      (dparse : String → Option Frac) (dfmt : String → Option String)
      (cfg : UnitConfig) (files : List SourceFile) (st : UnitState) (b : Bool)
      (st' : UnitState),
      run_files rsearch rsearch1 dparse dfmt cfg st files = .ok (b, st') →
      (∀ k ∈ dkeys st.odict, ∃ i, i < st.counter ∧ k = keyOf cfg.combined_name i) →
      st.counter ≤ st'.counter ∧
      (∀ k ∈ dkeys st.odict, dlookup st'.odict k = dlookup st.odict k) ∧
      (∀ k ∈ dkeys st'.odict, ∃ i, i < st'.counter ∧ k = keyOf cfg.combined_name i) := by
  intro rs rs1 dp df cfg files
  induction files with
  | nil =>
    intro st b st' h hinv
    have h0 : (Except.ok (true, { st with lastts := st.lastts_temp }) :
        Except PyErr (Bool × UnitState)) = .ok (b, st') := h
    cases h0
    exact ⟨Nat.le_refl _, fun k _ => rfl, hinv⟩
  | cons f fs ih =>
    intro st b st' h hinv
    rw [run_files] at h
    obtain ⟨step, hps, hrest⟩ := bind_ok_elim h
    unfold process_source at hps
    obtain ⟨out, hsr, hcont⟩ := bind_ok_elim hps
    cases out with
    | skip =>
      have h0 : (Except.ok (FileStep.next st) : Except PyErr FileStep) = .ok step := hcont
      cases h0
      have hrest' : run_files rs rs1 dp df cfg st fs = .ok (b, st') := hrest
      exact ih st b st' hrest' hinv
    | tsMissing m2 =>
      have h0 : (Except.ok (FileStep.abort { st with mtypes := m2 }) :
        Except PyErr FileStep) = .ok step := hcont
      cases h0
      have h1 : (Except.ok (false, { st with mtypes := m2 }) :
        Except PyErr (Bool × UnitState)) = .ok (b, st') := hrest
      cases h1
      exact ⟨Nat.le_refl _, fun k _ => rfl, hinv⟩
    | rows rows5 m' =>
      obtain ⟨gp1, hgp1, hcont2⟩ := bind_ok_elim hcont
      obtain ⟨uA, hwt, hpure⟩ := bind_ok_elim hcont2
      have h0 : (Except.ok (FileStep.next uA) : Except PyErr FileStep) = .ok step := hpure
      cases h0
      have hrest' : run_files rs rs1 dp df cfg uA fs = .ok (b, st') := hrest
      obtain ⟨cur, ts1, hcur, hts, huA⟩ := wm_tail_ok_elim hwt
      have hodA : uA.odict = (if cur.isEmpty then (st.counter, st.odict)
          else emit cfg.combined_name cfg.params st.counter st.odict cur).2 := by
        rw [huA]
      have hcntA : uA.counter = (if cur.isEmpty then (st.counter, st.odict)
          else emit cfg.combined_name cfg.params st.counter st.odict cur).1 := by
        rw [huA]
      cases hemp : cur.isEmpty with
      | true =>
        rw [hemp, if_pos rfl] at hodA hcntA
        have hinvA : ∀ k ∈ dkeys uA.odict, ∃ i, i < uA.counter ∧
            k = keyOf cfg.combined_name i := by
          rw [hodA, hcntA]
          exact hinv
        obtain ⟨hle, hpres, hinv'⟩ := ih uA b st' hrest' hinvA
        refine ⟨?_, ?_, hinv'⟩
        · rw [hcntA] at hle
          exact hle
        · intro k hk
          have hk' : k ∈ dkeys uA.odict := by rw [hodA]; exact hk
          have := hpres k hk'
          rw [hodA] at this
          exact this
      | false =>
        rw [hemp, if_neg (fun hc => nomatch hc)] at hodA hcntA
        obtain ⟨hec, hepres, heinv⟩ :=
          emit_spec cfg.combined_name cfg.params cur st.counter st.odict hinv
        have hinvA : ∀ k ∈ dkeys uA.odict, ∃ i, i < uA.counter ∧
            k = keyOf cfg.combined_name i := by
          rw [hodA, hcntA]
          intro k hk
          obtain ⟨i, hi, hki⟩ := heinv k hk
          rw [hec]
          exact ⟨i, hi, hki⟩
        obtain ⟨hle, hpres, hinv'⟩ := ih uA b st' hrest' hinvA
        refine ⟨?_, ?_, hinv'⟩
        · rw [hcntA, hec] at hle
          omega
        · intro k hk
          have hkeep := hepres k hk
          have hkA : k ∈ dkeys uA.odict := by
            rw [hodA]
            refine (dlookup_isSome_iff_mem _ k).1 ?_
            rw [hkeep]
            exact (dlookup_isSome_iff_mem _ k).2 hk
          have := hpres k hkA
          rw [hodA] at this
          rw [this, hkeep]

/-- C9, witnessed on the single-file unit with timestamp `7` starting
from a fresh instance. -/
theorem C9_witness :
    run_files re_substr re_group_none dparse_none dfmt_none cfgC3 stC3 [fileTs7] =
      .ok (true, st1C3) ∧
    (stC3.counter ≤ st1C3.counter ∧
      (∀ k ∈ dkeys stC3.odict, dlookup st1C3.odict k = dlookup stC3.odict k) ∧
      (∀ k ∈ dkeys st1C3.odict, ∃ i, i < st1C3.counter ∧
        k = keyOf cfgC3.combined_name i)) :=
  ⟨by decide,
   C9 re_substr re_group_none dparse_none dfmt_none cfgC3 [fileTs7] stC3 true st1C3
     (by decide) (fun k hk => absurd hk (List.not_mem_nil k))⟩

theorem hget_some_lt {h : Heap} {a : Nat} {o : PyObj} (hdl : heapDomLt h)
    (hg : hget h a = some o) : a < h.nxt := by
  unfold hget at hg
  cases hf : h.mem.find? (fun kv => kv.1 = a) with
  | none => rw [hf] at hg; cases hg
  | some kv =>
    have hm := List.mem_of_find?_eq_some hf
    have hp := List.find?_some hf
    have he : kv.1 = a := by simpa using hp
    rw [← he]
    exact hdl kv hm

theorem hget_hset_ne {h : Heap} {a x : Nat} {o : PyObj} (hne : x ≠ a) :
    hget (hset h a o) x = hget h x := by
  unfold hget hset
  simp only
  induction h.mem with
  | nil => rfl
  | cons kv rest ih =>
    rw [List.map_cons]
    by_cases hk : kv.1 = a
    · rw [if_pos hk]
      rw [List.find?_cons_of_neg _ (by simp; exact fun he => hne he.symm),
        List.find?_cons_of_neg _ (by simp; rw [hk]; exact fun he => hne he.symm)]
      exact ih
    · rw [if_neg hk]
      by_cases hx : kv.1 = x
      · rw [List.find?_cons_of_pos _ (by simp [hx]), List.find?_cons_of_pos _ (by simp [hx])]
      · rw [List.find?_cons_of_neg _ (by simp [hx]), List.find?_cons_of_neg _ (by simp [hx])]
        exact ih

theorem find_map_hset_self :
    ∀ (l : List (Nat × PyObj)) (a : Nat) (o ob : PyObj),
      ((l.map (fun kv => if kv.1 = a then (a, o) else kv)).find?
        (fun kv => kv.1 = a)).map Prod.snd = some ob → ob = o := by
  intro l
  induction l with
  | nil => intro a o ob hg; cases hg
  | cons kv rest ih =>
    intro a o ob hg
    rw [List.map_cons] at hg
    by_cases hk : kv.1 = a
    · rw [if_pos hk, List.find?_cons_of_pos _ (by simp)] at hg
      simp at hg
      exact hg.symm
    · rw [if_neg hk, List.find?_cons_of_neg _ (by simp [hk])] at hg
      exact ih a o ob hg

theorem hget_hset_self_eq {h : Heap} {a : Nat} {o : PyObj} {ob : PyObj}
    (hg : hget (hset h a o) a = some ob) : ob = o := by
  unfold hget hset at hg
  exact find_map_hset_self h.mem a o ob hg

theorem hget_hset_cases {h : Heap} {a x : Nat} {o ob : PyObj}
    (hg : hget (hset h a o) x = some ob) :
    (x = a ∧ ob = o) ∨ (x ≠ a ∧ hget h x = some ob) := by
  by_cases hx : x = a
  · subst hx
    exact Or.inl ⟨rfl, hget_hset_self_eq hg⟩
  · exact Or.inr ⟨hx, by rw [← hget_hset_ne hx]; exact hg⟩

theorem hset_nxt (h : Heap) (a : Nat) (o : PyObj) : (hset h a o).nxt = h.nxt := rfl

theorem hget_halloc_ne {h : Heap} {o : PyObj} {x : Nat} (hne : x ≠ h.nxt) :
    hget (halloc h o).1 x = hget h x := by
  unfold hget halloc
  simp only
  rw [List.find?_append]
  cases hf : h.mem.find? (fun kv => kv.1 = x) with
  | some kv => rfl
  | none =>
    show ((List.find? (fun kv => kv.1 = x) [(h.nxt, o)]).map Prod.snd) = none
    rw [List.find?_cons_of_neg _ (by simp; exact fun he => hne he.symm)]
    rfl

theorem hget_halloc_self {h : Heap} {o : PyObj} (hdl : heapDomLt h) :
    hget (halloc h o).1 h.nxt = some o := by
  unfold hget halloc
  simp only
  rw [List.find?_append]
  have hf : h.mem.find? (fun kv => kv.1 = h.nxt) = none := by
    rw [List.find?_eq_none]
    intro kv hkv
    simp only [decide_eq_true_eq]
    exact Nat.ne_of_lt (hdl kv hkv)
  rw [hf]
  show ((List.find? (fun kv => kv.1 = h.nxt) [(h.nxt, o)]).map Prod.snd) = some o
  rw [List.find?_cons_of_pos _ (by simp)]
  rfl

theorem hget_halloc_cases {h : Heap} {o ob : PyObj} {x : Nat}
    (hg : hget (halloc h o).1 x = some ob) :
    hget h x = some ob ∨ (x = h.nxt ∧ ob = o) := by
  unfold hget halloc at hg
  simp only at hg
  rw [List.find?_append] at hg
  cases hf : h.mem.find? (fun kv => kv.1 = x) with
  | some kv =>
    rw [hf] at hg
    left
    unfold hget
    rw [hf]
    exact hg
  | none =>
    rw [hf] at hg
    by_cases hx : h.nxt = x
    · rw [show (Option.none.or (List.find? (fun kv => kv.1 = x) [(h.nxt, o)])) =
        List.find? (fun kv => kv.1 = x) [(h.nxt, o)] from rfl,
        List.find?_cons_of_pos _ (by simp [hx])] at hg
      simp at hg
      exact Or.inr ⟨hx.symm, hg.symm⟩
    · rw [show (Option.none.or (List.find? (fun kv => kv.1 = x) [(h.nxt, o)])) =
        List.find? (fun kv => kv.1 = x) [(h.nxt, o)] from rfl,
        List.find?_cons_of_neg _ (by simp [hx])] at hg
      cases hg

theorem halloc_nxt (h : Heap) (o : PyObj) : (halloc h o).1.nxt = h.nxt + 1 := rfl

theorem halloc_addr (h : Heap) (o : PyObj) : (halloc h o).2 = h.nxt := rfl

theorem heapDomLt_hset {h : Heap} {a : Nat} {o : PyObj} (hdl : heapDomLt h) :
    heapDomLt (hset h a o) := by
  intro kv hkv
  obtain ⟨kv0, hkv0, hmap⟩ := List.mem_map.1 hkv
  show kv.1 < h.nxt
  by_cases hk : kv0.1 = a
  · rw [if_pos hk] at hmap
    rw [← hmap]
    show a < h.nxt
    rw [← hk]
    exact hdl kv0 hkv0
  · rw [if_neg hk] at hmap
    rw [← hmap]
    exact hdl kv0 hkv0

theorem heapDomLt_halloc {h : Heap} {o : PyObj} (hdl : heapDomLt h) :
    heapDomLt (halloc h o).1 := by
  intro kv hkv
  rcases List.mem_append.1 hkv with h1 | h2
  · show kv.1 < h.nxt + 1
    exact Nat.lt_succ_of_lt (hdl kv h1)
  · rw [List.mem_singleton.1 h2]
    show h.nxt < h.nxt + 1
    omega

theorem dlookup_mem {α : Type} : ∀ {d : Dict α} {k : String} {v : α},
    dlookup d k = some v → (k, v) ∈ d := by
  intro d
  induction d with
  | nil => intro k v h; cases h
  | cons kv rest ih =>
    intro k v h
    show (k, v) ∈ kv :: rest
    unfold dlookup at h
    split at h
    · rename_i he
      have hv : kv.2 = v := by injection h
      have hkv : kv = (k, v) := by rw [← he, ← hv]
      rw [← hkv]
      exact List.mem_cons_self kv rest
    · exact List.mem_cons_of_mem kv (ih h)

theorem mem_dinsert {α : Type} : ∀ {d : Dict α} {k : String} {v : α} {kv : String × α},
    kv ∈ dinsert d k v → kv ∈ d ∨ kv = (k, v) := by
  intro d
  induction d with
  | nil =>
    intro k v kv h
    exact Or.inr (List.mem_singleton.1 h)
  | cons kv0 rest ih =>
    intro k v kv h
    show kv ∈ kv0 :: rest ∨ kv = (k, v)
    unfold dinsert at h
    split at h
    · rcases List.mem_cons.1 h with rfl | hm
      · exact Or.inr rfl
      · exact Or.inl (List.mem_cons_of_mem kv0 hm)
    · rcases List.mem_cons.1 h with rfl | hm
      · exact Or.inl (List.mem_cons_self _ _)
      · rcases ih hm with h1 | h2
        · exact Or.inl (List.mem_cons_of_mem kv0 h1)
        · exact Or.inr h2

theorem highDicts_top {h : Heap} (hdl : heapDomLt h) : highDicts h h.nxt := by
  intro b es hb hg
  have := hget_some_lt hdl hg
  omega

theorem highDicts_halloc {h : Heap} {o : PyObj} {n : Nat} (hhd : highDicts h n)
    (ho : ∀ es, o = .pdict es → ∀ kv ∈ es, n ≤ kv.2) : highDicts (halloc h o).1 n := by
  intro b es hb hg
  rcases hget_halloc_cases hg with h1 | ⟨hbe, hoe⟩
  · exact hhd b es hb h1
  · exact ho es hoe.symm

theorem highDicts_hset {h : Heap} {a : Nat} {o : PyObj} {n : Nat} (hhd : highDicts h n)
    (ho : ∀ es, o = .pdict es → ∀ kv ∈ es, n ≤ kv.2) : highDicts (hset h a o) n := by
  intro b es hb hg
  rcases hget_hset_cases hg with ⟨hba, hoe⟩ | ⟨hne, h1⟩
  · exact ho es hoe.symm
  · exact hhd b es hb h1

theorem deepcopy_specs : ∀ (fuel : Nat),
    (∀ (h : Heap) (a : Nat) (h1 : Heap) (a' : Nat),
      deepcopy fuel h a = some (h1, a') → heapDomLt h →
      heapDomLt h1 ∧ h.nxt ≤ h1.nxt ∧ h.nxt ≤ a' ∧ a' < h1.nxt ∧
      (∀ x, x < h.nxt → hget h1 x = hget h x) ∧
      (∀ n, n ≤ h.nxt → highDicts h n → highDicts h1 n)) ∧
    (∀ (h : Heap) (es : List Nat) (h1 : Heap) (es' : List Nat),
      deepcopyL fuel h es = some (h1, es') → heapDomLt h →
      heapDomLt h1 ∧ h.nxt ≤ h1.nxt ∧ (∀ e ∈ es', h.nxt ≤ e ∧ e < h1.nxt) ∧
      (∀ x, x < h.nxt → hget h1 x = hget h x) ∧
      (∀ n, n ≤ h.nxt → highDicts h n → highDicts h1 n)) ∧
    (∀ (h : Heap) (es : Dict Nat) (h1 : Heap) (es' : Dict Nat),
      deepcopyD fuel h es = some (h1, es') → heapDomLt h →
      heapDomLt h1 ∧ h.nxt ≤ h1.nxt ∧ (∀ kv ∈ es', h.nxt ≤ kv.2 ∧ kv.2 < h1.nxt) ∧
      (∀ x, x < h.nxt → hget h1 x = hget h x) ∧
      (∀ n, n ≤ h.nxt → highDicts h n → highDicts h1 n)) := by
  intro fuel
  induction fuel with
  | zero =>
    refine ⟨?_, ?_, ?_⟩
    · intro h a h1 a' hc
      have h0 : (none : Option (Heap × Nat)) = some (h1, a') := hc
      cases h0
    · intro h es h1 es' hc
      have h0 : (none : Option (Heap × List Nat)) = some (h1, es') := hc
      cases h0
    · intro h es h1 es' hc
      have h0 : (none : Option (Heap × Dict Nat)) = some (h1, es') := hc
      cases h0
  | succ fuel ih =>
    obtain ⟨ihC, ihL, ihD⟩ := ih
    refine ⟨?_, ?_, ?_⟩
    · -- deepcopy
      intro h a h1 a' hc hdl
      show heapDomLt h1 ∧ h.nxt ≤ h1.nxt ∧ h.nxt ≤ a' ∧ a' < h1.nxt ∧
        (∀ x, x < h.nxt → hget h1 x = hget h x) ∧
        (∀ n, n ≤ h.nxt → highDicts h n → highDicts h1 n)
      cases hg : hget h a with
      | none =>
        rw [deepcopy, hg] at hc
        cases hc
      | some o =>
        cases o with
        | scalar v =>
          rw [deepcopy, hg] at hc
          have hc2 : some (halloc h (PyObj.scalar v)) = some (h1, a') := hc
          have hp : halloc h (PyObj.scalar v) = (h1, a') := Option.some.inj hc2
          have hh : h1 = (halloc h (PyObj.scalar v)).1 := by rw [hp]
          have ha : a' = (halloc h (PyObj.scalar v)).2 := by rw [hp]
          subst hh
          subst ha
          refine ⟨heapDomLt_halloc hdl, ?_, ?_, ?_,
            fun x hx => hget_halloc_ne (by omega),
            fun n hn hhd => highDicts_halloc hhd (fun es he => nomatch he)⟩
          · rw [halloc_nxt]
            omega
          · rw [halloc_addr]
          · rw [halloc_addr, halloc_nxt]
            omega
        | pset vs =>
          rw [deepcopy, hg] at hc
          have hc2 : some (halloc h (PyObj.pset vs)) = some (h1, a') := hc
          have hp : halloc h (PyObj.pset vs) = (h1, a') := Option.some.inj hc2
          have hh : h1 = (halloc h (PyObj.pset vs)).1 := by rw [hp]
          have ha : a' = (halloc h (PyObj.pset vs)).2 := by rw [hp]
          subst hh
          subst ha
          refine ⟨heapDomLt_halloc hdl, ?_, ?_, ?_,
            fun x hx => hget_halloc_ne (by omega),
            fun n hn hhd => highDicts_halloc hhd (fun es he => nomatch he)⟩
          · rw [halloc_nxt]
            omega
          · rw [halloc_addr]
          · rw [halloc_addr, halloc_nxt]
            omega
        | plist es =>
          rw [deepcopy, hg] at hc
          have hc3 : (match deepcopyL fuel h es with
            | some (h', es') => some (halloc h' (PyObj.plist es'))
            | none => none) = some (h1, a') := hc
          clear hc
          cases hL : deepcopyL fuel h es with
          | none => rw [hL] at hc3; cases hc3
          | some p =>
            obtain ⟨hL1, es'⟩ := p
            rw [hL] at hc3
            obtain ⟨hdl1, hn1, hes1, hfr1, hhd1⟩ := ihL h es hL1 es' hL hdl
            have hc2 : some (halloc hL1 (PyObj.plist es')) = some (h1, a') := hc3
            have hp : halloc hL1 (PyObj.plist es') = (h1, a') := Option.some.inj hc2
            have hh : h1 = (halloc hL1 (PyObj.plist es')).1 := by rw [hp]
            have ha : a' = (halloc hL1 (PyObj.plist es')).2 := by rw [hp]
            subst hh
            subst ha
            refine ⟨heapDomLt_halloc hdl1, ?_, ?_, ?_, ?_, ?_⟩
            · rw [halloc_nxt]
              omega
            · rw [halloc_addr]
              omega
            · rw [halloc_addr, halloc_nxt]
              omega
            · intro x hx
              have h2 : hget (halloc hL1 (PyObj.plist es')).1 x = hget hL1 x :=
                hget_halloc_ne (by omega)
              rw [h2]
              exact hfr1 x hx
            · intro n hn hhd
              exact highDicts_halloc (hhd1 n hn hhd) (fun es0 he => nomatch he)
        | pdict es =>
          rw [deepcopy, hg] at hc
          have hc3 : (match deepcopyD fuel h es with
            | some (h', es') => some (halloc h' (PyObj.pdict es'))
            | none => none) = some (h1, a') := hc
          clear hc
          cases hD : deepcopyD fuel h es with
          | none => rw [hD] at hc3; cases hc3
          | some p =>
            obtain ⟨hD1, es'⟩ := p
            rw [hD] at hc3
            obtain ⟨hdl1, hn1, hes1, hfr1, hhd1⟩ := ihD h es hD1 es' hD hdl
            have hc2 : some (halloc hD1 (PyObj.pdict es')) = some (h1, a') := hc3
            have hp : halloc hD1 (PyObj.pdict es') = (h1, a') := Option.some.inj hc2
            have hh : h1 = (halloc hD1 (PyObj.pdict es')).1 := by rw [hp]
            have ha : a' = (halloc hD1 (PyObj.pdict es')).2 := by rw [hp]
            subst hh
            subst ha
            refine ⟨heapDomLt_halloc hdl1, ?_, ?_, ?_, ?_, ?_⟩
            · rw [halloc_nxt]
              omega
            · rw [halloc_addr]
              omega
            · rw [halloc_addr, halloc_nxt]
              omega
            · intro x hx
              have h2 : hget (halloc hD1 (PyObj.pdict es')).1 x = hget hD1 x :=
                hget_halloc_ne (by omega)
              rw [h2]
              exact hfr1 x hx
            · intro n hn hhd
              refine highDicts_halloc (hhd1 n hn hhd) ?_
              intro es0 he kv hkv
              have hee : es0 = es' := by
                injection he with h7
                exact h7.symm
              subst hee
              have := (hes1 kv hkv).1
              omega
    · -- deepcopyL
      intro h es h1 es' hc hdl
      induction es generalizing h h1 es' with
      | nil =>
        have h0 : some (h, ([] : List Nat)) = some (h1, es') := hc
        have hp : (h, ([] : List Nat)) = (h1, es') := Option.some.inj h0
        have hh : h1 = h := (congrArg Prod.fst hp).symm
        have he : es' = ([] : List Nat) := (congrArg Prod.snd hp).symm
        subst hh
        subst he
        exact ⟨hdl, Nat.le_refl _, fun e he => absurd he (List.not_mem_nil e),
          fun x _ => rfl, fun n _ hhd => hhd⟩
      | cons e es0 ihes =>
        rw [deepcopyL] at hc
        cases hE : deepcopy fuel h e with
        | none => rw [hE] at hc; cases hc
        | some p =>
          obtain ⟨hE1, e'⟩ := p
          rw [hE] at hc
          have hc4 : (match deepcopyL fuel hE1 es0 with
            | some (h2, es2) => some (h2, e' :: es2)
            | none => none) = some (h1, es') := hc
          clear hc
          cases hR : deepcopyL fuel hE1 es0 with
          | none => rw [hR] at hc4; cases hc4
          | some q =>
            obtain ⟨hR1, es0'⟩ := q
            rw [hR] at hc4
            have hc2 : some ((hR1, e' :: es0')) = some ((h1, es')) := hc4
            have hp : (hR1, e' :: es0') = (h1, es') := Option.some.inj hc2
            have hh : h1 = hR1 := (congrArg Prod.fst hp).symm
            have he : es' = e' :: es0' := (congrArg Prod.snd hp).symm
            subst hh
            subst he
            obtain ⟨hdlE, hnE, haE, haE2, hfrE, hhdE⟩ := ihC h e hE1 e' hE hdl
            obtain ⟨hdlR, hnR, hesR, hfrR, hhdR⟩ := ihL hE1 es0 h1 es0' hR hdlE
            refine ⟨hdlR, by omega, ?_, ?_, ?_⟩
            · intro x hx
              rcases List.mem_cons.1 hx with rfl | hm
              · exact ⟨haE, by omega⟩
              · have := hesR x hm
                exact ⟨by omega, this.2⟩
            · intro x hx
              rw [hfrR x (by omega)]
              exact hfrE x hx
            · intro n hn hhd
              exact hhdR n (by omega) (hhdE n hn hhd)
    · -- deepcopyD
      intro h es h1 es' hc hdl
      induction es generalizing h h1 es' with
      | nil =>
        have h0 : some (h, ([] : Dict Nat)) = some (h1, es') := hc
        have hp : (h, ([] : Dict Nat)) = (h1, es') := Option.some.inj h0
        have hh : h1 = h := (congrArg Prod.fst hp).symm
        have he : es' = ([] : Dict Nat) := (congrArg Prod.snd hp).symm
        subst hh
        subst he
        exact ⟨hdl, Nat.le_refl _, fun kv hkv => absurd hkv (List.not_mem_nil kv),
          fun x _ => rfl, fun n _ hhd => hhd⟩
      | cons kv es0 ihes =>
        obtain ⟨k, e⟩ := kv
        rw [deepcopyD] at hc
        cases hE : deepcopy fuel h e with
        | none => rw [hE] at hc; cases hc
        | some p =>
          obtain ⟨hE1, e'⟩ := p
          rw [hE] at hc
          have hc4 : (match deepcopyD fuel hE1 es0 with
            | some (h2, es2) => some (h2, (k, e') :: es2)
            | none => none) = some (h1, es') := hc
          clear hc
          cases hR : deepcopyD fuel hE1 es0 with
          | none => rw [hR] at hc4; cases hc4
          | some q =>
            obtain ⟨hR1, es0'⟩ := q
            rw [hR] at hc4
            have hc2 : some ((hR1, (k, e') :: es0')) = some ((h1, es')) := hc4
            have hp : (hR1, (k, e') :: es0') = (h1, es') := Option.some.inj hc2
            have hh : h1 = hR1 := (congrArg Prod.fst hp).symm
            have he : es' = (k, e') :: es0' := (congrArg Prod.snd hp).symm
            subst hh
            subst he
            obtain ⟨hdlE, hnE, haE, haE2, hfrE, hhdE⟩ := ihC h e hE1 e' hE hdl
            obtain ⟨hdlR, hnR, hesR, hfrR, hhdR⟩ := ihD hE1 es0 h1 es0' hR hdlE
            refine ⟨hdlR, by omega, ?_, ?_, ?_⟩
            · intro kv2 hkv2
              rcases List.mem_cons.1 hkv2 with rfl | hm
              · exact ⟨haE, by omega⟩
              · have := hesR kv2 hm
                exact ⟨by omega, this.2⟩
            · intro x hx
              rw [hfrR x (by omega)]
              exact hfrE x hx
            · intro n hn hhd
              exact hhdR n (by omega) (hhdE n hn hhd)

theorem merge_assign_spec (fuel : Nat) {n : Nat} {h : Heap} {t : Nat} {k : String} {sa : Nat}
    {h' : Heap}
    (hc : (match deepcopy fuel h sa with
      | some (h'', a') =>
        (match hget h'' t with
         | some (.pdict tE') => some (hset h'' t (.pdict (dinsert tE' k a')))
         | _ => none)
      | none => none) = some h')
    (hdl : heapDomLt h) (hhd : highDicts h n) (hn : n ≤ h.nxt) (ht : n ≤ t) :
    heapDomLt h' ∧ highDicts h' n ∧ h.nxt ≤ h'.nxt ∧ ∀ x, x < n → hget h' x = hget h x := by
  cases hdc : deepcopy fuel h sa with
  | none => rw [hdc] at hc; cases hc
  | some p =>
    obtain ⟨h2, a'⟩ := p
    rw [hdc] at hc
    have hc2 : (match hget h2 t with
      | some (.pdict tE') => some (hset h2 t (.pdict (dinsert tE' k a')))
      | _ => none) = some h' := hc
    obtain ⟨hdl2, hn2, ha2, ha2b, hfr2, hhd2⟩ := (deepcopy_specs fuel).1 h sa h2 a' hdc hdl
    cases hgt2 : hget h2 t with
    | none => rw [hgt2] at hc2; cases hc2
    | some o =>
      cases o with
      | scalar v => rw [hgt2] at hc2; cases hc2
      | plist es => rw [hgt2] at hc2; cases hc2
      | pset vs => rw [hgt2] at hc2; cases hc2
      | pdict tE' =>
        rw [hgt2] at hc2
        have hc3 : some (hset h2 t (.pdict (dinsert tE' k a'))) = some h' := hc2
        have hp : hset h2 t (.pdict (dinsert tE' k a')) = h' := Option.some.inj hc3
        subst hp
        refine ⟨heapDomLt_hset hdl2, ?_, ?_, ?_⟩
        · refine highDicts_hset (hhd2 n (by omega) hhd) ?_
          intro es he kv hkv
          have hee : es = dinsert tE' k a' := by
            injection he with h7
            exact h7.symm
          subst hee
          rcases mem_dinsert hkv with hm | hkveq
          · exact (hhd2 n (by omega) hhd) t tE' ht hgt2 kv hm
          · rw [hkveq]
            show n ≤ a'
            omega
        · rw [hset_nxt]
          omega
        · intro x hx
          rw [hget_hset_ne (by omega)]
          exact hfr2 x (by omega)

theorem merge_specs : ∀ (fuel : Nat) (n : Nat),
    (∀ (h : Heap) (t s : Nat) (h' : Heap),
      deep_merge fuel h t s = some h' →
      heapDomLt h → highDicts h n → n ≤ h.nxt → n ≤ t →
      heapDomLt h' ∧ highDicts h' n ∧ h.nxt ≤ h'.nxt ∧
        ∀ x, x < n → hget h' x = hget h x) ∧
    (∀ (h : Heap) (t : Nat) (es : Dict Nat) (h' : Heap),
      mergeEntries fuel h t es = some h' →
      heapDomLt h → highDicts h n → n ≤ h.nxt → n ≤ t →
      heapDomLt h' ∧ highDicts h' n ∧ h.nxt ≤ h'.nxt ∧
        ∀ x, x < n → hget h' x = hget h x) ∧
    (∀ (h : Heap) (t : Nat) (k : String) (sa : Nat) (h' : Heap),
      mergeOne fuel h t k sa = some h' →
      heapDomLt h → highDicts h n → n ≤ h.nxt → n ≤ t →
      heapDomLt h' ∧ highDicts h' n ∧ h.nxt ≤ h'.nxt ∧
        ∀ x, x < n → hget h' x = hget h x) := by
  intro fuel
  induction fuel with
  | zero =>
    intro n
    refine ⟨?_, ?_, ?_⟩
    · intro h t s h' hc
      have h0 : (none : Option Heap) = some h' := hc
      cases h0
    · intro h t es h' hc
      have h0 : (none : Option Heap) = some h' := hc
      cases h0
    · intro h t k sa h' hc
      have h0 : (none : Option Heap) = some h' := hc
      cases h0
  | succ fuel ih =>
    intro n
    obtain ⟨ihM, ihE, ihO⟩ := ih n
    refine ⟨?_, ?_, ?_⟩
    · -- deep_merge
      intro h t s h' hc hdl hhd hn ht
      rw [deep_merge] at hc
      split at hc
      · exact ihE h t _ h' hc hdl hhd hn ht
      · cases hc
    · -- mergeEntries
      intro h t es h' hc hdl hhd hn ht
      induction es generalizing h h' with
      | nil =>
        have h0 : some h = some h' := hc
        have hp : h = h' := Option.some.inj h0
        subst hp
        exact ⟨hdl, hhd, Nat.le_refl _, fun x _ => rfl⟩
      | cons kv rest ihes =>
        obtain ⟨k, sa⟩ := kv
        rw [mergeEntries] at hc
        cases hO : mergeOne fuel h t k sa with
        | none => rw [hO] at hc; cases hc
        | some hm =>
          rw [hO] at hc
          have hc2 : mergeEntries fuel hm t rest = some h' := hc
          obtain ⟨hdl1, hhd1, hn1, hfr1⟩ := ihO h t k sa hm hO hdl hhd hn ht
          obtain ⟨hdl2, hhd2, hn2, hfr2⟩ := ihE hm t rest h' hc2 hdl1 hhd1 (by omega) ht
          refine ⟨hdl2, hhd2, by omega, ?_⟩
          intro x hx
          rw [hfr2 x hx]
          exact hfr1 x hx
    · -- mergeOne
      intro h t k sa h' hc hdl hhd hn ht
      rw [mergeOne] at hc
      split at hc
      · rename_i tEntries hgt
        split at hc
        · rename_i ta hlk
          have hta : n ≤ ta := hhd t tEntries ht hgt (k, ta) (dlookup_mem hlk)
          split at hc
          · exact ihM h ta sa h' hc hdl hhd hn hta
          · rename_i tes ses hgta hgsa
            have hp : hset h ta (.plist (tes ++ ses)) = h' := Option.some.inj hc
            subst hp
            refine ⟨heapDomLt_hset hdl, highDicts_hset hhd (fun es he => nomatch he), ?_, ?_⟩
            · rw [hset_nxt]
            · intro x hx
              rw [hget_hset_ne (by omega)]
          · rename_i tvs svs hgta hgsa
            have hp : hset h ta (.pset (svs.foldl pyset_add tvs)) = h' := Option.some.inj hc
            subst hp
            refine ⟨heapDomLt_hset hdl, highDicts_hset hhd (fun es he => nomatch he), ?_, ?_⟩
            · rw [hset_nxt]
            · intro x hx
              rw [hget_hset_ne (by omega)]
          · exact merge_assign_spec fuel hc hdl hhd hn ht
        · exact merge_assign_spec fuel hc hdl hhd hn ht
      · cases hc

theorem add_specs : ∀ (fuel : Nat) (n : Nat),
    (∀ (h : Heap) (root : Nat) (tOpt : Option Nat) (s : Nat) (h' : Heap),
      addFn fuel h root tOpt s = some h' →
      heapDomLt h → highDicts h n → n ≤ h.nxt → n ≤ root →
      (∀ a, tOpt = some a → n ≤ a) →
      heapDomLt h' ∧ highDicts h' n ∧ h.nxt ≤ h'.nxt ∧
        ∀ x, x < n → hget h' x = hget h x) ∧
    (∀ (h : Heap) (root t : Nat) (es : Dict Nat) (h' : Heap),
      addEntries fuel h root t es = some h' →
      heapDomLt h → highDicts h n → n ≤ h.nxt → n ≤ root → n ≤ t →
      heapDomLt h' ∧ highDicts h' n ∧ h.nxt ≤ h'.nxt ∧
        ∀ x, x < n → hget h' x = hget h x) ∧
    (∀ (h : Heap) (root t : Nat) (k : String) (sa : Nat) (h' : Heap),
      addOne fuel h root t k sa = some h' →
      heapDomLt h → highDicts h n → n ≤ h.nxt → n ≤ root → n ≤ t →
      heapDomLt h' ∧ highDicts h' n ∧ h.nxt ≤ h'.nxt ∧
        ∀ x, x < n → hget h' x = hget h x) := by
  intro fuel
  induction fuel with
  | zero =>
    intro n
    refine ⟨?_, ?_, ?_⟩
    · intro h root tOpt s h' hc
      have h0 : (none : Option Heap) = some h' := hc
      cases h0
    · intro h root t es h' hc
      have h0 : (none : Option Heap) = some h' := hc
      cases h0
    · intro h root t k sa h' hc
      have h0 : (none : Option Heap) = some h' := hc
      cases h0
  | succ fuel ih =>
    intro n
    obtain ⟨ihA, ihE, ihO⟩ := ih n
    refine ⟨?_, ?_, ?_⟩
    · -- addFn
      intro h root tOpt s h' hc hdl hhd hn hroot hsome
      have fin : ∀ (t : Nat), n ≤ t →
          (match hget h s with
           | some (.pdict sEntries) => addEntries fuel h root t sEntries
           | _ => none) = some h' →
          heapDomLt h' ∧ highDicts h' n ∧ h.nxt ≤ h'.nxt ∧
            ∀ x, x < n → hget h' x = hget h x := by
        intro t htn hc2
        split at hc2
        · exact ihE h root t _ h' hc2 hdl hhd hn hroot htn
        · cases hc2
      rw [addFn.eq_def] at hc
      cases tOpt with
      | none => exact fin root hroot hc
      | some a =>
        have ha := hsome a rfl
        have hc3 : (let t :=
            match hget h a with
            | some (.pdict []) => root
            | _ => a
          match hget h s with
          | some (.pdict sEntries) => addEntries fuel h root t sEntries
          | _ => none) = some h' := hc
        clear hc
        cases hga : hget h a with
        | none =>
          rw [hga] at hc3
          exact fin a ha hc3
        | some o =>
          cases o with
          | scalar v =>
            rw [hga] at hc3
            exact fin a ha hc3
          | plist es =>
            rw [hga] at hc3
            exact fin a ha hc3
          | pset vs =>
            rw [hga] at hc3
            exact fin a ha hc3
          | pdict es =>
            cases es with
            | nil =>
              rw [hga] at hc3
              exact fin root hroot hc3
            | cons kv rest2 =>
              rw [hga] at hc3
              exact fin a ha hc3
    · -- addEntries
      intro h root t es h' hc hdl hhd hn hroot ht
      induction es generalizing h h' with
      | nil =>
        have h0 : some h = some h' := hc
        have hp : h = h' := Option.some.inj h0
        subst hp
        exact ⟨hdl, hhd, Nat.le_refl _, fun x _ => rfl⟩
      | cons kv rest ihes =>
        obtain ⟨k, sa⟩ := kv
        rw [addEntries] at hc
        cases hO : addOne fuel h root t k sa with
        | none => rw [hO] at hc; cases hc
        | some hm =>
          rw [hO] at hc
          have hc2 : addEntries fuel hm root t rest = some h' := hc
          obtain ⟨hdl1, hhd1, hn1, hfr1⟩ := ihO h root t k sa hm hO hdl hhd hn hroot ht
          obtain ⟨hdl2, hhd2, hn2, hfr2⟩ :=
            ihE hm root t rest h' hc2 hdl1 hhd1 (by omega) hroot ht
          refine ⟨hdl2, hhd2, by omega, ?_⟩
          intro x hx
          rw [hfr2 x hx]
          exact hfr1 x hx
    · -- addOne
      intro h root t k sa h' hc hdl hhd hn hroot ht
      rw [addOne] at hc
      split at hc
      · rename_i tEntries hgt
        split at hc
        · rename_i ta hlk
          have hta : n ≤ ta := hhd t tEntries ht hgt (k, ta) (dlookup_mem hlk)
          split at hc
          · exact ihA h root (some ta) sa h' hc hdl hhd hn hroot
              (fun a ha => by injection ha with h7; omega)
          · exact merge_assign_spec fuel hc hdl hhd hn ht
        · exact merge_assign_spec fuel hc hdl hhd hn ht
      · cases hc

theorem obind_some_elim {α β : Type} {m : Option α} {k : α → Option β} {out : β}
    (h : (m >>= k) = some out) : ∃ x, m = some x ∧ k x = some out := by
  cases m with
  | none => cases h
  | some x => exact ⟨x, rfl, h⟩

/-- Claim C10 counterexample. The spec says `benchmark_add` deep-copies every
value taken from `b`. On `heapC10` (two benchmark objects with list-valued
metric "l"), the result's merged data dict (node 10) maps "l" to node 9 whose
element list `[8, 6]` still contains address 6 - the very element node of `b`'s
list (node 5 = `[6]`): `list.extend` copies references, not values. -/
theorem C10_counterexample :
    ((benchAdd 20 heapC10 0 3 4 7).map (fun p =>
      (p.2.1, p.2.2, hget p.1 p.2.1, hget p.1 9, hget p.1 5)) =
      some (10, 11, some (.pdict [("l", 9)]), some (.plist [8, 6]),
        some (.plist [6]))) ∧
    hget heapC10 5 = some (.plist [6]) ∧ (6 : Nat) ∈ [8, 6] ∧ (6 : Nat) ∈ [6] := by
  refine ⟨by decide, by decide, by decide, by decide⟩

/-- Claim C10 (amended). `benchmark_add` never mutates either operand: every
address allocated before the call maps to an unchanged object afterwards, and
the returned result dict and config addresses are fresh (at or above the
pre-call allocation frontier). The full deep-copy property claimed by the spec
fails (see the counterexample): `deep_merge_dict` extends list values with
shared references. -/
theorem C10_amended :
    ∀ (fuel : Nat) (h : Heap) (aData aDict bData bDict : Nat) (h' : Heap) (d' c' : Nat),
      benchAdd fuel h aData aDict bData bDict = some (h', d', c') →
      heapDomLt h →
      (∀ x, x < h.nxt → hget h' x = hget h x) ∧ h.nxt ≤ d' ∧ h.nxt ≤ c' := by
  intro fuel h aData aDict bData bDict h' d' c' hc hdl
  unfold benchAdd at hc
  obtain ⟨p1, hdc1, hc⟩ := obind_some_elim hc
  obtain ⟨h1, aData'⟩ := p1
  obtain ⟨p2, hdc2, hc⟩ := obind_some_elim hc
  obtain ⟨h2, aDict'⟩ := p2
  obtain ⟨h3, hdm, hc⟩ := obind_some_elim hc
  obtain ⟨h4, haf, hc⟩ := obind_some_elim hc
  have hp : (h4, aData', aDict') = (h', d', c') := Option.some.inj hc
  have hh : h' = h4 := (congrArg Prod.fst hp).symm
  have hd : d' = aData' := (congrArg (fun q => q.2.1) hp).symm
  have hcc : c' = aDict' := (congrArg (fun q => q.2.2) hp).symm
  subst hh
  subst hd
  subst hcc
  obtain ⟨hdl1, hn1, haD1, haD1b, hfr1, hpres1⟩ :=
    (deepcopy_specs fuel).1 h aData h1 d' hdc1 hdl
  obtain ⟨hdl2, hn2, haD2, haD2b, hfr2, hpres2⟩ :=
    (deepcopy_specs fuel).1 h1 aDict h2 c' hdc2 hdl1
  have hhd0 : highDicts h h.nxt := highDicts_top hdl
  have hhd1 : highDicts h1 h.nxt := hpres1 h.nxt (Nat.le_refl _) hhd0
  have hhd2 : highDicts h2 h.nxt := hpres2 h.nxt hn1 hhd1
  obtain ⟨hdl3, hhd3, hn3, hfr3⟩ := (merge_specs fuel h.nxt).1 h2 d' bData h3 hdm
    hdl2 hhd2 (by omega) haD1
  obtain ⟨hdl4, hhd4, hn4, hfr4⟩ := (add_specs fuel h.nxt).1 h3 c' none bDict h' haf
    hdl3 hhd3 (by omega) (by omega) (fun a ha => nomatch ha)
  refine ⟨?_, haD1, by omega⟩
  intro x hx
  rw [hfr4 x hx, hfr3 x hx, hfr2 x (by omega), hfr1 x hx]

/-- Witness for C10_amended at the concrete heap `heapC10`. -/
theorem C10_amended_witness :
    benchAdd 20 heapC10 0 3 4 7 = some (heapC10', 10, 11) ∧ heapDomLt heapC10 ∧
    ((∀ x, x < heapC10.nxt → hget heapC10' x = hget heapC10 x) ∧
      heapC10.nxt ≤ 10 ∧ heapC10.nxt ≤ 11) :=
  ⟨by decide, by unfold heapDomLt; decide,
   C10_amended 20 heapC10 0 3 4 7 heapC10' 10 11 (by decide) (by unfold heapDomLt; decide)⟩

end LLview
